import Mathlib

/-!
# otlpconv: self-contained profiles to the dictionary schema

A shallow embedding of `convert.go`.  The Go code mutates one
`ProfilesDictionary` through a pointer; here every operation takes the
dictionary and returns the new one.  A run-time panic (index out of range,
nil dereference) is the result `none`.

Integer fields are `Int` (signed) or `Nat` (unsigned); every Go conversion
between widths is written out with `toInt32` / `toInt64`.

The message types come from the protobuf bindings the program imports.  Only
the fields the program reads or writes are kept; a field the program never
writes has its zero value in every record and plays no part in `proto.Equal`.
Entries of repeated message fields are taken to be non-nil, as the decoder
produces them; the singular message fields that the program dereferences
(`ProfileContainer.Profile`, `Profile.PeriodType`) are optional.  The
attribute type `KeyValue` is a parameter `KV` with decidable (structural)
equality, which is what `proto.Equal` is on it.
-/

set_option linter.dupNamespace false
set_option linter.unusedVariables false

namespace Otlpconv

/-! ## Machine integers and slices -/

/-- Go conversion `int32(x)`: the low 32 bits read as two's complement. -/
def toInt32 (x : Int) : Int := (x + 2 ^ 31) % 2 ^ 32 - 2 ^ 31

/-- Go conversion `int64(x)` (and `int(x)`, `int` being 64 bits wide). -/
def toInt64 (x : Int) : Int := (x + 2 ^ 63) % 2 ^ 64 - 2 ^ 63

/-- Slice indexing `s[i]` by a signed integer; `none` is the index-out-of-range panic. -/
def sliceAt {α : Type} (s : List α) (i : Int) : Option α :=
  if i < 0 then none else s[i.toNat]?

/-! ## Source schema (`v1experimental`) -/

namespace v1experimental

structure Link where
  TraceId : List Nat
  SpanId : List Nat
deriving DecidableEq, Repr

structure ValueType where
  Type_ : Int
  Unit_ : Int
deriving DecidableEq, Repr

structure Function where
  Name : Int
  SystemName : Int
  Filename : Int
  StartLine : Int
deriving DecidableEq, Repr

structure Line where
  FunctionIndex : Nat
  Line : Int
  Column : Int
deriving DecidableEq, Repr

structure Mapping where
  MemoryStart : Nat
  MemoryLimit : Nat
  FileOffset : Nat
  Filename : Int
  Attributes : List Nat
  HasFunctions : Bool
  HasFilenames : Bool
  HasLineNumbers : Bool
  HasInlineFrames : Bool
deriving DecidableEq, Repr

structure Location where
  MappingIndex : Nat
  Address : Nat
  Line : List Line
  IsFolded : Bool
  Attributes : List Nat
deriving DecidableEq, Repr

structure Sample where
  LocationsStartIndex : Nat
  LocationsLength : Nat
  Value : List Int
  Link : Nat
  TimestampsUnixNano : List Nat
deriving DecidableEq, Repr

structure Profile (KV : Type) where
  SampleType : List ValueType
  Sample : List Sample
  Mapping : List Mapping
  Location : List Location
  Function : List Function
  AttributeTable : List KV
  LinkTable : List Link
  StringTable : List String
  PeriodType : Option ValueType
  Period : Int
  Comment : List Int
  DefaultSampleType : Int
deriving DecidableEq, Repr

structure ProfileContainer (KV : Type) where
  ProfileId : List Nat
  StartTimeUnixNano : Nat
  EndTimeUnixNano : Nat
  Attributes : List KV
  DroppedAttributesCount : Nat
  OriginalPayloadFormat : String
  OriginalPayload : List Nat
  Profile : Option (Profile KV)
deriving DecidableEq, Repr

end v1experimental

/-- Resource message of the common schema, copied verbatim by the traversal. -/
structure Resource (KV : Type) where
  Attributes : List KV
  DroppedAttributesCount : Nat
deriving DecidableEq, Repr

/-- Instrumentation scope of the common schema, copied verbatim by the traversal. -/
structure InstrumentationScope (KV : Type) where
  Name : String
  Version : String
  Attributes : List KV
  DroppedAttributesCount : Nat
deriving DecidableEq, Repr

namespace v1experimental

structure ScopeProfiles (KV : Type) where
  Scope : Option (InstrumentationScope KV)
  Profiles : List (ProfileContainer KV)
  SchemaUrl : String
deriving DecidableEq, Repr

structure ResourceProfiles (KV : Type) where
  Resource : Option (Resource KV)
  ScopeProfiles : List (ScopeProfiles KV)
  SchemaUrl : String
deriving DecidableEq, Repr

structure ProfilesData (KV : Type) where
  ResourceProfiles : List (ResourceProfiles KV)
deriving DecidableEq, Repr

end v1experimental

/-! ## Target schema (`v1development`) -/

namespace v1development

structure Link where
  TraceId : List Nat := []
  SpanId : List Nat := []
deriving DecidableEq, Repr

structure ValueType where
  TypeStrindex : Int := 0
  UnitStrindex : Int := 0
deriving DecidableEq, Repr

structure Function where
  NameStrindex : Int := 0
  SystemNameStrindex : Int := 0
  FilenameStrindex : Int := 0
  StartLine : Int := 0
deriving DecidableEq, Repr

structure Line where
  FunctionIndex : Int := 0
  Line : Int := 0
  Column : Int := 0
deriving DecidableEq, Repr

structure Mapping where
  MemoryStart : Nat := 0
  MemoryLimit : Nat := 0
  FileOffset : Nat := 0
  FilenameStrindex : Int := 0
  HasFunctions : Bool := false
  HasFilenames : Bool := false
  HasLineNumbers : Bool := false
  HasInlineFrames : Bool := false
deriving DecidableEq, Repr

structure Location where
  MappingIndex : Option Int := none
  Address : Nat := 0
  Line : List Line := []
  IsFolded : Bool := false
  AttributeIndices : List Int := []
deriving DecidableEq, Repr

structure Sample where
  LocationsStartIndex : Int := 0
  LocationsLength : Int := 0
  Value : List Int := []
  LinkIndex : Option Int := none
  TimestampsUnixNano : List Nat := []
deriving DecidableEq, Repr

structure Profile where
  SampleType : List ValueType := []
  Sample : List Sample := []
  LocationIndices : List Int := []
  TimeNanos : Int := 0
  DurationNanos : Int := 0
  PeriodType : Option ValueType := none
  Period : Int := 0
  CommentStrindices : List Int := []
  DefaultSampleTypeIndex : Int := 0
  ProfileId : List Nat := []
  DroppedAttributesCount : Nat := 0
  OriginalPayloadFormat : String := ""
  OriginalPayload : List Nat := []
  AttributeIndices : List Int := []
deriving DecidableEq, Repr

structure ProfilesDictionary (KV : Type) where
  MappingTable : List Mapping := []
  LocationTable : List Location := []
  FunctionTable : List Function := []
  LinkTable : List Link := []
  StringTable : List String := []
  AttributeTable : List KV := []
deriving DecidableEq, Repr

structure ScopeProfiles (KV : Type) where
  Scope : Option (InstrumentationScope KV) := none
  Profiles : List Profile := []
  SchemaUrl : String := ""
deriving DecidableEq, Repr

structure ResourceProfiles (KV : Type) where
  Resource : Option (Resource KV) := none
  ScopeProfiles : List (ScopeProfiles KV) := []
  SchemaUrl : String := ""
deriving DecidableEq, Repr

structure ProfilesData (KV : Type) where
  ResourceProfiles : List (ResourceProfiles KV) := []
  Dictionary : Option (ProfilesDictionary KV) := none
deriving DecidableEq, Repr

end v1development

/-! ## The insert-or-find primitives -/

section Primitives

variable {α : Type} [DecidableEq α]

/-- The scan `for i, v := range *list` of both primitives: the first position whose
entry equals the candidate, if there is one. -/
def findEqual : List α → α → Option Nat
  | [], _ => none
  | v :: rest, candidate =>
    if v = candidate then some 0 else (findEqual rest candidate).map (· + 1)

/-- Go `findInsert`: the list after the call and the returned index. -/
def findInsert (list : List α) (candidate : α) : List α × Nat :=
  match findEqual list candidate with
  | some i => (list, i)
  | none => (list ++ [candidate], (list ++ [candidate]).length - 1)

/-- Go `findInsertProtoMessage`, with `proto.Equal` as structural equality. -/
def findInsertProtoMessage (list : List α) (candidate : α) : List α × Nat :=
  match findEqual list candidate with
  | some i => (list, i)
  | none => (list ++ [candidate], (list ++ [candidate]).length - 1)

end Primitives

/-! ## Dictionary construction -/

section Conversion

variable {KV : Type} [DecidableEq KV]

open v1development (ProfilesDictionary)

/-- The call `findInsert(&dict.StringTable, s)`: new dictionary and returned index. -/
def internString (dict : ProfilesDictionary KV) (s : String) : ProfilesDictionary KV × Nat :=
  ({ dict with StringTable := (findInsert dict.StringTable s).1 }, (findInsert dict.StringTable s).2)

/-- The call `findInsertProtoMessage(&dict.AttributeTable, kv)`. -/
def internAttribute (dict : ProfilesDictionary KV) (kv : KV) : ProfilesDictionary KV × Nat :=
  ({ dict with AttributeTable := (findInsertProtoMessage dict.AttributeTable kv).1 },
    (findInsertProtoMessage dict.AttributeTable kv).2)

/-- The call `findInsertProtoMessage(&dict.LinkTable, dlink)`. -/
def internLink (dict : ProfilesDictionary KV) (dlink : v1development.Link) :
    ProfilesDictionary KV × Nat :=
  ({ dict with LinkTable := (findInsertProtoMessage dict.LinkTable dlink).1 },
    (findInsertProtoMessage dict.LinkTable dlink).2)

/-- The call `findInsertProtoMessage(&dict.MappingTable, dmapping)`. -/
def internMapping (dict : ProfilesDictionary KV) (dmapping : v1development.Mapping) :
    ProfilesDictionary KV × Nat :=
  ({ dict with MappingTable := (findInsertProtoMessage dict.MappingTable dmapping).1 },
    (findInsertProtoMessage dict.MappingTable dmapping).2)

/-- The call `findInsertProtoMessage(&dict.FunctionTable, dfunc)`. -/
def internFunction (dict : ProfilesDictionary KV) (dfunc : v1development.Function) :
    ProfilesDictionary KV × Nat :=
  ({ dict with FunctionTable := (findInsertProtoMessage dict.FunctionTable dfunc).1 },
    (findInsertProtoMessage dict.FunctionTable dfunc).2)

/-- The call `findInsertProtoMessage(&dict.LocationTable, dloc)`. -/
def internLocation (dict : ProfilesDictionary KV) (dloc : v1development.Location) :
    ProfilesDictionary KV × Nat :=
  ({ dict with LocationTable := (findInsertProtoMessage dict.LocationTable dloc).1 },
    (findInsertProtoMessage dict.LocationTable dloc).2)

/-- Go `convertLink`. -/
def convertLink (link : v1experimental.Link) : v1development.Link :=
  { TraceId := link.TraceId, SpanId := link.SpanId }

/-- Loop of `addLinkToDictionary`. -/
def addLinkToDictionary.loop :
    List v1experimental.Link → ProfilesDictionary KV → ProfilesDictionary KV
  | [], dict => dict
  | link :: rest, dict =>
    let dLink : v1development.Link := { TraceId := link.TraceId, SpanId := link.SpanId }
    addLinkToDictionary.loop rest (internLink dict dLink).1

/-- Go `addLinkToDictionary`. -/
def addLinkToDictionary (pc : v1experimental.ProfileContainer KV)
    (dict : ProfilesDictionary KV) : Option (ProfilesDictionary KV) :=
  match pc.Profile with
  | none => none
  | some profile => some (addLinkToDictionary.loop profile.LinkTable dict)

/-- Loop of `addStringToDictionary`. -/
def addStringToDictionary.loop :
    List String → ProfilesDictionary KV → ProfilesDictionary KV
  | [], dict => dict
  | value :: rest, dict => addStringToDictionary.loop rest (internString dict value).1

/-- Go `addStringToDictionary`. -/
def addStringToDictionary (pc : v1experimental.ProfileContainer KV)
    (dict : ProfilesDictionary KV) : Option (ProfilesDictionary KV) :=
  match pc.Profile with
  | none => none
  | some profile => some (addStringToDictionary.loop profile.StringTable dict)

/-- Loop of `addAttributeToDictionary`. -/
def addAttributeToDictionary.loop :
    List KV → ProfilesDictionary KV → ProfilesDictionary KV
  | [], dict => dict
  | kv :: rest, dict => addAttributeToDictionary.loop rest (internAttribute dict kv).1

/-- Go `addAttributeToDictionary`. -/
def addAttributeToDictionary (pc : v1experimental.ProfileContainer KV)
    (dict : ProfilesDictionary KV) : Option (ProfilesDictionary KV) :=
  match pc.Profile with
  | none => none
  | some profile => some (addAttributeToDictionary.loop profile.AttributeTable dict)

/-- Inner loop of `addMappingToDictionary` over `mapping.Attributes`. -/
def addMappingToDictionary.attrs (profile : v1experimental.Profile KV) :
    List Nat → ProfilesDictionary KV → Option (ProfilesDictionary KV)
  | [], dict => some dict
  | idx :: rest, dict =>
    match profile.AttributeTable[idx]? with
    | none => none
    | some attr => addMappingToDictionary.attrs profile rest (internAttribute dict attr).1

/-- Outer loop of `addMappingToDictionary`. -/
def addMappingToDictionary.loop (profile : v1experimental.Profile KV) :
    List v1experimental.Mapping → ProfilesDictionary KV → Option (ProfilesDictionary KV)
  | [], dict => some dict
  | mapping :: rest, dict =>
    match sliceAt profile.StringTable mapping.Filename with
    | none => none
    | some filename =>
      let r := internString dict filename
      match addMappingToDictionary.attrs profile mapping.Attributes r.1 with
      | none => none
      | some dict1 =>
        let dmapping : v1development.Mapping :=
          { MemoryStart := mapping.MemoryStart
            MemoryLimit := mapping.MemoryLimit
            FileOffset := mapping.FileOffset
            FilenameStrindex := toInt32 r.2
            HasFunctions := mapping.HasFunctions
            HasFilenames := mapping.HasFilenames
            HasLineNumbers := mapping.HasLineNumbers
            HasInlineFrames := mapping.HasInlineFrames }
        addMappingToDictionary.loop profile rest (internMapping dict1 dmapping).1

/-- Go `addMappingToDictionary`. -/
def addMappingToDictionary (pc : v1experimental.ProfileContainer KV)
    (dict : ProfilesDictionary KV) : Option (ProfilesDictionary KV) :=
  match pc.Profile with
  | none => none
  | some profile => addMappingToDictionary.loop profile profile.Mapping dict

/-- Loop of `addFunctionToDictionary`. -/
def addFunctionToDictionary.loop (profile : v1experimental.Profile KV) :
    List v1experimental.Function → ProfilesDictionary KV → Option (ProfilesDictionary KV)
  | [], dict => some dict
  | function :: rest, dict =>
    match sliceAt profile.StringTable function.Name with
    | none => none
    | some name =>
      let r1 := internString dict name
      match sliceAt profile.StringTable function.SystemName with
      | none => none
      | some systemName =>
        let r2 := internString r1.1 systemName
        match sliceAt profile.StringTable function.Filename with
        | none => none
        | some filename =>
          let r3 := internString r2.1 filename
          let dfunc : v1development.Function :=
            { NameStrindex := toInt32 r1.2
              SystemNameStrindex := toInt32 r2.2
              FilenameStrindex := toInt32 r3.2
              StartLine := function.StartLine }
          addFunctionToDictionary.loop profile rest (internFunction r3.1 dfunc).1

/-- Go `addFunctionToDictionary`. -/
def addFunctionToDictionary (pc : v1experimental.ProfileContainer KV)
    (dict : ProfilesDictionary KV) : Option (ProfilesDictionary KV) :=
  match pc.Profile with
  | none => none
  | some profile => addFunctionToDictionary.loop profile profile.Function dict

/-- Go `functionEqual`; `&&` evaluates its right operand only when the left one is true. -/
def functionEqual (function : v1experimental.Function) (dfunc : v1development.Function)
    (profile : v1experimental.Profile KV) (dict : ProfilesDictionary KV) : Option Bool :=
  match sliceAt profile.StringTable function.Name, sliceAt dict.StringTable dfunc.NameStrindex with
  | some a, some b =>
    if a ≠ b then some false else
    match sliceAt profile.StringTable function.SystemName,
        sliceAt dict.StringTable dfunc.SystemNameStrindex with
    | some a, some b =>
      if a ≠ b then some false else
      match sliceAt profile.StringTable function.Filename,
          sliceAt dict.StringTable dfunc.FilenameStrindex with
      | some a, some b =>
        if a ≠ b then some false else some (decide (function.StartLine = dfunc.StartLine))
      | _, _ => none
    | _, _ => none
  | _, _ => none

/-- Loop of `lookupFunction` from position `i` on. -/
def lookupFunction.loop (function : v1experimental.Function)
    (profile : v1experimental.Profile KV) (dict : ProfilesDictionary KV) :
    List v1development.Function → Nat → Option Int
  | [], _ => some (-1)
  | dfunc :: rest, i =>
    match functionEqual function dfunc profile dict with
    | none => none
    | some true => some (toInt32 i)
    | some false => lookupFunction.loop function profile dict rest (i + 1)

/-- Go `lookupFunction`. -/
def lookupFunction (function : v1experimental.Function)
    (profile : v1experimental.Profile KV) (dict : ProfilesDictionary KV) : Option Int :=
  lookupFunction.loop function profile dict dict.FunctionTable 0

/-- Loop of `lookupMapping` from position `i` on. -/
def lookupMapping.loop (mapping : v1experimental.Mapping) :
    List v1development.Mapping → Nat → Int
  | [], _ => -1
  | dmap :: rest, i =>
    if mapping.MemoryStart = dmap.MemoryStart ∧ mapping.MemoryLimit = dmap.MemoryLimit ∧
        mapping.FileOffset = dmap.FileOffset then toInt32 i
    else lookupMapping.loop mapping rest (i + 1)

/-- Go `lookupMapping`. -/
def lookupMapping (mapping : v1experimental.Mapping) (dict : ProfilesDictionary KV) : Int :=
  lookupMapping.loop mapping dict.MappingTable 0

/-- Loop of `lookupLocation` from position `i` on. -/
def lookupLocation.loop (location : v1experimental.Location) :
    List v1development.Location → Nat → Int
  | [], _ => -1
  | loc :: rest, i =>
    if location.Address = loc.Address then toInt32 i
    else lookupLocation.loop location rest (i + 1)

/-- Go `lookupLocation`. -/
def lookupLocation (location : v1experimental.Location) (dict : ProfilesDictionary KV) : Int :=
  lookupLocation.loop location dict.LocationTable 0

/-- Loop of `addLocationToDictionary` over `loc.Line`. -/
def addLocationToDictionary.lines (profile : v1experimental.Profile KV)
    (dict : ProfilesDictionary KV) :
    List v1experimental.Line → Option (List v1development.Line)
  | [] => some []
  | line :: rest =>
    match profile.Function[line.FunctionIndex]? with
    | none => none
    | some function =>
      match lookupFunction function profile dict with
      | none => none
      | some funcIdx =>
        let dline : v1development.Line :=
          { FunctionIndex := if funcIdx ≥ 0 then funcIdx else 0
            Line := line.Line
            Column := line.Column }
        match addLocationToDictionary.lines profile dict rest with
        | none => none
        | some dlines => some (dline :: dlines)

/-- Loop of `addLocationToDictionary` over `loc.Attributes`. -/
def addLocationToDictionary.attrs (profile : v1experimental.Profile KV) :
    List Nat → ProfilesDictionary KV → Option (List Int × ProfilesDictionary KV)
  | [], dict => some ([], dict)
  | idx :: rest, dict =>
    match profile.AttributeTable[idx]? with
    | none => none
    | some attr =>
      let r := internAttribute dict attr
      match addLocationToDictionary.attrs profile rest r.1 with
      | none => none
      | some (out, dict1) => some (toInt32 r.2 :: out, dict1)

/-- Outer loop of `addLocationToDictionary`. -/
def addLocationToDictionary.loop (profile : v1experimental.Profile KV) :
    List v1experimental.Location → ProfilesDictionary KV →
      Option (List Int × ProfilesDictionary KV)
  | [], dict => some ([], dict)
  | loc :: rest, dict =>
    match profile.Mapping[loc.MappingIndex]? with
    | none => none
    | some mapping =>
      let idx := lookupMapping mapping dict
      match addLocationToDictionary.lines profile dict loc.Line with
      | none => none
      | some dlines =>
        match addLocationToDictionary.attrs profile loc.Attributes dict with
        | none => none
        | some (attrIdx, dict1) =>
          let dloc : v1development.Location :=
            { MappingIndex := if idx ≥ 0 then some idx else none
              Address := loc.Address
              Line := dlines
              IsFolded := loc.IsFolded
              AttributeIndices := attrIdx }
          let r := internLocation dict1 dloc
          match addLocationToDictionary.loop profile rest r.1 with
          | none => none
          | some (result, dict2) => some (toInt32 r.2 :: result, dict2)

/-- Go `addLocationToDictionary`. -/
def addLocationToDictionary (pc : v1experimental.ProfileContainer KV)
    (dict : ProfilesDictionary KV) : Option (List Int × ProfilesDictionary KV) :=
  match pc.Profile with
  | none => none
  | some profile => addLocationToDictionary.loop profile profile.Location dict

/-- Loop of `addSamplesToDictionary`. -/
def addSamplesToDictionary.loop (profile : v1experimental.Profile KV) :
    List v1experimental.Sample → ProfilesDictionary KV →
      Option (List v1development.Sample × ProfilesDictionary KV)
  | [], dict => some ([], dict)
  | sample :: rest, dict =>
    match profile.Location[sample.LocationsStartIndex]? with
    | none => none
    | some location =>
      let locIdx := lookupLocation location dict
      let dsmp : v1development.Sample :=
        { LocationsStartIndex := if locIdx ≥ 0 then locIdx else 0
          LocationsLength := toInt32 sample.LocationsLength
          Value := sample.Value }
      if (profile.LinkTable.length : Int) > toInt64 sample.Link then
        match profile.LinkTable[sample.Link]? with
        | none => none
        | some link =>
          let r := internLink dict (convertLink link)
          match addSamplesToDictionary.loop profile rest r.1 with
          | none => none
          | some (result, dict1) =>
            some ({ dsmp with LinkIndex := some (toInt32 r.2)
                              TimestampsUnixNano := sample.TimestampsUnixNano } :: result, dict1)
      else
        match addSamplesToDictionary.loop profile rest dict with
        | none => none
        | some (result, dict1) =>
          some ({ dsmp with TimestampsUnixNano := sample.TimestampsUnixNano } :: result, dict1)

/-- Go `addSamplesToDictionary`. -/
def addSamplesToDictionary (pc : v1experimental.ProfileContainer KV)
    (dict : ProfilesDictionary KV) :
    Option (List v1development.Sample × ProfilesDictionary KV) :=
  match pc.Profile with
  | none => none
  | some profile => addSamplesToDictionary.loop profile profile.Sample dict

/-- Go `addToDictionary`: the profile with `LocationIndices` and `Sample` set, and the
dictionary after the seven steps. -/
def addToDictionary (pc : v1experimental.ProfileContainer KV)
    (profile : v1development.Profile) (dict : ProfilesDictionary KV) :
    Option (v1development.Profile × ProfilesDictionary KV) :=
  match addLinkToDictionary pc dict with
  | none => none
  | some d1 =>
    match addStringToDictionary pc d1 with
    | none => none
    | some d2 =>
      match addAttributeToDictionary pc d2 with
      | none => none
      | some d3 =>
        match addMappingToDictionary pc d3 with
        | none => none
        | some d4 =>
          match addFunctionToDictionary pc d4 with
          | none => none
          | some d5 =>
            match addLocationToDictionary pc d5 with
            | none => none
            | some (locationIndices, d6) =>
              match addSamplesToDictionary pc d6 with
              | none => none
              | some (samples, d7) =>
                some ({ profile with LocationIndices := locationIndices, Sample := samples }, d7)

/-- The first five steps of `addToDictionary` (links, strings, attributes, mappings,
functions): the dictionary against which the locations are then resolved. -/
def addToDictionary.interned (pc : v1experimental.ProfileContainer KV)
    (dict : ProfilesDictionary KV) : Option (ProfilesDictionary KV) :=
  match addLinkToDictionary pc dict with
  | none => none
  | some d1 =>
    match addStringToDictionary pc d1 with
    | none => none
    | some d2 =>
      match addAttributeToDictionary pc d2 with
      | none => none
      | some d3 =>
        match addMappingToDictionary pc d3 with
        | none => none
        | some d4 => addFunctionToDictionary pc d4

/-- Go `convertAttributes`. -/
def convertAttributes : List KV → ProfilesDictionary KV → List Int × ProfilesDictionary KV
  | [], dict => ([], dict)
  | kv :: rest, dict =>
    let r := internAttribute dict kv
    let q := convertAttributes rest r.1
    (toInt32 r.2 :: q.1, q.2)

/-- Go `convertComments`. -/
def convertComments :
    List Int → List String → ProfilesDictionary KV → Option (List Int × ProfilesDictionary KV)
  | [], _, dict => some ([], dict)
  | idx :: rest, stringTable, dict =>
    match sliceAt stringTable idx with
    | none => none
    | some s =>
      let r := internString dict s
      match convertComments rest stringTable r.1 with
      | none => none
      | some (out, dict1) => some (toInt32 r.2 :: out, dict1)

/-- Go `convertValueType`; a nil `in` panics on the first field access. -/
def convertValueType (vt : Option v1experimental.ValueType) (stringTable : List String)
    (dict : ProfilesDictionary KV) : Option (v1development.ValueType × ProfilesDictionary KV) :=
  match vt with
  | none => none
  | some v =>
    match sliceAt stringTable v.Type_ with
    | none => none
    | some t =>
      let r1 := internString dict t
      match sliceAt stringTable v.Unit_ with
      | none => none
      | some u =>
        let r2 := internString r1.1 u
        some ({ TypeStrindex := toInt32 r1.2, UnitStrindex := toInt32 r2.2 }, r2.1)

/-- Go `convertSampleType`. -/
def convertSampleType :
    List v1experimental.ValueType → List String → ProfilesDictionary KV →
      Option (List v1development.ValueType × ProfilesDictionary KV)
  | [], _, dict => some ([], dict)
  | xs :: rest, stringTable, dict =>
    match convertValueType (some xs) stringTable dict with
    | none => none
    | some (v, dict1) =>
      match convertSampleType rest stringTable dict1 with
      | none => none
      | some (out, dict2) => some (v :: out, dict2)

/-- Body of the loop of `convertProfiles`: one profile container converted against the
dictionary built so far. -/
def convertProfiles.body (xpc : v1experimental.ProfileContainer KV)
    (dict : ProfilesDictionary KV) : Option (v1development.Profile × ProfilesDictionary KV) :=
  match addToDictionary xpc {} dict with
  | none => none
  | some (dp, d1) =>
    match xpc.Profile with
    | none => none
    | some profile =>
      match convertSampleType profile.SampleType profile.StringTable d1 with
      | none => none
      | some (sampleType, d2) =>
        match convertValueType profile.PeriodType profile.StringTable d2 with
        | none => none
        | some (periodType, d3) =>
          match convertComments profile.Comment profile.StringTable d3 with
          | none => none
          | some (comments, d4) =>
            match sliceAt profile.StringTable profile.DefaultSampleType with
            | none => none
            | some s =>
              let r := internString d4 s
              let q := convertAttributes xpc.Attributes r.1
              some ({ dp with
                        ProfileId := xpc.ProfileId
                        TimeNanos := toInt64 xpc.StartTimeUnixNano
                        DurationNanos :=
                          toInt64 (toInt64 xpc.EndTimeUnixNano - toInt64 xpc.StartTimeUnixNano)
                        DroppedAttributesCount := xpc.DroppedAttributesCount
                        OriginalPayloadFormat := xpc.OriginalPayloadFormat
                        OriginalPayload := xpc.OriginalPayload
                        SampleType := sampleType
                        PeriodType := some periodType
                        Period := profile.Period
                        CommentStrindices := comments
                        DefaultSampleTypeIndex := toInt32 r.2
                        AttributeIndices := q.1 }, q.2)

/-- Go `convertProfiles`. -/
def convertProfiles :
    List (v1experimental.ProfileContainer KV) → ProfilesDictionary KV →
      Option (List v1development.Profile × ProfilesDictionary KV)
  | [], dict => some ([], dict)
  | xpc :: rest, dict =>
    match convertProfiles.body xpc dict with
    | none => none
    | some (dp, d1) =>
      match convertProfiles rest d1 with
      | none => none
      | some (out, d2) => some (dp :: out, d2)

/-- Go `convertScopeProfiles`. -/
def convertScopeProfiles :
    List (v1experimental.ScopeProfiles KV) → ProfilesDictionary KV →
      Option (List (v1development.ScopeProfiles KV) × ProfilesDictionary KV)
  | [], dict => some ([], dict)
  | xsp :: rest, dict =>
    match convertProfiles xsp.Profiles dict with
    | none => none
    | some (profiles, d1) =>
      let dsp : v1development.ScopeProfiles KV :=
        { Scope := xsp.Scope, SchemaUrl := xsp.SchemaUrl, Profiles := profiles }
      match convertScopeProfiles rest d1 with
      | none => none
      | some (out, d2) => some (dsp :: out, d2)

/-- Go `convertResourceProfiles`. -/
def convertResourceProfiles (xrp : v1experimental.ResourceProfiles KV)
    (dict : ProfilesDictionary KV) :
    Option (v1development.ResourceProfiles KV × ProfilesDictionary KV) :=
  match convertScopeProfiles xrp.ScopeProfiles dict with
  | none => none
  | some (scopeProfiles, d1) =>
    some ({ Resource := xrp.Resource, ScopeProfiles := scopeProfiles,
            SchemaUrl := xrp.SchemaUrl }, d1)

/-- Loop of `convert`: the converted resource profiles in order, and the local
dictionary `dict` as it stands when the loop ends. -/
def convert.loop :
    List (v1experimental.ResourceProfiles KV) → ProfilesDictionary KV →
      Option (List (v1development.ResourceProfiles KV) × ProfilesDictionary KV)
  | [], dict => some ([], dict)
  | xrp :: rest, dict =>
    match convertResourceProfiles xrp dict with
    | none => none
    | some (drp, d1) =>
      match convert.loop rest d1 with
      | none => none
      | some (out, d2) => some (drp :: out, d2)

/-- Go `convert`: the output batch after the call.  The dictionary `dict` is a local
variable of the function; the only field of `out` that is assigned is
`ResourceProfiles`. -/
def convert (input : v1experimental.ProfilesData KV) (out : v1development.ProfilesData KV) :
    Option (v1development.ProfilesData KV) :=
  match convert.loop input.ResourceProfiles {} with
  | none => none
  | some (rps, _) => some { out with ResourceProfiles := out.ResourceProfiles ++ rps }

end Conversion

/-! ## Vocabulary of the specification -/

section Vocabulary

variable {KV : Type}

open v1development (ProfilesDictionary)

/-- No two distinct positions of the list hold equal entries. -/
def DistinctEntries {α : Type} (l : List α) : Prop :=
  ∀ i j, i < j → j < l.length → l[i]? ≠ l[j]?

/-- None of the six shared tables holds an entry twice. -/
def NoDuplicates (d : ProfilesDictionary KV) : Prop :=
  DistinctEntries d.StringTable ∧ DistinctEntries d.FunctionTable ∧
  DistinctEntries d.MappingTable ∧ DistinctEntries d.LocationTable ∧
  DistinctEntries d.AttributeTable ∧ DistinctEntries d.LinkTable

/-- Each shared table of `d` is an initial segment of the same table of `e`:
positions valid in `d` are valid in `e` and hold the same entries. -/
structure DictLe (d e : ProfilesDictionary KV) : Prop where
  mappings : d.MappingTable <+: e.MappingTable
  locations : d.LocationTable <+: e.LocationTable
  functions : d.FunctionTable <+: e.FunctionTable
  links : d.LinkTable <+: e.LinkTable
  strings : d.StringTable <+: e.StringTable
  attributes : d.AttributeTable <+: e.AttributeTable

/-- Every shared table has fewer than `2^31` entries, so that each position fits the
`int32` index fields of the target schema. -/
def Small (d : ProfilesDictionary KV) : Prop :=
  d.MappingTable.length < 2 ^ 31 ∧ d.LocationTable.length < 2 ^ 31 ∧
  d.FunctionTable.length < 2 ^ 31 ∧ d.LinkTable.length < 2 ^ 31 ∧
  d.StringTable.length < 2 ^ 31 ∧ d.AttributeTable.length < 2 ^ 31

/-- The index `i` is a valid position of a table with `n` entries. -/
def ValidIdx (n : Nat) (i : Int) : Prop := 0 ≤ i ∧ i < n

/-- The output profiles of a converted batch, in traversal order. -/
def outputProfiles (rps : List (v1development.ResourceProfiles KV)) :
    List v1development.Profile :=
  rps.flatMap fun rp => rp.ScopeProfiles.flatMap fun sp => sp.Profiles

/-- The profile containers of an input batch, in traversal order. -/
def inputContainers (rps : List (v1experimental.ResourceProfiles KV)) :
    List (v1experimental.ProfileContainer KV) :=
  rps.flatMap fun rp => rp.ScopeProfiles.flatMap fun sp => sp.Profiles

/-- The local string tables of a list of profile containers, concatenated in order. -/
def containerStrings (pcs : List (v1experimental.ProfileContainer KV)) : List String :=
  pcs.flatMap fun pc =>
    match pc.Profile with
    | none => []
    | some profile => profile.StringTable

/-- The local string tables of the batch, concatenated in traversal order. -/
def inputStrings (rps : List (v1experimental.ResourceProfiles KV)) : List String :=
  containerStrings (inputContainers rps)

/-- Removes every repeated entry of a list, keeping the first occurrence of each. -/
def dedupKeepFirst {α : Type} [DecidableEq α] : List α → List α
  | [] => []
  | x :: xs => x :: (dedupKeepFirst xs).filter (fun y => decide (y ≠ x))

/-- Classes of entries that a stretch of the conversion may intern, one per table. -/
structure InternPred (KV : Type) where
  str : String → Prop
  func : v1development.Function → Prop
  map : v1development.Mapping → Prop
  loc : v1development.Location → Prop
  attr : KV → Prop
  link : v1development.Link → Prop

/-- The dictionary `e` is reached from `d` by a sequence of insert-or-find calls, each
on an entry of the class `P` allows for its table. -/
inductive Interns [DecidableEq KV] (P : InternPred KV) :
    ProfilesDictionary KV → ProfilesDictionary KV → Prop
  | refl (d : ProfilesDictionary KV) : Interns P d d
  | str {d e : ProfilesDictionary KV} (s : String) :
      Interns P d e → P.str s → Interns P d (internString e s).1
  | func {d e : ProfilesDictionary KV} (x : v1development.Function) :
      Interns P d e → P.func x → Interns P d (internFunction e x).1
  | map {d e : ProfilesDictionary KV} (x : v1development.Mapping) :
      Interns P d e → P.map x → Interns P d (internMapping e x).1
  | loc {d e : ProfilesDictionary KV} (x : v1development.Location) :
      Interns P d e → P.loc x → Interns P d (internLocation e x).1
  | attr {d e : ProfilesDictionary KV} (x : KV) :
      Interns P d e → P.attr x → Interns P d (internAttribute e x).1
  | link {d e : ProfilesDictionary KV} (x : v1development.Link) :
      Interns P d e → P.link x → Interns P d (internLink e x).1

/-- The local position `i` of the string table `st` and the shared index `o` of `d`
hold the same text. -/
def SameText (st : List String) (d : ProfilesDictionary KV) (i o : Int) : Prop :=
  ∃ s, sliceAt st i = some s ∧ sliceAt d.StringTable o = some s

/-- The converted value type `o` names, through the shared string table, the type and
unit texts that `v` names through the local one. -/
def ValueTypeSpec (st : List String) (d : ProfilesDictionary KV)
    (v : v1experimental.ValueType) (o : v1development.ValueType) : Prop :=
  SameText st d v.Type_ o.TypeStrindex ∧ SameText st d v.Unit_ o.UnitStrindex

/-- The dictionary-form function `df` has the name, system name and filename texts
and the start line of the source function `f`. -/
def FunctionSpec (st : List String) (d : ProfilesDictionary KV)
    (f : v1experimental.Function) (df : v1development.Function) : Prop :=
  SameText st d f.Name df.NameStrindex ∧ SameText st d f.SystemName df.SystemNameStrindex ∧
  SameText st d f.Filename df.FilenameStrindex ∧ df.StartLine = f.StartLine

/-- The dictionary-form mapping `dm` has the memory range, file offset, filename text
and capability flags of the source mapping `m`. -/
def MappingSpec (st : List String) (d : ProfilesDictionary KV)
    (m : v1experimental.Mapping) (dm : v1development.Mapping) : Prop :=
  dm.MemoryStart = m.MemoryStart ∧ dm.MemoryLimit = m.MemoryLimit ∧
  dm.FileOffset = m.FileOffset ∧ SameText st d m.Filename dm.FilenameStrindex ∧
  dm.HasFunctions = m.HasFunctions ∧ dm.HasFilenames = m.HasFilenames ∧
  dm.HasLineNumbers = m.HasLineNumbers ∧ dm.HasInlineFrames = m.HasInlineFrames

/-- The three fields that `lookupMapping` compares. -/
def MappingKey (m : v1experimental.Mapping) (dm : v1development.Mapping) : Prop :=
  m.MemoryStart = dm.MemoryStart ∧ m.MemoryLimit = dm.MemoryLimit ∧
  m.FileOffset = dm.FileOffset

/-- The index `k` is the first position of `l` whose entry satisfies `P`. -/
def FirstAt {α : Type} (P : α → Prop) (l : List α) (k : Int) : Prop :=
  (∃ x, sliceAt l k = some x ∧ P x) ∧
  ∀ (j : Nat) (y : α), (j : Int) < k → l[j]? = some y → ¬ P y

/-- Every function of the local table has a dictionary form in the shared table. -/
def FunctionsInterned (profile : v1experimental.Profile KV) (d : ProfilesDictionary KV) :
    Prop :=
  ∀ f ∈ profile.Function, ∃ df ∈ d.FunctionTable, FunctionSpec profile.StringTable d f df

/-- Every mapping of the local table has a dictionary form in the shared table. -/
def MappingsInterned (profile : v1experimental.Profile KV) (d : ProfilesDictionary KV) :
    Prop :=
  ∀ m ∈ profile.Mapping, ∃ dm ∈ d.MappingTable, MappingSpec profile.StringTable d m dm

/-- Every location of the local table has its address in the shared table. -/
def LocationsInterned (profile : v1experimental.Profile KV) (d : ProfilesDictionary KV) :
    Prop :=
  ∀ l ∈ profile.Location, ∃ dl ∈ d.LocationTable, l.Address = dl.Address

/-- The converted line `dline` keeps line and column, and its `FunctionIndex` is a shared
position whose entry is a dictionary form of the function the source line refers to. -/
def LineSpec (profile : v1experimental.Profile KV) (d : ProfilesDictionary KV)
    (line : v1experimental.Line) (dline : v1development.Line) : Prop :=
  dline.Line = line.Line ∧ dline.Column = line.Column ∧
  ∃ f df, profile.Function[line.FunctionIndex]? = some f ∧
    sliceAt d.FunctionTable dline.FunctionIndex = some df ∧
    FunctionSpec profile.StringTable d f df

/-- The shared attribute index `o` holds the attribute at local position `idx`. -/
def AttrSpec (profile : v1experimental.Profile KV) (d : ProfilesDictionary KV)
    (idx : Nat) (o : Int) : Prop :=
  ∃ a, profile.AttributeTable[idx]? = some a ∧ sliceAt d.AttributeTable o = some a

/-- What the dictionary-form location `dl` keeps of the source location `loc`: address,
folded flag, one converted line per source line, one shared attribute index per local
attribute reference, and as mapping index the first shared mapping with the memory
start, limit and file offset of the source mapping. -/
def LocationFormSpec (profile : v1experimental.Profile KV) (d : ProfilesDictionary KV)
    (loc : v1experimental.Location) (dl : v1development.Location) : Prop :=
  dl.Address = loc.Address ∧ dl.IsFolded = loc.IsFolded ∧
  List.Forall₂ (LineSpec profile d) loc.Line dl.Line ∧
  List.Forall₂ (AttrSpec profile d) loc.Attributes dl.AttributeIndices ∧
  ∃ m k, profile.Mapping[loc.MappingIndex]? = some m ∧ dl.MappingIndex = some k ∧
    FirstAt (MappingKey m) d.MappingTable k

/-- The shared location at index `o` is a dictionary form of the source location. -/
def LocationSpec (profile : v1experimental.Profile KV) (d : ProfilesDictionary KV)
    (loc : v1experimental.Location) (o : Int) : Prop :=
  ∃ dl, sliceAt d.LocationTable o = some dl ∧ LocationFormSpec profile d loc dl

/-- What the converted sample `o` keeps of the source sample `s`. -/
def SampleSpec (profile : v1experimental.Profile KV) (d : ProfilesDictionary KV)
    (s : v1experimental.Sample) (o : v1development.Sample) : Prop :=
  (∃ loc, profile.Location[s.LocationsStartIndex]? = some loc ∧
    FirstAt (fun dl : v1development.Location => loc.Address = dl.Address)
      d.LocationTable o.LocationsStartIndex) ∧
  o.LocationsLength = toInt32 s.LocationsLength ∧ o.Value = s.Value ∧
  o.TimestampsUnixNano = s.TimestampsUnixNano ∧
  (toInt64 s.Link < profile.LinkTable.length →
    ∃ link k, profile.LinkTable[s.Link]? = some link ∧ o.LinkIndex = some k ∧
      sliceAt d.LinkTable k = some (convertLink link)) ∧
  (¬ toInt64 s.Link < profile.LinkTable.length → o.LinkIndex = none)

/-- The fields of a sample that are copied: the location count through `int32`, which
keeps the number when it is below `2^31`, and values and timestamps as they are. -/
def SampleCopySpec (s : v1experimental.Sample) (o : v1development.Sample) : Prop :=
  o.LocationsLength = toInt32 s.LocationsLength ∧
  (s.LocationsLength < 2 ^ 31 → o.LocationsLength = (s.LocationsLength : Int)) ∧
  o.Value = s.Value ∧ o.TimestampsUnixNano = s.TimestampsUnixNano

/-- The fields of a sample that are copied, all three said to keep their number. -/
def SampleCopyExact (s : v1experimental.Sample) (o : v1development.Sample) : Prop :=
  o.LocationsLength = (s.LocationsLength : Int) ∧
  o.Value = s.Value ∧ o.TimestampsUnixNano = s.TimestampsUnixNano

/-- What the converted profile `dp` keeps of the container `pc`, read against the
dictionary `d`. -/
structure ProfileSpec (pc : v1experimental.ProfileContainer KV)
    (dp : v1development.Profile) (d : ProfilesDictionary KV)
    (profile : v1experimental.Profile KV) : Prop where
  present : pc.Profile = some profile
  functions : FunctionsInterned profile d
  mappings : MappingsInterned profile d
  locations : List.Forall₂ (LocationSpec profile d) profile.Location dp.LocationIndices
  samples : List.Forall₂ (SampleSpec profile d) profile.Sample dp.Sample
  sampleType :
    List.Forall₂ (ValueTypeSpec profile.StringTable d) profile.SampleType dp.SampleType
  periodType : ∃ v o, profile.PeriodType = some v ∧ dp.PeriodType = some o ∧
    ValueTypeSpec profile.StringTable d v o
  comments : List.Forall₂ (SameText profile.StringTable d) profile.Comment dp.CommentStrindices
  defaultSampleType :
    SameText profile.StringTable d profile.DefaultSampleType dp.DefaultSampleTypeIndex
  attributes :
    List.Forall₂ (fun kv o => sliceAt d.AttributeTable o = some kv) pc.Attributes
      dp.AttributeIndices

/-- The string indices of a dictionary-form function are valid positions. -/
def FunctionValid (d : ProfilesDictionary KV) (f : v1development.Function) : Prop :=
  ValidIdx d.StringTable.length f.NameStrindex ∧
  ValidIdx d.StringTable.length f.SystemNameStrindex ∧
  ValidIdx d.StringTable.length f.FilenameStrindex

/-- The filename index of a dictionary-form mapping is a valid position. -/
def MappingValid (d : ProfilesDictionary KV) (m : v1development.Mapping) : Prop :=
  ValidIdx d.StringTable.length m.FilenameStrindex

/-- The mapping, function and attribute indices of a dictionary-form location are valid
positions. -/
def LocationValid (d : ProfilesDictionary KV) (l : v1development.Location) : Prop :=
  (∀ k, l.MappingIndex = some k → ValidIdx d.MappingTable.length k) ∧
  (∀ ln ∈ l.Line, ValidIdx d.FunctionTable.length ln.FunctionIndex) ∧
  (∀ a ∈ l.AttributeIndices, ValidIdx d.AttributeTable.length a)

/-- Every index stored in a record of the dictionary is a valid position. -/
def DictionaryValid (d : ProfilesDictionary KV) : Prop :=
  (∀ f ∈ d.FunctionTable, FunctionValid d f) ∧ (∀ m ∈ d.MappingTable, MappingValid d m) ∧
  (∀ l ∈ d.LocationTable, LocationValid d l)

/-- Both string indices of a converted value type are valid positions. -/
def ValueTypeValid (d : ProfilesDictionary KV) (v : v1development.ValueType) : Prop :=
  ValidIdx d.StringTable.length v.TypeStrindex ∧ ValidIdx d.StringTable.length v.UnitStrindex

/-- The start-location index and the link index of a converted sample are valid. -/
def SampleValid (d : ProfilesDictionary KV) (s : v1development.Sample) : Prop :=
  ValidIdx d.LocationTable.length s.LocationsStartIndex ∧
  ∀ k, s.LinkIndex = some k → ValidIdx d.LinkTable.length k

/-- Every index of a converted profile is a valid position of its shared table. -/
structure ProfileValid (d : ProfilesDictionary KV) (p : v1development.Profile) : Prop where
  sampleType : ∀ v ∈ p.SampleType, ValueTypeValid d v
  periodType : ∀ v, p.PeriodType = some v → ValueTypeValid d v
  comments : ∀ c ∈ p.CommentStrindices, ValidIdx d.StringTable.length c
  defaultSampleType : ValidIdx d.StringTable.length p.DefaultSampleTypeIndex
  attributes : ∀ a ∈ p.AttributeIndices, ValidIdx d.AttributeTable.length a
  locations : ∀ l ∈ p.LocationIndices, ValidIdx d.LocationTable.length l
  samples : ∀ s ∈ p.Sample, SampleValid d s

/-- Every index field of the profile is within range of the local table it refers to:
the string positions of functions, mappings, sample types, period type, comments and
default sample type, the attribute positions of mappings and locations, the mapping
position of a location, the function position of a line, the start-location position of
a sample; the period type is present, and the link position of a sample is below `2^63`
(a position beyond the link table means no link). -/
structure ProfileInRange (profile : v1experimental.Profile KV) : Prop where
  functions : ∀ f ∈ profile.Function,
    ValidIdx profile.StringTable.length f.Name ∧
    ValidIdx profile.StringTable.length f.SystemName ∧
    ValidIdx profile.StringTable.length f.Filename
  mappings : ∀ m ∈ profile.Mapping,
    ValidIdx profile.StringTable.length m.Filename ∧
    ∀ a ∈ m.Attributes, a < profile.AttributeTable.length
  locations : ∀ l ∈ profile.Location,
    l.MappingIndex < profile.Mapping.length ∧
    (∀ ln ∈ l.Line, ln.FunctionIndex < profile.Function.length) ∧
    ∀ a ∈ l.Attributes, a < profile.AttributeTable.length
  samples : ∀ s ∈ profile.Sample,
    s.LocationsStartIndex < profile.Location.length ∧ s.Link < 2 ^ 63
  sampleType : ∀ v ∈ profile.SampleType,
    ValidIdx profile.StringTable.length v.Type_ ∧ ValidIdx profile.StringTable.length v.Unit_
  periodType : ∃ v, profile.PeriodType = some v ∧
    ValidIdx profile.StringTable.length v.Type_ ∧ ValidIdx profile.StringTable.length v.Unit_
  comments : ∀ c ∈ profile.Comment, ValidIdx profile.StringTable.length c
  defaultSampleType : ValidIdx profile.StringTable.length profile.DefaultSampleType

/-- The container holds a profile, and every index field of it is in range. -/
def ContainerInRange (pc : v1experimental.ProfileContainer KV) : Prop :=
  ∃ profile, pc.Profile = some profile ∧ ProfileInRange profile

/-- Every profile of the batch is present and has every index field in range. -/
def BatchInRange (input : v1experimental.ProfilesData KV) : Prop :=
  ∀ pc ∈ inputContainers input.ResourceProfiles, ContainerInRange pc

/-- Every entry of the shared function table has its three string indices in range of
the shared string table: the lookups `dict.StringTable[dfunc.NameStrindex]`,
`dict.StringTable[dfunc.SystemNameStrindex]` and `dict.StringTable[dfunc.FilenameStrindex]`
of `functionEqual` are in range. -/
def FunctionsValid (d : ProfilesDictionary KV) : Prop :=
  ∀ df ∈ d.FunctionTable, FunctionValid d df

/-- Only strings of the class `S` are interned. -/
def strPred (S : String → Prop) : InternPred KV :=
  ⟨S, fun _ => False, fun _ => False, fun _ => False, fun _ => False, fun _ => False⟩

/-- Only attributes are interned. -/
def attrPred : InternPred KV :=
  ⟨fun _ => False, fun _ => False, fun _ => False, fun _ => False, fun _ => True,
    fun _ => False⟩

/-- Only links are interned. -/
def linkPred : InternPred KV :=
  ⟨fun _ => False, fun _ => False, fun _ => False, fun _ => False, fun _ => False,
    fun _ => True⟩

/-- Only strings of the class `S`, mappings and attributes are interned. -/
def mapPred (S : String → Prop) : InternPred KV :=
  ⟨S, fun _ => False, fun _ => True, fun _ => False, fun _ => True, fun _ => False⟩

/-- Only strings of the class `S` and functions are interned. -/
def funcPred (S : String → Prop) : InternPred KV :=
  ⟨S, fun _ => True, fun _ => False, fun _ => False, fun _ => False, fun _ => False⟩

/-- Strings of the class `S` are interned, and entries of the other tables according to
the five flags (functions, mappings, locations, attributes, links). -/
def tablesPred (S : String → Prop) (f m l a k : Prop) : InternPred KV :=
  ⟨S, fun _ => f, fun _ => m, fun _ => l, fun _ => a, fun _ => k⟩

/-- Only locations and attributes are interned. -/
def locPred : InternPred KV :=
  ⟨fun _ => False, fun _ => False, fun _ => False, fun _ => True, fun _ => True,
    fun _ => False⟩

/-- What the conversion of one profile may intern, read against a later dictionary `D`:
strings of the local string table, and dictionary forms of local functions, mappings and
locations (the record conditions are claimed only when `D` is small). -/
def profilePred (profile : v1experimental.Profile KV) (D : ProfilesDictionary KV) :
    InternPred KV where
  str := fun s => s ∈ profile.StringTable
  func := fun x => Small D → ∃ f ∈ profile.Function, FunctionSpec profile.StringTable D f x
  map := fun x => Small D → ∃ m ∈ profile.Mapping, MappingSpec profile.StringTable D m x
  loc := fun x => Small D → ∃ l ∈ profile.Location, LocationFormSpec profile D l x
  attr := fun _ => True
  link := fun _ => True

/-- What the conversion of a list of containers may intern, read against a later
dictionary `D`. -/
def batchPred (pcs : List (v1experimental.ProfileContainer KV))
    (D : ProfilesDictionary KV) : InternPred KV where
  str := fun s => s ∈ containerStrings pcs
  func := fun x => Small D → FunctionValid D x
  map := fun x => Small D → MappingValid D x
  loc := fun x => Small D → LocationValid D x
  attr := fun _ => True
  link := fun _ => True

/-- The string table after interning the strings of `l` one after the other. -/
def insertAll (acc l : List String) : List String :=
  l.foldl (fun a s => (findInsert a s).1) acc

/-- Every string reference of the profile resolves, through the shared string table, to
the text it named in the local one: function and mapping texts through their dictionary
forms, sample types, period type, comments and default sample type through the indices
of the converted profile. -/
structure StringRefsSpec (profile : v1experimental.Profile KV)
    (dp : v1development.Profile) (d : ProfilesDictionary KV) : Prop where
  functions : FunctionsInterned profile d
  mappings : MappingsInterned profile d
  sampleType :
    List.Forall₂ (ValueTypeSpec profile.StringTable d) profile.SampleType dp.SampleType
  periodType : ∃ v o, profile.PeriodType = some v ∧ dp.PeriodType = some o ∧
    ValueTypeSpec profile.StringTable d v o
  comments : List.Forall₂ (SameText profile.StringTable d) profile.Comment dp.CommentStrindices
  defaultSampleType :
    SameText profile.StringTable d profile.DefaultSampleType dp.DefaultSampleTypeIndex

/-- The name, system name and filename texts of a source function, read through its own
local string table, and its start line. -/
def functionTexts (st : List String) (f : v1experimental.Function) :
    Option (String × String × String × Int) :=
  match sliceAt st f.Name, sliceAt st f.SystemName, sliceAt st f.Filename with
  | some n, some s, some fl => some (n, s, fl, f.StartLine)
  | _, _, _ => none

/-- The dictionary form of a source function: each text replaced by the `int32` of the
position of its first occurrence in the shared string table. -/
def functionForm [DecidableEq KV] (st : List String) (d : ProfilesDictionary KV)
    (f : v1experimental.Function) : Option v1development.Function :=
  match functionTexts st f with
  | none => none
  | some (n, s, fl, sl) =>
    match findEqual d.StringTable n, findEqual d.StringTable s, findEqual d.StringTable fl with
    | some i, some j, some k =>
      some { NameStrindex := toInt32 i, SystemNameStrindex := toInt32 j,
             FilenameStrindex := toInt32 k, StartLine := sl }
    | _, _, _ => none

/-- The position of the shared function table at which the dictionary form of a source
function is stored. -/
def storedPosition [DecidableEq KV] (st : List String) (d : ProfilesDictionary KV)
    (f : v1experimental.Function) : Option Nat :=
  match functionForm st d f with
  | none => none
  | some df => findEqual d.FunctionTable df

/-- The entry at position `i` of the shared function table is a dictionary form of the
source function `f`: it has the name, system name and filename texts and the start line
of `f`. -/
def StoredAt (st : List String) (d : ProfilesDictionary KV)
    (f : v1experimental.Function) (i : Nat) : Prop :=
  ∃ df, d.FunctionTable[i]? = some df ∧ FunctionSpec st d f df

/-- Each of the six local tables of the profile has fewer than `2^31` entries. -/
def LocalTablesSmall (profile : v1experimental.Profile KV) : Prop :=
  profile.Mapping.length < 2 ^ 31 ∧ profile.Location.length < 2 ^ 31 ∧
  profile.Function.length < 2 ^ 31 ∧ profile.LinkTable.length < 2 ^ 31 ∧
  profile.StringTable.length < 2 ^ 31 ∧ profile.AttributeTable.length < 2 ^ 31

/-- Each converted line of the shared location at index `o` keeps the line and column of
the source line and points at a dictionary form of the function the source line names. -/
def LineRefsSpec (profile : v1experimental.Profile KV) (d : ProfilesDictionary KV)
    (loc : v1experimental.Location) (o : Int) : Prop :=
  ∃ dl, sliceAt d.LocationTable o = some dl ∧
    List.Forall₂ (LineSpec profile d) loc.Line dl.Line

/-- The mapping index of the shared location at index `o` is a position holding the
dictionary form of the mapping the source location refers to. -/
def MappingRefExact (profile : v1experimental.Profile KV) (d : ProfilesDictionary KV)
    (loc : v1experimental.Location) (o : Int) : Prop :=
  ∃ dl m k dm, sliceAt d.LocationTable o = some dl ∧
    profile.Mapping[loc.MappingIndex]? = some m ∧ dl.MappingIndex = some k ∧
    sliceAt d.MappingTable k = some dm ∧ MappingSpec profile.StringTable d m dm

/-- The mapping index of the shared location at index `o` is the first position whose
mapping has the memory start, memory limit and file offset of the mapping the source
location refers to. -/
def MappingRefFirst (profile : v1experimental.Profile KV) (d : ProfilesDictionary KV)
    (loc : v1experimental.Location) (o : Int) : Prop :=
  ∃ dl m k, sliceAt d.LocationTable o = some dl ∧
    profile.Mapping[loc.MappingIndex]? = some m ∧ dl.MappingIndex = some k ∧
    FirstAt (MappingKey m) d.MappingTable k

/-- The start index of the converted sample is the entry of the converted profile's
`LocationIndices` at the local start position of the source sample. -/
def StartRefExact (dp : v1development.Profile) (s : v1experimental.Sample)
    (o : v1development.Sample) : Prop :=
  dp.LocationIndices[s.LocationsStartIndex]? = some o.LocationsStartIndex

/-- The start index of the converted sample is the first shared position whose location
has the address of the source start location.  The entry of `LocationIndices` at the
local start position is a position with that address too, so the start index is not
beyond it, and equals it exactly when no earlier shared location has the address. -/
def StartRefFirst (profile : v1experimental.Profile KV) (dp : v1development.Profile)
    (d : ProfilesDictionary KV) (s : v1experimental.Sample) (o : v1development.Sample) :
    Prop :=
  ∃ loc li dl, profile.Location[s.LocationsStartIndex]? = some loc ∧
    FirstAt (fun dl : v1development.Location => loc.Address = dl.Address)
      d.LocationTable o.LocationsStartIndex ∧
    dp.LocationIndices[s.LocationsStartIndex]? = some li ∧
    sliceAt d.LocationTable li = some dl ∧ dl.Address = loc.Address ∧
    o.LocationsStartIndex ≤ li ∧
    (o.LocationsStartIndex = li ↔
      ∀ (j : Nat) (y : v1development.Location), (j : Int) < li →
        d.LocationTable[j]? = some y → ¬ loc.Address = y.Address)

/-- The start index that `addSamplesToDictionary` emits for the sample `s`, read against
the dictionary `d` the sample was resolved in: the first position of the shared location
table whose address is that of the source start location when there is one, and zero
when there is none. -/
def StartIndexSpec (profile : v1experimental.Profile KV) (d : ProfilesDictionary KV)
    (s : v1experimental.Sample) (o : v1development.Sample) : Prop :=
  ∃ loc, profile.Location[s.LocationsStartIndex]? = some loc ∧
    ((∃ dl ∈ d.LocationTable, loc.Address = dl.Address) →
      FirstAt (fun dl : v1development.Location => loc.Address = dl.Address)
        d.LocationTable o.LocationsStartIndex) ∧
    ((∀ dl ∈ d.LocationTable, ¬ loc.Address = dl.Address) → o.LocationsStartIndex = 0)

/-- The shared location at index `o` has the address and folded flag of the source
location, as many line entries, and one attribute index per local attribute reference,
each denoting the attribute the source location referred to. -/
def LocationCopySpec (profile : v1experimental.Profile KV) (d : ProfilesDictionary KV)
    (loc : v1experimental.Location) (o : Int) : Prop :=
  ∃ dl, sliceAt d.LocationTable o = some dl ∧ dl.Address = loc.Address ∧
    dl.IsFolded = loc.IsFolded ∧ dl.Line.length = loc.Line.length ∧
    List.Forall₂ (AttrSpec profile d) loc.Attributes dl.AttributeIndices

/-- No resolver misses while the locations of the profile are converted from `d5` to
`d6` and its samples from `d6` to `e`: at every dictionary between `d5` and `d6`,
`lookupMapping` is non-negative on the mapping of every location and `lookupFunction`,
when it returns, is non-negative on the function of every line; at every dictionary
between `d6` and `e`, `lookupLocation` is non-negative on the start location of every
sample. -/
def ResolversHit [DecidableEq KV] (profile : v1experimental.Profile KV)
    (d5 d6 e : ProfilesDictionary KV) : Prop :=
  (∀ d', DictLe d5 d' → DictLe d' d6 →
    (∀ loc ∈ profile.Location, ∀ m, profile.Mapping[loc.MappingIndex]? = some m →
      0 ≤ lookupMapping m d') ∧
    (∀ loc ∈ profile.Location, ∀ ln ∈ loc.Line, ∀ f,
      profile.Function[ln.FunctionIndex]? = some f →
        ∀ r, lookupFunction f profile d' = some r → 0 ≤ r)) ∧
  (∀ d', DictLe d6 d' → DictLe d' e →
    ∀ s ∈ profile.Sample, ∀ loc, profile.Location[s.LocationsStartIndex]? = some loc →
      0 ≤ lookupLocation loc d')

end Vocabulary

/-! ## Sample inputs -/

/-- A profile with one function `main` of `a.so`, one mapping, one location, two samples
(the second with a link position outside the link table). -/
def sampleProfileA : v1experimental.Profile String :=
  { SampleType := [⟨1, 2⟩]
    Sample := [⟨0, 1, [5], 0, [7]⟩, ⟨0, 1, [6], 3, []⟩]
    Mapping := [⟨0, 4096, 0, 3, [0], true, false, false, false⟩]
    Location := [⟨0, 100, [⟨0, 12, 3⟩], false, [0]⟩]
    Function := [⟨4, 4, 3, 9⟩]
    AttributeTable := ["k=v"]
    LinkTable := [⟨[1], [2]⟩]
    StringTable := ["", "cpu", "ns", "a.so", "main"]
    PeriodType := some ⟨1, 2⟩
    Period := 1
    Comment := [4, 3]
    DefaultSampleType := 1 }

/-- A second profile that names the same function and mapping through other positions of
its own string table. -/
def sampleProfileB : v1experimental.Profile String :=
  { SampleType := [⟨3, 4⟩]
    Sample := [⟨0, 1, [8], 0, []⟩]
    Mapping := [⟨0, 4096, 0, 2, [], true, false, false, false⟩]
    Location := [⟨0, 200, [⟨0, 40, 0⟩], false, []⟩]
    Function := [⟨1, 1, 2, 9⟩]
    AttributeTable := []
    LinkTable := []
    StringTable := ["", "main", "a.so", "wall", "ns"]
    PeriodType := some ⟨3, 4⟩
    Period := 1
    Comment := []
    DefaultSampleType := 3 }

/-- A batch of two resources with one scope and one profile each. -/
def sampleBatch : v1experimental.ProfilesData String :=
  ⟨[⟨none, [⟨none, [⟨[], 100, 150, ["x=y"], 0, "", [], some sampleProfileA⟩], ""⟩], ""⟩,
    ⟨none, [⟨none, [⟨[], 100, 150, [], 0, "", [], some sampleProfileB⟩], ""⟩], ""⟩]⟩

/-- The first converted profile of `sampleBatch`. -/
def sampleOutA : v1development.Profile :=
  { SampleType := [{ TypeStrindex := 1, UnitStrindex := 2 }]
    Sample := [{ LocationsStartIndex := 0, LocationsLength := 1, Value := [5],
                 LinkIndex := some 0, TimestampsUnixNano := [7] },
               { LocationsStartIndex := 0, LocationsLength := 1, Value := [6] }]
    LocationIndices := [0]
    TimeNanos := 100
    DurationNanos := 50
    PeriodType := some { TypeStrindex := 1, UnitStrindex := 2 }
    Period := 1
    CommentStrindices := [4, 3]
    DefaultSampleTypeIndex := 1
    AttributeIndices := [1] }

/-- The second converted profile of `sampleBatch`. -/
def sampleOutB : v1development.Profile :=
  { SampleType := [{ TypeStrindex := 5, UnitStrindex := 2 }]
    Sample := [{ LocationsStartIndex := 1, LocationsLength := 1, Value := [8] }]
    LocationIndices := [1]
    TimeNanos := 100
    DurationNanos := 50
    PeriodType := some { TypeStrindex := 5, UnitStrindex := 2 }
    Period := 1
    DefaultSampleTypeIndex := 5 }

/-- The converted resource profiles of `sampleBatch`. -/
def sampleOut : List (v1development.ResourceProfiles String) :=
  [{ ScopeProfiles := [{ Profiles := [sampleOutA] }] },
   { ScopeProfiles := [{ Profiles := [sampleOutB] }] }]

/-- The dictionary that `convert` has built when it returns on `sampleBatch`. -/
def sampleDictionary : v1development.ProfilesDictionary String :=
  { MappingTable := [{ MemoryStart := 0, MemoryLimit := 4096, FileOffset := 0,
                       FilenameStrindex := 3, HasFunctions := true }]
    LocationTable :=
      [{ MappingIndex := some 0, Address := 100,
         Line := [{ FunctionIndex := 0, Line := 12, Column := 3 }], AttributeIndices := [0] },
       { MappingIndex := some 0, Address := 200,
         Line := [{ FunctionIndex := 0, Line := 40, Column := 0 }] }]
    FunctionTable :=
      [{ NameStrindex := 4, SystemNameStrindex := 4, FilenameStrindex := 3, StartLine := 9 }]
    LinkTable := [{ TraceId := [1], SpanId := [2] }]
    StringTable := ["", "cpu", "ns", "a.so", "main", "wall"]
    AttributeTable := ["k=v", "x=y"] }

/-- A profile with two mappings of one memory range but different files, and two
locations of one address; the second location refers to the second mapping, and the
sample starts at the second location. -/
def aliasProfile : v1experimental.Profile String :=
  { SampleType := []
    Sample := [⟨1, 1, [1], 0, []⟩]
    Mapping := [⟨0, 4096, 0, 1, [], false, false, false, false⟩,
                ⟨0, 4096, 0, 2, [], false, false, false, false⟩]
    Location := [⟨0, 100, [], false, []⟩, ⟨1, 100, [], true, []⟩]
    Function := []
    AttributeTable := []
    LinkTable := []
    StringTable := ["", "a.so", "b.so"]
    PeriodType := some ⟨0, 0⟩
    Period := 0
    Comment := []
    DefaultSampleType := 0 }

/-- The batch that holds `aliasProfile` alone. -/
def aliasBatch : v1experimental.ProfilesData String :=
  ⟨[⟨none, [⟨none, [⟨[], 0, 0, [], 0, "", [], some aliasProfile⟩], ""⟩], ""⟩]⟩

/-- The converted profile of `aliasBatch`. -/
def aliasOutProfile : v1development.Profile :=
  { Sample := [{ LocationsStartIndex := 0, LocationsLength := 1, Value := [1] }]
    LocationIndices := [0, 1]
    PeriodType := some { TypeStrindex := 0, UnitStrindex := 0 } }

/-- The converted resource profiles of `aliasBatch`. -/
def aliasOut : List (v1development.ResourceProfiles String) :=
  [{ ScopeProfiles := [{ Profiles := [aliasOutProfile] }] }]

/-- The dictionary that `convert` has built when it returns on `aliasBatch`. -/
def aliasDictionary : v1development.ProfilesDictionary String :=
  { MappingTable := [{ MemoryStart := 0, MemoryLimit := 4096, FileOffset := 0,
                       FilenameStrindex := 1 },
                     { MemoryStart := 0, MemoryLimit := 4096, FileOffset := 0,
                       FilenameStrindex := 2 }]
    LocationTable := [{ MappingIndex := some 0, Address := 100 },
                      { MappingIndex := some 0, Address := 100, IsFolded := true }]
    StringTable := ["", "a.so", "b.so"] }

/-- The text made of `n` letters `a`. -/
@[irreducible]
def bigName (n : Nat) : String := String.mk (List.replicate n 'a')

/-- A string table of `2^32 + 1` pairwise distinct texts; position `k` holds
`bigName k`. -/
@[irreducible]
def bigStrings : List String := (List.range (2 ^ 32 + 1)).map bigName

/-- A profile over the string table `st`: its second function takes its name from
position `n`, its only line refers to that function, and its only comment is the text at
position `m`. -/
def wideProfile (st : List String) (n m : Nat) : v1experimental.Profile String :=
  { SampleType := []
    Sample := []
    Mapping := [⟨0, 0, 0, 0, [], false, false, false, false⟩]
    Location := [⟨0, 0, [⟨1, 0, 0⟩], false, []⟩]
    Function := [⟨0, 0, 0, 0⟩, ⟨n, 0, 0, 0⟩]
    AttributeTable := []
    LinkTable := []
    StringTable := st
    PeriodType := some ⟨0, 0⟩
    Period := 0
    Comment := [m]
    DefaultSampleType := 0 }

/-- The profile container of `wideProfile st n m`. -/
def wideContainer (st : List String) (n m : Nat) : v1experimental.ProfileContainer String :=
  ⟨[], 0, 0, [], 0, "", [], some (wideProfile st n m)⟩

/-- The batch that holds `wideProfile st n m` alone. -/
def wideBatch (st : List String) (n m : Nat) : v1experimental.ProfilesData String :=
  ⟨[⟨none, [⟨none, [wideContainer st n m], ""⟩], ""⟩]⟩

/-- The converted profile of `wideBatch st n m` when the entries of `st` are pairwise
distinct, `int32(n) = 0` and `int32(m) = c`. -/
def wideOutProfile (c : Int) : v1development.Profile :=
  { LocationIndices := [0]
    PeriodType := some { TypeStrindex := 0, UnitStrindex := 0 }
    CommentStrindices := [c] }

/-- The converted resource profiles of `wideBatch st n m`. -/
def wideOut (c : Int) : List (v1development.ResourceProfiles String) :=
  [{ ScopeProfiles := [{ Profiles := [wideOutProfile c] }] }]

/-- The dictionary that `convert` has built when it returns on `wideBatch st n m`. -/
def wideDictionary (st : List String) : v1development.ProfilesDictionary String :=
  { MappingTable := [{}]
    LocationTable := [{ MappingIndex := some 0, Line := [{}] }]
    FunctionTable := [{}]
    StringTable := st }

/-- The first profile container of `sampleBatch`: start time 100, end time 150. -/
def sampleContainerA : v1experimental.ProfileContainer String :=
  ⟨[], 100, 150, ["x=y"], 0, "", [], some sampleProfileA⟩

/-- The dictionary after the conversion of `sampleContainerA` from the empty one. -/
def sampleDictionaryA : v1development.ProfilesDictionary String :=
  { MappingTable := [{ MemoryStart := 0, MemoryLimit := 4096, FileOffset := 0,
                       FilenameStrindex := 3, HasFunctions := true }]
    LocationTable :=
      [{ MappingIndex := some 0, Address := 100,
         Line := [{ FunctionIndex := 0, Line := 12, Column := 3 }], AttributeIndices := [0] }]
    FunctionTable :=
      [{ NameStrindex := 4, SystemNameStrindex := 4, FilenameStrindex := 3, StartLine := 9 }]
    LinkTable := [{ TraceId := [1], SpanId := [2] }]
    StringTable := ["", "cpu", "ns", "a.so", "main"]
    AttributeTable := ["k=v", "x=y"] }

/-- The profile that `addToDictionary` returns on `sampleContainerA`, started from the
empty profile and the empty dictionary. -/
def sampleStageOutA : v1development.Profile :=
  { LocationIndices := [0], Sample := sampleOutA.Sample }

/-- The dictionary that `addToDictionary` leaves on `sampleContainerA`, started from the
empty one. -/
def sampleStageDictionaryA : v1development.ProfilesDictionary String :=
  { sampleDictionaryA with AttributeTable := ["k=v"] }

/-- A location table of `2^31 + 1` pairwise distinct locations; position `k` holds
the location with address `k`. -/
@[irreducible]
def farLocations : List v1development.Location :=
  (List.range (2 ^ 31 + 1)).map fun k => { Address := k }

/-- A dictionary whose location table is `lt`. -/
def farDictionary (lt : List v1development.Location) :
    v1development.ProfilesDictionary String :=
  { LocationTable := lt, StringTable := [""] }

/-- A profile with one location at address `a` and one sample that starts there. -/
def farProfile (a : Nat) : v1experimental.Profile String :=
  { SampleType := []
    Sample := [⟨0, 1, [], 0, []⟩]
    Mapping := [⟨0, 0, 0, 0, [], false, false, false, false⟩]
    Location := [⟨0, a, [], false, []⟩]
    Function := []
    AttributeTable := []
    LinkTable := []
    StringTable := [""]
    PeriodType := some ⟨0, 0⟩
    Period := 0
    Comment := []
    DefaultSampleType := 0 }

/-- The profile container of `farProfile a`. -/
def farContainer (a : Nat) : v1experimental.ProfileContainer String :=
  ⟨[], 0, 0, [], 0, "", [], some (farProfile a)⟩

/-- A profile over the attribute table `al` whose only location refers to the attribute
at position `n`. -/
def attrProfile (al : List String) (n : Nat) : v1experimental.Profile String :=
  { SampleType := []
    Sample := []
    Mapping := [⟨0, 0, 0, 0, [], false, false, false, false⟩]
    Location := [⟨0, 0, [], false, [n]⟩]
    Function := []
    AttributeTable := al
    LinkTable := []
    StringTable := [""]
    PeriodType := some ⟨0, 0⟩
    Period := 0
    Comment := []
    DefaultSampleType := 0 }

/-- The batch that holds `attrProfile al n` alone. -/
def attrBatch (al : List String) (n : Nat) : v1experimental.ProfilesData String :=
  ⟨[⟨none, [⟨none, [⟨[], 0, 0, [], 0, "", [], some (attrProfile al n)⟩], ""⟩], ""⟩]⟩

/-- The converted resource profiles of `attrBatch al n`. -/
def attrOut : List (v1development.ResourceProfiles String) :=
  [{ ScopeProfiles := [{ Profiles := [{ LocationIndices := [0],
                                         PeriodType := some {} }] }] }]

/-- The dictionary that `convert` has built when it returns on `attrBatch al n`, when the
entries of `al` are pairwise distinct and `int32(n) = k`. -/
def attrDictionary (al : List String) (k : Int) : v1development.ProfilesDictionary String :=
  { MappingTable := [{}]
    LocationTable := [{ MappingIndex := some 0, AttributeIndices := [k] }]
    StringTable := [""]
    AttributeTable := al }

/-- A profile that holds only a string table `st`, a period type and a default sample
type at position 0, and the comments `cm`. -/
def plainProfile (st : List String) (cm : List Int) : v1experimental.Profile String :=
  { SampleType := []
    Sample := []
    Mapping := []
    Location := []
    Function := []
    AttributeTable := []
    LinkTable := []
    StringTable := st
    PeriodType := some ⟨0, 0⟩
    Period := 0
    Comment := cm
    DefaultSampleType := 0 }

/-- The profile container of `plainProfile st cm`. -/
def plainContainer (st : List String) (cm : List Int) :
    v1experimental.ProfileContainer String :=
  ⟨[], 0, 0, [], 0, "", [], some (plainProfile st cm)⟩

/-- A batch of two profiles: the first over the string table `stA`, the second over the
two strings `b0`, `b1`, with one comment at local position 1. -/
def splitBatch (stA : List String) (b0 b1 : String) : v1experimental.ProfilesData String :=
  ⟨[⟨none, [⟨none, [plainContainer stA [], plainContainer [b0, b1] [1]], ""⟩], ""⟩]⟩

/-- The converted resource profiles of `splitBatch stA b0 b1` when the strings are pairwise
distinct, `int32` of the length of `stA` is `c0` and `int32` of that length plus one is
`c1`. -/
def splitOut (c0 c1 : Int) : List (v1development.ResourceProfiles String) :=
  [{ ScopeProfiles := [{ Profiles :=
      [{ PeriodType := some {} },
       { PeriodType := some { TypeStrindex := c0, UnitStrindex := c0 }
         CommentStrindices := [c1]
         DefaultSampleTypeIndex := c0 }] }] }]

/-- The dictionary that `convert` has built when it returns on `splitBatch stA b0 b1`. -/
def splitDictionary (stA : List String) (b0 b1 : String) :
    v1development.ProfilesDictionary String :=
  { StringTable := stA ++ [b0, b1] }

/-- A string table of `2^31 - 1` pairwise distinct texts; position `k` holds
`bigName k`. -/
@[irreducible]
def halfStrings : List String := (List.range 2147483647).map bigName

/-- A sample whose `LocationsLength` is `2^31`. -/
def longSample : v1experimental.Sample := ⟨0, 2147483648, [1], 0, [3]⟩

/-- A sample whose link position is `2^63`. -/
def farLinkSample : v1experimental.Sample := ⟨0, 1, [1], 9223372036854775808, []⟩

/-- A sample whose link position 5 is outside the (empty) link table of `aliasProfile`. -/
def nearLinkSample : v1experimental.Sample := ⟨0, 1, [1], 5, []⟩

/-- The batch that holds `aliasProfile` with the sample `s` as its only sample. -/
def sampleTestBatch (s : v1experimental.Sample) : v1experimental.ProfilesData String :=
  ⟨[⟨none, [⟨none, [⟨[], 0, 0, [], 0, "", [],
    some { aliasProfile with Sample := [s] }⟩], ""⟩], ""⟩]⟩

/-- Converted resource profiles that hold `aliasOutProfile` with the sample `o` as its
only sample. -/
def sampleTestOut (o : v1development.Sample) : List (v1development.ResourceProfiles String) :=
  [{ ScopeProfiles := [{ Profiles := [{ aliasOutProfile with Sample := [o] }] }] }]

/-- A batch whose only profile has an empty local string table; its period type and
default sample type refer to position 0. -/
def emptyTableBatch : v1experimental.ProfilesData String :=
  ⟨[⟨none, [⟨none, [⟨[], 0, 0, [], 0, "", [],
    some { SampleType := [], Sample := [], Mapping := [], Location := [], Function := [],
           AttributeTable := [], LinkTable := [], StringTable := [],
           PeriodType := some ⟨0, 0⟩, Period := 0, Comment := [],
           DefaultSampleType := 0 }⟩], ""⟩], ""⟩]⟩

/-- A batch whose only profile has one location that refers to mapping position 3 of an
empty mapping table. -/
def missingMappingBatch : v1experimental.ProfilesData String :=
  ⟨[⟨none, [⟨none, [⟨[], 0, 0, [], 0, "", [],
    some { SampleType := [], Sample := [], Mapping := [],
           Location := [⟨3, 100, [], false, []⟩], Function := [],
           AttributeTable := [], LinkTable := [], StringTable := [""],
           PeriodType := some ⟨0, 0⟩, Period := 0, Comment := [],
           DefaultSampleType := 0 }⟩], ""⟩], ""⟩]⟩

/-! # Theorems -/

set_option linter.unusedSectionVars false

section
variable {α : Type} [DecidableEq α]

theorem findEqual_eq_none_iff (l : List α) (c : α) : findEqual l c = none ↔ c ∉ l := by
  induction l with
  | nil => simp [findEqual]
  | cons v rest ih =>
    by_cases h : v = c
    · simp [findEqual, h]
    · simp [findEqual, h, ih, Ne.symm h]

theorem findEqual_some_spec (l : List α) (c : α) (i : Nat) (h : findEqual l c = some i) :
    l[i]? = some c ∧ ∀ j, j < i → l[j]? ≠ some c := by
  induction l generalizing i with
  | nil => simp [findEqual] at h
  | cons v rest ih =>
    by_cases hv : v = c
    · simp [findEqual, hv] at h
      subst h
      simp [hv]
    · simp only [findEqual, hv, if_false, Option.map_eq_some'] at h
      obtain ⟨k, hk, rfl⟩ := h
      obtain ⟨h1, h2⟩ := ih k hk
      refine ⟨by simpa using h1, ?_⟩
      intro j hj
      cases j with
      | zero => simpa using hv
      | succ j => simpa using h2 j (by omega)

theorem findEqual_of_mem (l : List α) (c : α) (h : c ∈ l) : ∃ i, findEqual l c = some i := by
  cases hf : findEqual l c with
  | none => exact absurd h ((findEqual_eq_none_iff l c).1 hf)
  | some i => exact ⟨i, rfl⟩

theorem findInsertProtoMessage_eq (l : List α) (c : α) :
    findInsertProtoMessage l c = findInsert l c := rfl

theorem findInsert_of_mem (l : List α) (c : α) (h : c ∈ l) :
    (findInsert l c).1 = l ∧ l[(findInsert l c).2]? = some c ∧
      ∀ j, j < (findInsert l c).2 → l[j]? ≠ some c := by
  obtain ⟨i, hi⟩ := findEqual_of_mem l c h
  have := findEqual_some_spec l c i hi
  rw [show findInsert l c = (l, i) by simp [findInsert, hi]]
  exact ⟨rfl, this.1, this.2⟩

theorem findInsert_of_not_mem (l : List α) (c : α) (h : c ∉ l) :
    findInsert l c = (l ++ [c], l.length) := by
  have := (findEqual_eq_none_iff l c).2 h
  simp [findInsert, this]

theorem findInsert_get (l : List α) (c : α) :
    (findInsert l c).1[(findInsert l c).2]? = some c := by
  by_cases h : c ∈ l
  · obtain ⟨h1, h2, -⟩ := findInsert_of_mem l c h
    rw [h1]; exact h2
  · rw [findInsert_of_not_mem l c h]; simp

theorem findInsert_lt (l : List α) (c : α) :
    (findInsert l c).2 < (findInsert l c).1.length := by
  have := findInsert_get l c
  exact (List.getElem?_eq_some_iff.1 this).1


theorem findInsert_isPrefix (l : List α) (c : α) : l <+: (findInsert l c).1 := by
  by_cases h : c ∈ l
  · rw [(findInsert_of_mem l c h).1]
  · rw [findInsert_of_not_mem l c h]; exact List.prefix_append l [c]

theorem findInsert_mem (l : List α) (c x : α) (h : x ∈ (findInsert l c).1) : x ∈ l ∨ x = c := by
  by_cases hc : c ∈ l
  · rw [(findInsert_of_mem l c hc).1] at h; exact Or.inl h
  · rw [findInsert_of_not_mem l c hc] at h; simpa using h

theorem findInsert_nodup (l : List α) (c : α) (h : l.Nodup) : (findInsert l c).1.Nodup := by
  by_cases hc : c ∈ l
  · rw [(findInsert_of_mem l c hc).1]; exact h
  · rw [findInsert_of_not_mem l c hc]
    exact List.Nodup.append h (List.nodup_singleton c) (by simpa using hc)

theorem findInsert_eq_self (l : List α) (c : α) (h : c ∈ l) : (findInsert l c).1 = l :=
  (findInsert_of_mem l c h).1

theorem distinctEntries_iff_nodup {β : Type} (l : List β) : DistinctEntries l ↔ l.Nodup := by
  unfold DistinctEntries
  rw [List.nodup_iff_getElem?_ne_getElem?]

end

/-! ### Machine integers -/

theorem toInt32_of_lt (n : Nat) (h : n < 2 ^ 31) : toInt32 (n : Int) = n := by
  unfold toInt32; omega

theorem sliceAt_natCast {β : Type} (l : List β) (n : Nat) : sliceAt l (n : Int) = l[n]? := by
  simp [sliceAt]

theorem sliceAt_eq_some {β : Type} (l : List β) (i : Int) (x : β) (h : sliceAt l i = some x) :
    ∃ n : Nat, i = n ∧ l[n]? = some x := by
  unfold sliceAt at h
  split at h
  · simp at h
  · exact ⟨i.toNat, by omega, h⟩

theorem sliceAt_mem {β : Type} (l : List β) (i : Int) (x : β) (h : sliceAt l i = some x) :
    x ∈ l := by
  obtain ⟨n, -, hn⟩ := sliceAt_eq_some l i x h
  exact List.getElem?_mem hn

theorem sliceAt_validIdx {β : Type} (l : List β) (i : Int) (x : β) (h : sliceAt l i = some x) :
    ValidIdx l.length i := by
  obtain ⟨n, rfl, hn⟩ := sliceAt_eq_some l i x h
  have := (List.getElem?_eq_some_iff.1 hn).1
  exact ⟨by omega, by exact_mod_cast this⟩

theorem isPrefix_getElem? {β : Type} {l l' : List β} (h : l <+: l') (n : Nat) (x : β)
    (hx : l[n]? = some x) : l'[n]? = some x := by
  obtain ⟨t, rfl⟩ := h
  have := (List.getElem?_eq_some_iff.1 hx).1
  rw [List.getElem?_append_left this]; exact hx

theorem sliceAt_mono {β : Type} {l l' : List β} (h : l <+: l') (i : Int) (x : β)
    (hx : sliceAt l i = some x) : sliceAt l' i = some x := by
  obtain ⟨n, rfl, hn⟩ := sliceAt_eq_some l i x hx
  rw [sliceAt_natCast]; exact isPrefix_getElem? h n x hn

section
variable {KV : Type} [DecidableEq KV]
open v1development (ProfilesDictionary)

theorem DictLe.rfl' (d : ProfilesDictionary KV) : DictLe d d :=
  ⟨List.prefix_refl _, List.prefix_refl _, List.prefix_refl _, List.prefix_refl _,
    List.prefix_refl _, List.prefix_refl _⟩

theorem DictLe.trans' {d e f : ProfilesDictionary KV} (h1 : DictLe d e) (h2 : DictLe e f) :
    DictLe d f :=
  ⟨h1.mappings.trans h2.mappings, h1.locations.trans h2.locations,
    h1.functions.trans h2.functions, h1.links.trans h2.links, h1.strings.trans h2.strings,
    h1.attributes.trans h2.attributes⟩

theorem Small.of_le {d e : ProfilesDictionary KV} (h : DictLe d e) (hs : Small e) : Small d := by
  obtain ⟨h1, h2, h3, h4, h5, h6⟩ := hs
  exact ⟨lt_of_le_of_lt h.mappings.length_le h1, lt_of_le_of_lt h.locations.length_le h2,
    lt_of_le_of_lt h.functions.length_le h3, lt_of_le_of_lt h.links.length_le h4,
    lt_of_le_of_lt h.strings.length_le h5, lt_of_le_of_lt h.attributes.length_le h6⟩

theorem internString_le (d : ProfilesDictionary KV) (s : String) : DictLe d (internString d s).1 :=
  ⟨List.prefix_refl _, List.prefix_refl _, List.prefix_refl _, List.prefix_refl _,
    findInsert_isPrefix _ _, List.prefix_refl _⟩

theorem internFunction_le (d : ProfilesDictionary KV) (x : v1development.Function) :
    DictLe d (internFunction d x).1 :=
  ⟨List.prefix_refl _, List.prefix_refl _, findInsert_isPrefix _ _, List.prefix_refl _,
    List.prefix_refl _, List.prefix_refl _⟩

theorem internMapping_le (d : ProfilesDictionary KV) (x : v1development.Mapping) :
    DictLe d (internMapping d x).1 :=
  ⟨findInsert_isPrefix _ _, List.prefix_refl _, List.prefix_refl _, List.prefix_refl _,
    List.prefix_refl _, List.prefix_refl _⟩

theorem internLocation_le (d : ProfilesDictionary KV) (x : v1development.Location) :
    DictLe d (internLocation d x).1 :=
  ⟨List.prefix_refl _, findInsert_isPrefix _ _, List.prefix_refl _, List.prefix_refl _,
    List.prefix_refl _, List.prefix_refl _⟩

theorem internAttribute_le (d : ProfilesDictionary KV) (x : KV) :
    DictLe d (internAttribute d x).1 :=
  ⟨List.prefix_refl _, List.prefix_refl _, List.prefix_refl _, List.prefix_refl _,
    List.prefix_refl _, findInsert_isPrefix _ _⟩

theorem internLink_le (d : ProfilesDictionary KV) (x : v1development.Link) :
    DictLe d (internLink d x).1 :=
  ⟨List.prefix_refl _, List.prefix_refl _, List.prefix_refl _, findInsert_isPrefix _ _,
    List.prefix_refl _, List.prefix_refl _⟩

theorem Interns.le {P : InternPred KV} {d e : ProfilesDictionary KV} (h : Interns P d e) :
    DictLe d e := by
  induction h with
  | refl => exact DictLe.rfl' _
  | str s _ _ ih => exact ih.trans' (internString_le _ s)
  | func x _ _ ih => exact ih.trans' (internFunction_le _ x)
  | map x _ _ ih => exact ih.trans' (internMapping_le _ x)
  | loc x _ _ ih => exact ih.trans' (internLocation_le _ x)
  | attr x _ _ ih => exact ih.trans' (internAttribute_le _ x)
  | link x _ _ ih => exact ih.trans' (internLink_le _ x)

theorem Interns.trans {P : InternPred KV} {d e f : ProfilesDictionary KV}
    (h1 : Interns P d e) (h2 : Interns P e f) : Interns P d f := by
  induction h2 with
  | refl => exact h1
  | str s _ hp ih => exact Interns.str s ih hp
  | func x _ hp ih => exact Interns.func x ih hp
  | map x _ hp ih => exact Interns.map x ih hp
  | loc x _ hp ih => exact Interns.loc x ih hp
  | attr x _ hp ih => exact Interns.attr x ih hp
  | link x _ hp ih => exact Interns.link x ih hp

theorem Interns.mono {P Q : InternPred KV} {d e : ProfilesDictionary KV} (h : Interns P d e)
    (hs : ∀ x, P.str x → Q.str x) (hf : ∀ x, P.func x → Q.func x)
    (hm : ∀ x, P.map x → Q.map x) (hl : ∀ x, P.loc x → Q.loc x)
    (ha : ∀ x, P.attr x → Q.attr x) (hk : ∀ x, P.link x → Q.link x) : Interns Q d e := by
  induction h with
  | refl => exact Interns.refl _
  | str s _ hp ih => exact Interns.str s ih (hs _ hp)
  | func x _ hp ih => exact Interns.func x ih (hf _ hp)
  | map x _ hp ih => exact Interns.map x ih (hm _ hp)
  | loc x _ hp ih => exact Interns.loc x ih (hl _ hp)
  | attr x _ hp ih => exact Interns.attr x ih (ha _ hp)
  | link x _ hp ih => exact Interns.link x ih (hk _ hp)

/-- All six tables are duplicate-free, in the library's formulation. -/
theorem noDuplicates_iff (d : ProfilesDictionary KV) :
    NoDuplicates d ↔ d.StringTable.Nodup ∧ d.FunctionTable.Nodup ∧ d.MappingTable.Nodup ∧
      d.LocationTable.Nodup ∧ d.AttributeTable.Nodup ∧ d.LinkTable.Nodup := by
  simp only [NoDuplicates, distinctEntries_iff_nodup]

theorem Interns.noDuplicates {P : InternPred KV} {d e : ProfilesDictionary KV}
    (h : Interns P d e) (hd : NoDuplicates d) : NoDuplicates e := by
  induction h with
  | refl => exact hd
  | str s _ _ ih =>
    rw [noDuplicates_iff] at ih ⊢
    exact ⟨findInsert_nodup _ _ ih.1, ih.2⟩
  | func x _ _ ih =>
    rw [noDuplicates_iff] at ih ⊢
    exact ⟨ih.1, findInsert_nodup _ _ ih.2.1, ih.2.2⟩
  | map x _ _ ih =>
    rw [noDuplicates_iff] at ih ⊢
    exact ⟨ih.1, ih.2.1, findInsert_nodup _ _ ih.2.2.1, ih.2.2.2⟩
  | loc x _ _ ih =>
    rw [noDuplicates_iff] at ih ⊢
    exact ⟨ih.1, ih.2.1, ih.2.2.1, findInsert_nodup _ _ ih.2.2.2.1, ih.2.2.2.2⟩
  | attr x _ _ ih =>
    rw [noDuplicates_iff] at ih ⊢
    exact ⟨ih.1, ih.2.1, ih.2.2.1, ih.2.2.2.1, findInsert_nodup _ _ ih.2.2.2.2.1, ih.2.2.2.2.2⟩
  | link x _ _ ih =>
    rw [noDuplicates_iff] at ih ⊢
    exact ⟨ih.1, ih.2.1, ih.2.2.1, ih.2.2.2.1, ih.2.2.2.2.1, findInsert_nodup _ _ ih.2.2.2.2.2⟩

theorem Interns.mem_string {P : InternPred KV} {d e : ProfilesDictionary KV}
    (h : Interns P d e) (s : String) (hs : s ∈ e.StringTable) : s ∈ d.StringTable ∨ P.str s := by
  induction h with
  | refl => exact Or.inl hs
  | str t _ hp ih =>
    rcases findInsert_mem _ _ _ hs with h1 | rfl
    · exact ih h1
    · exact Or.inr hp
  | func x _ _ ih => exact ih hs
  | map x _ _ ih => exact ih hs
  | loc x _ _ ih => exact ih hs
  | attr x _ _ ih => exact ih hs
  | link x _ _ ih => exact ih hs

theorem Interns.mem_function {P : InternPred KV} {d e : ProfilesDictionary KV}
    (h : Interns P d e) (s : v1development.Function) (hs : s ∈ e.FunctionTable) :
    s ∈ d.FunctionTable ∨ P.func s := by
  induction h with
  | refl => exact Or.inl hs
  | func t _ hp ih =>
    rcases findInsert_mem _ _ _ hs with h1 | rfl
    · exact ih h1
    · exact Or.inr hp
  | str x _ _ ih => exact ih hs
  | map x _ _ ih => exact ih hs
  | loc x _ _ ih => exact ih hs
  | attr x _ _ ih => exact ih hs
  | link x _ _ ih => exact ih hs

theorem Interns.mem_mapping {P : InternPred KV} {d e : ProfilesDictionary KV}
    (h : Interns P d e) (s : v1development.Mapping) (hs : s ∈ e.MappingTable) :
    s ∈ d.MappingTable ∨ P.map s := by
  induction h with
  | refl => exact Or.inl hs
  | map t _ hp ih =>
    rcases findInsert_mem _ _ _ hs with h1 | rfl
    · exact ih h1
    · exact Or.inr hp
  | str x _ _ ih => exact ih hs
  | func x _ _ ih => exact ih hs
  | loc x _ _ ih => exact ih hs
  | attr x _ _ ih => exact ih hs
  | link x _ _ ih => exact ih hs

theorem Interns.mem_location {P : InternPred KV} {d e : ProfilesDictionary KV}
    (h : Interns P d e) (s : v1development.Location) (hs : s ∈ e.LocationTable) :
    s ∈ d.LocationTable ∨ P.loc s := by
  induction h with
  | refl => exact Or.inl hs
  | loc t _ hp ih =>
    rcases findInsert_mem _ _ _ hs with h1 | rfl
    · exact ih h1
    · exact Or.inr hp
  | str x _ _ ih => exact ih hs
  | func x _ _ ih => exact ih hs
  | map x _ _ ih => exact ih hs
  | attr x _ _ ih => exact ih hs
  | link x _ _ ih => exact ih hs

theorem Interns.string_eq {P : InternPred KV} {d e : ProfilesDictionary KV}
    (h : Interns P d e) (hp : ∀ s, P.str s → s ∈ d.StringTable) :
    e.StringTable = d.StringTable := by
  induction h with
  | refl => rfl
  | str t _ ht ih =>
    show (findInsert _ t).1 = _
    rw [findInsert_eq_self _ _ (by rw [ih]; exact hp t ht), ih]
  | func x _ _ ih => exact ih
  | map x _ _ ih => exact ih
  | loc x _ _ ih => exact ih
  | attr x _ _ ih => exact ih
  | link x _ _ ih => exact ih

end

section
variable {KV : Type} [DecidableEq KV]
open v1development (ProfilesDictionary)

/-! ### Interning one entry -/

theorem internString_at (d : ProfilesDictionary KV) (s : String) :
    (internString d s).1.StringTable[(internString d s).2]? = some s :=
  findInsert_get _ _

theorem internAttribute_at (d : ProfilesDictionary KV) (x : KV) :
    (internAttribute d x).1.AttributeTable[(internAttribute d x).2]? = some x :=
  findInsert_get _ _

theorem internLink_at (d : ProfilesDictionary KV) (x : v1development.Link) :
    (internLink d x).1.LinkTable[(internLink d x).2]? = some x :=
  findInsert_get _ _

theorem internLocation_at (d : ProfilesDictionary KV) (x : v1development.Location) :
    (internLocation d x).1.LocationTable[(internLocation d x).2]? = some x :=
  findInsert_get _ _

theorem internFunction_at (d : ProfilesDictionary KV) (x : v1development.Function) :
    (internFunction d x).1.FunctionTable[(internFunction d x).2]? = some x :=
  findInsert_get _ _

theorem internMapping_at (d : ProfilesDictionary KV) (x : v1development.Mapping) :
    (internMapping d x).1.MappingTable[(internMapping d x).2]? = some x :=
  findInsert_get _ _

/-- An index returned by an insert-or-find call, narrowed to `int32`, still denotes the
entry in every later table of fewer than `2^31` entries. -/
theorem sliceAt_toInt32 {β : Type} {l l' : List β} (n : Nat) (x : β) (h : l[n]? = some x)
    (hl : l <+: l') (hs : l'.length < 2 ^ 31) : sliceAt l' (toInt32 n) = some x := by
  have h1 := (List.getElem?_eq_some_iff.1 h).1
  have h2 := hl.length_le
  rw [toInt32_of_lt n (by omega), sliceAt_natCast]
  exact isPrefix_getElem? hl n x h

theorem sameText_intern (st : List String) (d D : ProfilesDictionary KV) (i : Int) (s : String)
    (hi : sliceAt st i = some s) (hD : DictLe (internString d s).1 D) (hS : Small D) :
    SameText st D i (toInt32 (internString d s).2) :=
  ⟨s, hi, sliceAt_toInt32 _ s (internString_at d s) hD.strings hS.2.2.2.2.1⟩

/-! ### Loops that only intern -/

theorem addLinkToDictionary_loop_interns (l : List v1experimental.Link)
    (d : ProfilesDictionary KV) : Interns linkPred d (addLinkToDictionary.loop l d) := by
  induction l generalizing d with
  | nil => exact Interns.refl d
  | cons x rest ih =>
    exact (Interns.link _ (Interns.refl d) trivial).trans (ih _)

theorem addAttributeToDictionary_loop_interns (l : List KV)
    (d : ProfilesDictionary KV) : Interns attrPred d (addAttributeToDictionary.loop l d) := by
  induction l generalizing d with
  | nil => exact Interns.refl d
  | cons x rest ih =>
    exact (Interns.attr _ (Interns.refl d) trivial).trans (ih _)

theorem addStringToDictionary_loop_interns (S : String → Prop) (l : List String)
    (hl : ∀ s ∈ l, S s) (d : ProfilesDictionary KV) :
    Interns (strPred S) d (addStringToDictionary.loop l d) := by
  induction l generalizing d with
  | nil => exact Interns.refl d
  | cons x rest ih =>
    exact (Interns.str _ (Interns.refl d) (hl x (List.mem_cons_self _ _))).trans
      (ih (fun s hs => hl s (List.mem_cons_of_mem _ hs)) _)

theorem addStringToDictionary_loop_strings (l : List String) (d : ProfilesDictionary KV) :
    (addStringToDictionary.loop l d).StringTable = insertAll d.StringTable l := by
  induction l generalizing d with
  | nil => rfl
  | cons x rest ih =>
    simp only [addStringToDictionary.loop, insertAll, List.foldl_cons]
    rw [ih]; rfl

theorem findInsert_subset {β : Type} [DecidableEq β] (l : List β) (c : β) :
    c ∈ (findInsert l c).1 := List.getElem?_mem (findInsert_get l c)

theorem addStringToDictionary_loop_mem (l : List String) (d : ProfilesDictionary KV) :
    ∀ s ∈ l, s ∈ (addStringToDictionary.loop l d).StringTable := by
  induction l generalizing d with
  | nil => intro s hs; simp at hs
  | cons x rest ih =>
    intro s hs
    rcases List.mem_cons.1 hs with rfl | h
    · have h1 : s ∈ (internString d s).1.StringTable := findInsert_subset _ _
      exact (addStringToDictionary_loop_interns (fun _ => True) rest (fun _ _ => trivial)
        (internString d s).1).le.strings.subset h1
    · exact ih _ s h

theorem addMappingToDictionary_attrs_interns (profile : v1experimental.Profile KV)
    (l : List Nat) (d e : ProfilesDictionary KV)
    (h : addMappingToDictionary.attrs profile l d = some e) : Interns attrPred d e := by
  induction l generalizing d with
  | nil => simp [addMappingToDictionary.attrs] at h; subst h; exact Interns.refl d
  | cons x rest ih =>
    simp only [addMappingToDictionary.attrs] at h
    split at h
    · simp at h
    · exact (Interns.attr _ (Interns.refl d) trivial).trans (ih _ h)

/-! ### Converters of the profile fields -/

theorem convertAttributes_interns (l : List KV) (d : ProfilesDictionary KV) :
    Interns attrPred d (convertAttributes l d).2 := by
  induction l generalizing d with
  | nil => exact Interns.refl d
  | cons x rest ih =>
    exact (Interns.attr _ (Interns.refl d) trivial).trans (ih _)

theorem convertAttributes_spec (l : List KV) (d D : ProfilesDictionary KV)
    (hD : DictLe (convertAttributes l d).2 D) (hS : Small D) :
    List.Forall₂ (fun kv o => sliceAt D.AttributeTable o = some kv) l
      (convertAttributes l d).1 := by
  induction l generalizing d with
  | nil => exact List.Forall₂.nil
  | cons x rest ih =>
    simp only [convertAttributes] at hD ⊢
    refine List.Forall₂.cons ?_ (ih _ hD)
    exact sliceAt_toInt32 _ x (internAttribute_at d x)
      ((convertAttributes_interns rest _).le.trans' hD).attributes hS.2.2.2.2.2

theorem convertComments_interns (l : List Int) (st : List String)
    (d e : ProfilesDictionary KV) (out : List Int)
    (h : convertComments l st d = some (out, e)) :
    Interns (strPred (fun s => s ∈ st)) d e := by
  induction l generalizing d out with
  | nil => simp [convertComments] at h; obtain ⟨-, rfl⟩ := h; exact Interns.refl d
  | cons x rest ih =>
    simp only [convertComments] at h
    split at h
    · simp at h
    · rename_i s hs
      split at h
      · simp at h
      · rename_i out1 d1 h1
        simp only [Option.some.injEq, Prod.mk.injEq] at h
        obtain ⟨-, rfl⟩ := h
        exact (Interns.str _ (Interns.refl d) (sliceAt_mem _ _ _ hs)).trans (ih _ _ h1)

theorem convertComments_spec (l : List Int) (st : List String)
    (d e D : ProfilesDictionary KV) (out : List Int)
    (h : convertComments l st d = some (out, e)) (hD : DictLe e D) (hS : Small D) :
    List.Forall₂ (SameText st D) l out := by
  induction l generalizing d out with
  | nil => simp [convertComments] at h; obtain ⟨rfl, -⟩ := h; exact List.Forall₂.nil
  | cons x rest ih =>
    simp only [convertComments] at h
    split at h
    · simp at h
    · rename_i s hs
      split at h
      · simp at h
      · rename_i out1 d1 h1
        simp only [Option.some.injEq, Prod.mk.injEq] at h
        obtain ⟨rfl, rfl⟩ := h
        refine List.Forall₂.cons ?_ (ih _ _ h1)
        exact sameText_intern st d D x s hs
          ((convertComments_interns _ _ _ _ _ h1).le.trans' hD) hS

theorem convertValueType_interns (v : Option v1experimental.ValueType) (st : List String)
    (d e : ProfilesDictionary KV) (o : v1development.ValueType)
    (h : convertValueType v st d = some (o, e)) :
    Interns (strPred (fun s => s ∈ st)) d e := by
  unfold convertValueType at h
  split at h
  · simp at h
  · split at h
    · simp at h
    · rename_i t ht
      split at h
      · simp at h
      · rename_i u hu
        simp only [Option.some.injEq, Prod.mk.injEq] at h
        rw [← h.2]
        exact Interns.str _ (Interns.str _ (Interns.refl d) (sliceAt_mem _ _ _ ht))
          (sliceAt_mem _ _ _ hu)

theorem convertValueType_spec (v : v1experimental.ValueType) (st : List String)
    (d e D : ProfilesDictionary KV) (o : v1development.ValueType)
    (h : convertValueType (some v) st d = some (o, e)) (hD : DictLe e D) (hS : Small D) :
    ValueTypeSpec st D v o := by
  unfold convertValueType at h
  simp only at h
  split at h
  · simp at h
  · rename_i t ht
    split at h
    · simp at h
    · rename_i u hu
      simp only [Option.some.injEq, Prod.mk.injEq] at h
      rw [← h.2] at hD
      rw [← h.1]
      exact ⟨sameText_intern st d D _ t ht ((internString_le _ u).trans' hD) hS,
        sameText_intern st _ D _ u hu hD hS⟩

theorem convertSampleType_interns (l : List v1experimental.ValueType) (st : List String)
    (d e : ProfilesDictionary KV) (out : List v1development.ValueType)
    (h : convertSampleType l st d = some (out, e)) :
    Interns (strPred (fun s => s ∈ st)) d e := by
  induction l generalizing d out with
  | nil => simp [convertSampleType] at h; obtain ⟨-, rfl⟩ := h; exact Interns.refl d
  | cons x rest ih =>
    simp only [convertSampleType] at h
    split at h
    · simp at h
    · rename_i v d1 h1
      split at h
      · simp at h
      · rename_i out1 d2 h2
        simp only [Option.some.injEq, Prod.mk.injEq] at h
        obtain ⟨-, rfl⟩ := h
        exact (convertValueType_interns _ _ _ _ _ h1).trans (ih _ _ h2)

theorem convertSampleType_spec (l : List v1experimental.ValueType) (st : List String)
    (d e D : ProfilesDictionary KV) (out : List v1development.ValueType)
    (h : convertSampleType l st d = some (out, e)) (hD : DictLe e D) (hS : Small D) :
    List.Forall₂ (ValueTypeSpec st D) l out := by
  induction l generalizing d out with
  | nil => simp [convertSampleType] at h; obtain ⟨rfl, -⟩ := h; exact List.Forall₂.nil
  | cons x rest ih =>
    simp only [convertSampleType] at h
    split at h
    · simp at h
    · rename_i v d1 h1
      split at h
      · simp at h
      · rename_i out1 d2 h2
        simp only [Option.some.injEq, Prod.mk.injEq] at h
        obtain ⟨rfl, rfl⟩ := h
        exact List.Forall₂.cons
          (convertValueType_spec x st d d1 D v h1
            ((convertSampleType_interns _ _ _ _ _ h2).le.trans' hD) hS)
          (ih _ _ h2)

end

section
variable {KV : Type} [DecidableEq KV]
open v1development (ProfilesDictionary)

/-! ### Monotonicity of the specifications -/

theorem SameText.monoText {st : List String} {d D : ProfilesDictionary KV} {i o : Int}
    (h : SameText st d i o) (hD : DictLe d D) : SameText st D i o := by
  obtain ⟨s, h1, h2⟩ := h
  exact ⟨s, h1, sliceAt_mono hD.strings _ _ h2⟩

theorem FunctionSpec.monoFunction {st : List String} {d D : ProfilesDictionary KV}
    {f : v1experimental.Function} {df : v1development.Function}
    (h : FunctionSpec st d f df) (hD : DictLe d D) : FunctionSpec st D f df :=
  ⟨h.1.monoText hD, h.2.1.monoText hD, h.2.2.1.monoText hD, h.2.2.2⟩

theorem MappingSpec.monoMapping {st : List String} {d D : ProfilesDictionary KV}
    {m : v1experimental.Mapping} {dm : v1development.Mapping}
    (h : MappingSpec st d m dm) (hD : DictLe d D) : MappingSpec st D m dm :=
  ⟨h.1, h.2.1, h.2.2.1, h.2.2.2.1.monoText hD, h.2.2.2.2⟩

theorem FirstAt.monoFirst {β : Type} {P : β → Prop} {l l' : List β} {k : Int}
    (h : FirstAt P l k) (hl : l <+: l') : FirstAt P l' k := by
  obtain ⟨⟨x, hx, hp⟩, hmin⟩ := h
  refine ⟨⟨x, sliceAt_mono hl _ _ hx, hp⟩, ?_⟩
  intro j y hj hy
  obtain ⟨n, rfl, hn⟩ := sliceAt_eq_some _ _ _ hx
  have hn' := (List.getElem?_eq_some_iff.1 hn).1
  have hjn : j < n := by exact_mod_cast hj
  obtain ⟨t, rfl⟩ := hl
  rw [List.getElem?_append_left (by omega)] at hy
  exact hmin j y hj hy

theorem FunctionsInterned.monoFunctions {profile : v1experimental.Profile KV}
    {d D : ProfilesDictionary KV} (h : FunctionsInterned profile d) (hD : DictLe d D) :
    FunctionsInterned profile D := by
  intro f hf
  obtain ⟨df, h1, h2⟩ := h f hf
  exact ⟨df, hD.functions.subset h1, h2.monoFunction hD⟩

theorem MappingsInterned.monoMappings {profile : v1experimental.Profile KV}
    {d D : ProfilesDictionary KV} (h : MappingsInterned profile d) (hD : DictLe d D) :
    MappingsInterned profile D := by
  intro f hf
  obtain ⟨df, h1, h2⟩ := h f hf
  exact ⟨df, hD.mappings.subset h1, h2.monoMapping hD⟩

theorem LocationsInterned.monoLocations {profile : v1experimental.Profile KV}
    {d D : ProfilesDictionary KV} (h : LocationsInterned profile d) (hD : DictLe d D) :
    LocationsInterned profile D := by
  intro f hf
  obtain ⟨df, h1, h2⟩ := h f hf
  exact ⟨df, hD.locations.subset h1, h2⟩

/-! ### Weakening to the class of one profile -/

theorem Interns.ofStr {profile : v1experimental.Profile KV} {D d e : ProfilesDictionary KV}
    (h : Interns (strPred (fun s => s ∈ profile.StringTable)) d e) :
    Interns (profilePred profile D) d e :=
  h.mono (fun _ hx => hx) (fun _ hx => hx.elim) (fun _ hx => hx.elim) (fun _ hx => hx.elim)
    (fun _ hx => hx.elim) (fun _ hx => hx.elim)

theorem Interns.ofAttr {profile : v1experimental.Profile KV} {D d e : ProfilesDictionary KV}
    (h : Interns attrPred d e) : Interns (profilePred profile D) d e :=
  h.mono (fun _ hx => hx.elim) (fun _ hx => hx.elim) (fun _ hx => hx.elim)
    (fun _ hx => hx.elim) (fun _ _ => trivial) (fun _ hx => hx.elim)

theorem Interns.ofLink {profile : v1experimental.Profile KV} {D d e : ProfilesDictionary KV}
    (h : Interns linkPred d e) : Interns (profilePred profile D) d e :=
  h.mono (fun _ hx => hx.elim) (fun _ hx => hx.elim) (fun _ hx => hx.elim)
    (fun _ hx => hx.elim) (fun _ hx => hx.elim) (fun _ _ => trivial)

/-! ### Mappings and functions -/

theorem addMappingToDictionary_loop_spec (profile : v1experimental.Profile KV)
    (D : ProfilesDictionary KV) (l : List v1experimental.Mapping)
    (hl : ∀ m ∈ l, m ∈ profile.Mapping) (d e : ProfilesDictionary KV)
    (h : addMappingToDictionary.loop profile l d = some e) (hD : DictLe e D) :
    Interns (profilePred profile D) d e ∧
      (Small D → ∀ m ∈ l, ∃ dm ∈ e.MappingTable, MappingSpec profile.StringTable D m dm) := by
  induction l generalizing d with
  | nil =>
    simp [addMappingToDictionary.loop] at h; subst h
    exact ⟨Interns.refl d, fun _ m hm => by simp at hm⟩
  | cons x rest ih =>
    simp only [addMappingToDictionary.loop] at h
    split at h
    · simp at h
    · rename_i filename hfn
      split at h
      · simp at h
      · rename_i d1 h1
        obtain ⟨ihI, ihS⟩ := ih (fun m hm => hl m (List.mem_cons_of_mem _ hm)) _ h
        have hle1 : DictLe (internString d filename).1 d1 :=
          (addMappingToDictionary_attrs_interns _ _ _ _ h1).le
        have hle2 := internMapping_le d1
          { MemoryStart := x.MemoryStart, MemoryLimit := x.MemoryLimit,
            FileOffset := x.FileOffset,
            FilenameStrindex := toInt32 (internString d filename).2,
            HasFunctions := x.HasFunctions, HasFilenames := x.HasFilenames,
            HasLineNumbers := x.HasLineNumbers, HasInlineFrames := x.HasInlineFrames }
        have hspec : Small D → MappingSpec profile.StringTable D x
            { MemoryStart := x.MemoryStart, MemoryLimit := x.MemoryLimit,
              FileOffset := x.FileOffset,
              FilenameStrindex := toInt32 (internString d filename).2,
              HasFunctions := x.HasFunctions, HasFilenames := x.HasFilenames,
              HasLineNumbers := x.HasLineNumbers, HasInlineFrames := x.HasInlineFrames } :=
          fun hS => ⟨rfl, rfl, rfl,
            sameText_intern _ d D _ filename hfn
              (hle1.trans' (hle2.trans' (ihI.le.trans' hD))) hS, rfl, rfl, rfl, rfl⟩
        refine ⟨?_, ?_⟩
        · refine Interns.trans ?_ ihI
          refine Interns.map _ ?_ (fun hS => ⟨x, hl x (List.mem_cons_self _ _), hspec hS⟩)
          exact (Interns.str _ (Interns.refl d) (sliceAt_mem _ _ _ hfn)).trans
            (addMappingToDictionary_attrs_interns _ _ _ _ h1).ofAttr
        · intro hS m hm
          rcases List.mem_cons.1 hm with rfl | hm
          · exact ⟨_, ihI.le.mappings.subset (findInsert_subset _ _), hspec hS⟩
          · exact ihS hS m hm

theorem addFunctionToDictionary_loop_spec (profile : v1experimental.Profile KV)
    (D : ProfilesDictionary KV) (l : List v1experimental.Function)
    (hl : ∀ m ∈ l, m ∈ profile.Function) (d e : ProfilesDictionary KV)
    (h : addFunctionToDictionary.loop profile l d = some e) (hD : DictLe e D) :
    Interns (profilePred profile D) d e ∧
      (Small D → ∀ f ∈ l, ∃ df ∈ e.FunctionTable, FunctionSpec profile.StringTable D f df) := by
  induction l generalizing d with
  | nil =>
    simp [addFunctionToDictionary.loop] at h; subst h
    exact ⟨Interns.refl d, fun _ m hm => by simp at hm⟩
  | cons x rest ih =>
    simp only [addFunctionToDictionary.loop] at h
    split at h
    · simp at h
    · rename_i name hname
      split at h
      · simp at h
      · rename_i sysname hsys
        split at h
        · simp at h
        · rename_i filename hfn
          obtain ⟨ihI, ihS⟩ := ih (fun m hm => hl m (List.mem_cons_of_mem _ hm)) _ h
          have hle3 := internFunction_le
            (internString (internString (internString d name).1 sysname).1 filename).1
            { NameStrindex := toInt32 (internString d name).2,
              SystemNameStrindex := toInt32 (internString (internString d name).1 sysname).2,
              FilenameStrindex :=
                toInt32 (internString (internString (internString d name).1 sysname).1
                  filename).2,
              StartLine := x.StartLine }
          have hleD := hle3.trans' (ihI.le.trans' hD)
          have hspec : Small D → FunctionSpec profile.StringTable D x
              { NameStrindex := toInt32 (internString d name).2,
                SystemNameStrindex := toInt32 (internString (internString d name).1 sysname).2,
                FilenameStrindex :=
                  toInt32 (internString (internString (internString d name).1 sysname).1
                    filename).2,
                StartLine := x.StartLine } :=
            fun hS => ⟨sameText_intern _ d D _ name hname
                ((internString_le _ sysname).trans' ((internString_le _ filename).trans' hleD)) hS,
              sameText_intern _ _ D _ sysname hsys ((internString_le _ filename).trans' hleD) hS,
              sameText_intern _ _ D _ filename hfn hleD hS, rfl⟩
          refine ⟨?_, ?_⟩
          · refine Interns.trans ?_ ihI
            refine Interns.func _ ?_ (fun hS => ⟨x, hl x (List.mem_cons_self _ _), hspec hS⟩)
            exact Interns.str _ (Interns.str _ (Interns.str _ (Interns.refl d)
              (sliceAt_mem _ _ _ hname)) (sliceAt_mem _ _ _ hsys)) (sliceAt_mem _ _ _ hfn)
          · intro hS m hm
            rcases List.mem_cons.1 hm with rfl | hm
            · exact ⟨_, ihI.le.functions.subset (findInsert_subset _ _), hspec hS⟩
            · exact ihS hS m hm

end

section
variable {KV : Type} [DecidableEq KV]
open v1development (ProfilesDictionary)

/-! ### Resolvers -/

theorem lookupMapping_loop_spec (mapping : v1experimental.Mapping)
    (l : List v1development.Mapping) (i : Nat) :
    (lookupMapping.loop mapping l i = -1 ∧ ∀ x ∈ l, ¬ MappingKey mapping x) ∨
    ∃ k x, l[k]? = some x ∧ MappingKey mapping x ∧
      lookupMapping.loop mapping l i = toInt32 ((i + k : Nat) : Int) ∧
      ∀ j y, j < k → l[j]? = some y → ¬ MappingKey mapping y := by
  induction l generalizing i with
  | nil => exact Or.inl ⟨rfl, by simp⟩
  | cons v rest ih =>
    by_cases hv : MappingKey mapping v
    · refine Or.inr ⟨0, v, by simp, hv, ?_, by simp⟩
      have hv' := hv
      unfold MappingKey at hv'
      simp [lookupMapping.loop, hv']
    · have hv' := hv
      unfold MappingKey at hv'
      rcases ih (i + 1) with ⟨h1, h2⟩ | ⟨k, x, h1, h2, h3, h4⟩
      · refine Or.inl ⟨by simp only [lookupMapping.loop, hv', if_false]; exact h1, ?_⟩
        intro x hx
        rcases List.mem_cons.1 hx with rfl | hx
        · exact hv
        · exact h2 x hx
      · refine Or.inr ⟨k + 1, x, by simpa using h1, h2, ?_, ?_⟩
        · simp only [lookupMapping.loop, hv', if_false]
          rw [h3]; congr 2; omega
        · intro j y hj hy
          cases j with
          | zero => simp at hy; subst hy; exact hv
          | succ j => exact h4 j y (by omega) (by simpa using hy)

theorem lookupLocation_loop_spec (location : v1experimental.Location)
    (l : List v1development.Location) (i : Nat) :
    (lookupLocation.loop location l i = -1 ∧ ∀ x ∈ l, ¬ location.Address = x.Address) ∨
    ∃ k x, l[k]? = some x ∧ location.Address = x.Address ∧
      lookupLocation.loop location l i = toInt32 ((i + k : Nat) : Int) ∧
      ∀ j y, j < k → l[j]? = some y → ¬ location.Address = y.Address := by
  induction l generalizing i with
  | nil => exact Or.inl ⟨rfl, by simp⟩
  | cons v rest ih =>
    by_cases hv : location.Address = v.Address
    · refine Or.inr ⟨0, v, by simp, hv, ?_, by simp⟩
      simp [lookupLocation.loop, hv]
    · rcases ih (i + 1) with ⟨h1, h2⟩ | ⟨k, x, h1, h2, h3, h4⟩
      · refine Or.inl ⟨by simp only [lookupLocation.loop, hv, if_false]; exact h1, ?_⟩
        intro x hx
        rcases List.mem_cons.1 hx with rfl | hx
        · exact hv
        · exact h2 x hx
      · refine Or.inr ⟨k + 1, x, by simpa using h1, h2, ?_, ?_⟩
        · simp only [lookupLocation.loop, hv, if_false]
          rw [h3]; congr 2; omega
        · intro j y hj hy
          cases j with
          | zero => simp at hy; subst hy; exact hv
          | succ j => exact h4 j y (by omega) (by simpa using hy)

/-- A resolver that scans a table of fewer than `2^31` entries which holds a match
returns the first matching position. -/
theorem firstAt_of_scan {β : Type} (P : β → Prop) (l : List β) (r : Int)
    (hsmall : l.length < 2 ^ 31) (hex : ∃ x ∈ l, P x)
    (hscan : (r = -1 ∧ ∀ x ∈ l, ¬ P x) ∨
      ∃ k x, l[k]? = some x ∧ P x ∧ r = toInt32 ((0 + k : Nat) : Int) ∧
        ∀ j y, j < k → l[j]? = some y → ¬ P y) :
    0 ≤ r ∧ FirstAt P l r := by
  rcases hscan with ⟨-, h2⟩ | ⟨k, x, h1, h2, h3, h4⟩
  · obtain ⟨x, hx, hp⟩ := hex
    exact absurd hp (h2 x hx)
  · have hk := (List.getElem?_eq_some_iff.1 h1).1
    rw [Nat.zero_add, toInt32_of_lt k (by omega)] at h3
    subst h3
    refine ⟨by omega, ⟨x, by rw [sliceAt_natCast]; exact h1, h2⟩, ?_⟩
    intro j y hj hy
    exact h4 j y (by exact_mod_cast hj) hy

theorem lookupMapping_first (m : v1experimental.Mapping) (d : ProfilesDictionary KV)
    (hsmall : d.MappingTable.length < 2 ^ 31) (hex : ∃ x ∈ d.MappingTable, MappingKey m x) :
    0 ≤ lookupMapping m d ∧ FirstAt (MappingKey m) d.MappingTable (lookupMapping m d) :=
  firstAt_of_scan _ _ _ hsmall hex (lookupMapping_loop_spec m d.MappingTable 0)

theorem lookupLocation_first (loc : v1experimental.Location) (d : ProfilesDictionary KV)
    (hsmall : d.LocationTable.length < 2 ^ 31)
    (hex : ∃ x ∈ d.LocationTable, loc.Address = x.Address) :
    0 ≤ lookupLocation loc d ∧
      FirstAt (fun dl : v1development.Location => loc.Address = dl.Address) d.LocationTable
        (lookupLocation loc d) :=
  firstAt_of_scan _ _ _ hsmall hex (lookupLocation_loop_spec loc d.LocationTable 0)

theorem functionEqual_true_iff (f : v1experimental.Function) (df : v1development.Function)
    (profile : v1experimental.Profile KV) (d : ProfilesDictionary KV) :
    functionEqual f df profile d = some true ↔ FunctionSpec profile.StringTable d f df := by
  unfold functionEqual FunctionSpec SameText
  constructor
  · intro h
    split at h
    · rename_i a b ha hb
      split at h
      · simp at h
      · rename_i hab
        split at h
        · rename_i a2 b2 ha2 hb2
          split at h
          · simp at h
          · rename_i hab2
            split at h
            · rename_i a3 b3 ha3 hb3
              split at h
              · simp at h
              · rename_i hab3
                simp only [ne_eq, not_not] at hab hab2 hab3
                subst hab hab2 hab3
                simp only [Option.some.injEq, decide_eq_true_eq] at h
                exact ⟨⟨a, ha, hb⟩, ⟨a2, ha2, hb2⟩, ⟨a3, ha3, hb3⟩, h.symm⟩
            · simp at h
        · simp at h
    · simp at h
  · rintro ⟨⟨a, ha, hb⟩, ⟨a2, ha2, hb2⟩, ⟨a3, ha3, hb3⟩, h⟩
    simp [ha, hb, ha2, hb2, ha3, hb3, h]

theorem lookupFunction_loop_spec (f : v1experimental.Function)
    (profile : v1experimental.Profile KV) (d : ProfilesDictionary KV)
    (l : List v1development.Function) (i : Nat) (r : Int)
    (h : lookupFunction.loop f profile d l i = some r) :
    (r = -1 ∧ ∀ x ∈ l, ¬ FunctionSpec profile.StringTable d f x) ∨
    ∃ k x, l[k]? = some x ∧ FunctionSpec profile.StringTable d f x ∧
      r = toInt32 ((i + k : Nat) : Int) ∧
      ∀ j y, j < k → l[j]? = some y → ¬ FunctionSpec profile.StringTable d f y := by
  induction l generalizing i with
  | nil =>
    simp [lookupFunction.loop] at h
    exact Or.inl ⟨h.symm, by simp⟩
  | cons v rest ih =>
    simp only [lookupFunction.loop] at h
    split at h
    · simp at h
    · rename_i heq
      simp only [Option.some.injEq] at h
      exact Or.inr ⟨0, v, by simp, (functionEqual_true_iff _ _ _ _).1 heq, by simp [h], by simp⟩
    · rename_i heq
      have hv : ¬ FunctionSpec profile.StringTable d f v := by
        intro hc
        rw [(functionEqual_true_iff _ _ _ _).2 hc] at heq
        simp at heq
      rcases ih (i + 1) h with ⟨h1, h2⟩ | ⟨k, x, h1, h2, h3, h4⟩
      · refine Or.inl ⟨h1, ?_⟩
        intro x hx
        rcases List.mem_cons.1 hx with rfl | hx
        · exact hv
        · exact h2 x hx
      · refine Or.inr ⟨k + 1, x, by simpa using h1, h2, ?_, ?_⟩
        · rw [h3]; congr 2; omega
        · intro j y hj hy
          cases j with
          | zero => simp at hy; subst hy; exact hv
          | succ j => exact h4 j y (by omega) (by simpa using hy)

theorem lookupFunction_first (f : v1experimental.Function)
    (profile : v1experimental.Profile KV) (d : ProfilesDictionary KV) (r : Int)
    (h : lookupFunction f profile d = some r)
    (hsmall : d.FunctionTable.length < 2 ^ 31)
    (hex : ∃ x ∈ d.FunctionTable, FunctionSpec profile.StringTable d f x) :
    0 ≤ r ∧ FirstAt (FunctionSpec profile.StringTable d f) d.FunctionTable r :=
  firstAt_of_scan _ _ _ hsmall hex (lookupFunction_loop_spec f profile d d.FunctionTable 0 r h)

end

section
variable {KV : Type} [DecidableEq KV]
open v1development (ProfilesDictionary)

/-! ### Locations -/

theorem addLocationToDictionary_lines_spec (profile : v1experimental.Profile KV)
    (d D : ProfilesDictionary KV) (l : List v1experimental.Line)
    (out : List v1development.Line)
    (h : addLocationToDictionary.lines profile d l = some out)
    (hpre : FunctionsInterned profile d) (hsmall : d.FunctionTable.length < 2 ^ 31)
    (hD : DictLe d D) : List.Forall₂ (LineSpec profile D) l out := by
  induction l generalizing out with
  | nil => simp [addLocationToDictionary.lines] at h; subst h; exact List.Forall₂.nil
  | cons x rest ih =>
    simp only [addLocationToDictionary.lines] at h
    split at h
    · simp at h
    · rename_i function hfun
      split at h
      · simp at h
      · rename_i funcIdx hidx
        split at h
        · simp at h
        · rename_i dlines hrest
          simp only [Option.some.injEq] at h
          subst h
          refine List.Forall₂.cons ?_ (ih _ hrest)
          obtain ⟨h0, ⟨df, hdf, hspec⟩, -⟩ := lookupFunction_first function profile d funcIdx
            hidx hsmall (hpre function (List.getElem?_mem hfun))
          refine ⟨rfl, rfl, function, df, hfun, ?_, hspec.monoFunction hD⟩
          simp only [ge_iff_le, h0, if_true]
          exact sliceAt_mono hD.functions _ _ hdf

theorem addLocationToDictionary_attrs_interns (profile : v1experimental.Profile KV)
    (l : List Nat) (d e : ProfilesDictionary KV) (out : List Int)
    (h : addLocationToDictionary.attrs profile l d = some (out, e)) :
    Interns attrPred d e := by
  induction l generalizing d out with
  | nil =>
    simp [addLocationToDictionary.attrs] at h; obtain ⟨-, rfl⟩ := h; exact Interns.refl d
  | cons x rest ih =>
    simp only [addLocationToDictionary.attrs] at h
    split at h
    · simp at h
    · rename_i attr hattr
      split at h
      · simp at h
      · rename_i out1 d1 h1
        simp only [Option.some.injEq, Prod.mk.injEq] at h
        obtain ⟨-, rfl⟩ := h
        exact (Interns.attr _ (Interns.refl d) trivial).trans (ih _ _ h1)

theorem addLocationToDictionary_attrs_spec (profile : v1experimental.Profile KV)
    (l : List Nat) (d e D : ProfilesDictionary KV) (out : List Int)
    (h : addLocationToDictionary.attrs profile l d = some (out, e))
    (hD : DictLe e D) (hS : Small D) : List.Forall₂ (AttrSpec profile D) l out := by
  induction l generalizing d out with
  | nil =>
    simp [addLocationToDictionary.attrs] at h; obtain ⟨rfl, -⟩ := h; exact List.Forall₂.nil
  | cons x rest ih =>
    simp only [addLocationToDictionary.attrs] at h
    split at h
    · simp at h
    · rename_i attr hattr
      split at h
      · simp at h
      · rename_i out1 d1 h1
        simp only [Option.some.injEq, Prod.mk.injEq] at h
        obtain ⟨rfl, rfl⟩ := h
        refine List.Forall₂.cons ⟨attr, hattr, ?_⟩ (ih _ _ h1)
        exact sliceAt_toInt32 _ attr (internAttribute_at d attr)
          ((addLocationToDictionary_attrs_interns _ _ _ _ _ h1).le.trans' hD).attributes
          hS.2.2.2.2.2

theorem MappingSpec.key {st : List String} {d : ProfilesDictionary KV}
    {m : v1experimental.Mapping} {dm : v1development.Mapping} (h : MappingSpec st d m dm) :
    MappingKey m dm := ⟨h.1.symm, h.2.1.symm, h.2.2.1.symm⟩

theorem addLocationToDictionary_loop_spec (profile : v1experimental.Profile KV)
    (D : ProfilesDictionary KV) (l : List v1experimental.Location)
    (hl : ∀ x ∈ l, x ∈ profile.Location) (d e : ProfilesDictionary KV) (out : List Int)
    (h : addLocationToDictionary.loop profile l d = some (out, e)) (hD : DictLe e D)
    (hpreF : Small d → FunctionsInterned profile d)
    (hpreM : Small d → MappingsInterned profile d) :
    Interns (profilePred profile D) d e ∧
      (Small D → List.Forall₂ (LocationSpec profile D) l out) ∧
      ∀ x ∈ l, ∃ dl ∈ e.LocationTable, x.Address = dl.Address := by
  induction l generalizing d out with
  | nil =>
    simp [addLocationToDictionary.loop] at h; obtain ⟨rfl, rfl⟩ := h
    exact ⟨Interns.refl d, fun _ => List.Forall₂.nil, by simp⟩
  | cons x rest ih =>
    simp only [addLocationToDictionary.loop] at h
    split at h
    · simp at h
    · rename_i mapping hmap
      split at h
      · simp at h
      · rename_i dlines hlines
        split at h
        · simp at h
        · rename_i attrIdx d1 hattrs
          split at h
          · simp at h
          · rename_i result d2 hrest
            simp only [Option.some.injEq, Prod.mk.injEq] at h
            obtain ⟨rfl, rfl⟩ := h
            have hI1 := addLocationToDictionary_attrs_interns _ _ _ _ _ hattrs
            have hle2 := internLocation_le d1
              { MappingIndex := if lookupMapping mapping d ≥ 0 then
                  some (lookupMapping mapping d) else none,
                Address := x.Address, Line := dlines, IsFolded := x.IsFolded,
                AttributeIndices := attrIdx }
            have hd2 : DictLe d _ := hI1.le.trans' hle2
            obtain ⟨ihI, ihS, ihA⟩ := ih (fun y hy => hl y (List.mem_cons_of_mem _ hy)) _ _
              hrest (fun hS => (hpreF (Small.of_le hd2 hS)).monoFunctions hd2)
              (fun hS => (hpreM (Small.of_le hd2 hS)).monoMappings hd2)
            have hdD : DictLe d D := hd2.trans' (ihI.le.trans' hD)
            have hform : Small D → LocationFormSpec profile D x
                { MappingIndex := if lookupMapping mapping d ≥ 0 then
                    some (lookupMapping mapping d) else none,
                  Address := x.Address, Line := dlines, IsFolded := x.IsFolded,
                  AttributeIndices := attrIdx } := by
              intro hS
              have hSd := Small.of_le hdD hS
              obtain ⟨dm, hdm, hdspec⟩ := hpreM hSd mapping (List.getElem?_mem hmap)
              obtain ⟨h0, hfirst⟩ := lookupMapping_first mapping d hSd.1 ⟨dm, hdm, hdspec.key⟩
              refine ⟨rfl, rfl, ?_, ?_, mapping, lookupMapping mapping d, hmap, ?_,
                hfirst.monoFirst hdD.mappings⟩
              · exact addLocationToDictionary_lines_spec profile d D _ _ hlines (hpreF hSd)
                  hSd.2.2.1 hdD
              · exact addLocationToDictionary_attrs_spec profile _ d d1 D _ hattrs
                  (hle2.trans' (ihI.le.trans' hD)) hS
              · simp only [ge_iff_le, h0, if_true]
            refine ⟨?_, ?_, ?_⟩
            · refine Interns.trans ?_ ihI
              exact Interns.loc _ hI1.ofAttr
                (fun hS => ⟨x, hl x (List.mem_cons_self _ _), hform hS⟩)
            · intro hS
              refine List.Forall₂.cons ⟨_, ?_, hform hS⟩ (ihS hS)
              exact sliceAt_toInt32 _ _ (internLocation_at d1 _) (ihI.le.trans' hD).locations
                hS.2.1
            · intro y hy
              rcases List.mem_cons.1 hy with rfl | hy
              · exact ⟨_, ihI.le.locations.subset (findInsert_subset _ _), rfl⟩
              · exact ihA y hy

/-! ### Samples -/

theorem addSamplesToDictionary_loop_spec (profile : v1experimental.Profile KV)
    (D : ProfilesDictionary KV) (l : List v1experimental.Sample)
    (d e : ProfilesDictionary KV) (out : List v1development.Sample)
    (h : addSamplesToDictionary.loop profile l d = some (out, e)) (hD : DictLe e D)
    (hpre : LocationsInterned profile d) :
    Interns linkPred d e ∧ (Small D → List.Forall₂ (SampleSpec profile D) l out) := by
  induction l generalizing d out with
  | nil =>
    simp [addSamplesToDictionary.loop] at h; obtain ⟨rfl, rfl⟩ := h
    exact ⟨Interns.refl d, fun _ => List.Forall₂.nil⟩
  | cons x rest ih =>
    simp only [addSamplesToDictionary.loop] at h
    split at h
    · simp at h
    · rename_i location hloc
      have hstart : ∀ e' : ProfilesDictionary KV, DictLe d e' → DictLe e' D → Small D →
          ∃ loc, profile.Location[x.LocationsStartIndex]? = some loc ∧
            FirstAt (fun dl : v1development.Location => loc.Address = dl.Address)
              D.LocationTable
              (if lookupLocation location d ≥ 0 then lookupLocation location d else 0) := by
        intro e' h1 h2 hS
        have hdD := h1.trans' h2
        obtain ⟨h0, hfirst⟩ := lookupLocation_first location d (Small.of_le hdD hS).2.1
          (hpre location (List.getElem?_mem hloc))
        refine ⟨location, hloc, ?_⟩
        simp only [ge_iff_le, h0, if_true]
        exact hfirst.monoFirst hdD.locations
      split at h
      · rename_i hlt
        split at h
        · simp at h
        · rename_i link hlink
          split at h
          · simp at h
          · rename_i result d1 hrest
            simp only [Option.some.injEq, Prod.mk.injEq] at h
            obtain ⟨rfl, rfl⟩ := h
            have hle := internLink_le d (convertLink link)
            obtain ⟨ihI, ihS⟩ := ih _ _ hrest (hpre.monoLocations hle)
            refine ⟨(Interns.link _ (Interns.refl d) trivial).trans ihI, ?_⟩
            intro hS
            refine List.Forall₂.cons ?_ (ihS hS)
            refine ⟨hstart _ hle (ihI.le.trans' hD) hS, rfl, rfl, rfl, ?_, ?_⟩
            · intro _
              exact ⟨link, _, hlink, rfl, sliceAt_toInt32 _ _ (internLink_at d _)
                (ihI.le.trans' hD).links hS.2.2.2.1⟩
            · intro hc
              exact absurd (by simpa using hlt) hc
      · rename_i hlt
        split at h
        · simp at h
        · rename_i result d1 hrest
          simp only [Option.some.injEq, Prod.mk.injEq] at h
          obtain ⟨rfl, rfl⟩ := h
          obtain ⟨ihI, ihS⟩ := ih _ _ hrest hpre
          refine ⟨ihI, ?_⟩
          intro hS
          refine List.Forall₂.cons ?_ (ihS hS)
          refine ⟨hstart _ (DictLe.rfl' d) (ihI.le.trans' hD) hS, rfl, rfl, rfl, ?_, ?_⟩
          · intro hc
            exact absurd (by simpa using hc) hlt
          · intro _; rfl

end

section
variable {KV : Type} [DecidableEq KV]
open v1development (ProfilesDictionary)

/-! ### One profile -/

theorem Interns.string_eq_of_subset {profile : v1experimental.Profile KV}
    {D d e : ProfilesDictionary KV} (h : Interns (profilePred profile D) d e)
    (hsub : ∀ s ∈ profile.StringTable, s ∈ d.StringTable) : e.StringTable = d.StringTable :=
  h.string_eq hsub

theorem addToDictionary_spec (pc : v1experimental.ProfileContainer KV)
    (p0 dp : v1development.Profile) (d e D : ProfilesDictionary KV)
    (h : addToDictionary pc p0 d = some (dp, e)) (hD : DictLe e D) :
    ∃ profile, pc.Profile = some profile ∧ Interns (profilePred profile D) d e ∧
      e.StringTable = insertAll d.StringTable profile.StringTable ∧
      (∀ s ∈ profile.StringTable, s ∈ e.StringTable) ∧
      (∃ li sm, dp = { p0 with LocationIndices := li, Sample := sm }) ∧
      (Small D → FunctionsInterned profile D ∧ MappingsInterned profile D ∧
        List.Forall₂ (LocationSpec profile D) profile.Location dp.LocationIndices ∧
        List.Forall₂ (SampleSpec profile D) profile.Sample dp.Sample) := by
  unfold addToDictionary at h
  cases hp : pc.Profile with
  | none => simp [addLinkToDictionary, hp] at h
  | some profile =>
    simp only [addLinkToDictionary, addStringToDictionary, addAttributeToDictionary,
      addMappingToDictionary, addFunctionToDictionary, addLocationToDictionary,
      addSamplesToDictionary, hp] at h
    split at h
    · simp at h
    · rename_i d4 h4
      split at h
      · simp at h
      · rename_i d5 h5
        split at h
        · simp at h
        · rename_i li d6 h6
          split at h
          · simp at h
          · rename_i sm d7 h7
            simp only [Option.some.injEq, Prod.mk.injEq] at h
            obtain ⟨rfl, rfl⟩ := h
            have hI1 := addLinkToDictionary_loop_interns profile.LinkTable d
            have hI2 := addStringToDictionary_loop_interns (fun s => s ∈ profile.StringTable)
              profile.StringTable (fun _ hs => hs) (addLinkToDictionary.loop profile.LinkTable d)
            have hI3 := addAttributeToDictionary_loop_interns profile.AttributeTable
              (addStringToDictionary.loop profile.StringTable
                (addLinkToDictionary.loop profile.LinkTable d))
            have hpreF : Small d5 → FunctionsInterned profile d5 := fun hS =>
              (addFunctionToDictionary_loop_spec profile d5 profile.Function
                (fun _ hx => hx) d4 d5 h5 (DictLe.rfl' _)).2 hS
            have hle45 : DictLe d4 d5 :=
              (addFunctionToDictionary_loop_spec profile d5 profile.Function
                (fun _ hx => hx) d4 d5 h5 (DictLe.rfl' _)).1.le
            have hpreM : Small d5 → MappingsInterned profile d5 := fun hS => by
              intro m hm
              obtain ⟨dm, h1, h2⟩ := (addMappingToDictionary_loop_spec profile d5
                profile.Mapping (fun _ hx => hx) _ d4 h4 hle45).2 hS m hm
              exact ⟨dm, hle45.mappings.subset h1, h2⟩
            have hpreL : LocationsInterned profile d6 :=
              (addLocationToDictionary_loop_spec profile d6 profile.Location
                (fun _ hx => hx) d5 d6 li h6 (DictLe.rfl' _) hpreF hpreM).2.2
            have hle67 : DictLe d6 d7 :=
              (addSamplesToDictionary_loop_spec profile d7 profile.Sample d6 d7 sm h7
                (DictLe.rfl' _) hpreL).1.le
            have hle56 : DictLe d5 d6 :=
              (addLocationToDictionary_loop_spec profile d6 profile.Location
                (fun _ hx => hx) d5 d6 li h6 (DictLe.rfl' _) hpreF hpreM).1.le
            have h6D := hle67.trans' hD
            have h5D := hle56.trans' h6D
            have h4D := hle45.trans' h5D
            obtain ⟨hSmI, hSmS⟩ := addSamplesToDictionary_loop_spec profile D profile.Sample
              d6 d7 sm h7 hD hpreL
            obtain ⟨hLocI, hLocS, -⟩ := addLocationToDictionary_loop_spec profile D
              profile.Location (fun _ hx => hx) d5 d6 li h6 h6D hpreF hpreM
            obtain ⟨hFnI, hFnS⟩ := addFunctionToDictionary_loop_spec profile D profile.Function
              (fun _ hx => hx) d4 d5 h5 h5D
            obtain ⟨hMpI, hMpS⟩ := addMappingToDictionary_loop_spec profile D profile.Mapping
              (fun _ hx => hx) _ d4 h4 h4D
            have hstr2 : (addStringToDictionary.loop profile.StringTable
                (addLinkToDictionary.loop profile.LinkTable d)).StringTable
                = insertAll d.StringTable profile.StringTable := by
              rw [addStringToDictionary_loop_strings]
              congr 1
              exact hI1.string_eq (fun _ hx => hx.elim)
            have hmem2 := addStringToDictionary_loop_mem profile.StringTable
              (addLinkToDictionary.loop profile.LinkTable d)
            have htail : Interns (profilePred profile D)
                (addStringToDictionary.loop profile.StringTable
                  (addLinkToDictionary.loop profile.LinkTable d)) d7 :=
              (hI3.ofAttr.trans hMpI).trans ((hFnI.trans hLocI).trans hSmI.ofLink)
            have hstr7 := htail.string_eq hmem2
            refine ⟨profile, rfl, (hI1.ofLink.trans hI2.ofStr).trans htail,
              hstr7.trans hstr2, ?_, ⟨li, sm, rfl⟩, ?_⟩
            · intro s hs; rw [hstr7]; exact hmem2 s hs
            · intro hS
              refine ⟨?_, ?_, hLocS hS, hSmS hS⟩
              · intro f hf
                obtain ⟨df, h1, h2⟩ := hFnS hS f hf
                exact ⟨df, h5D.functions.subset h1, h2⟩
              · intro m hm
                obtain ⟨dm, h1, h2⟩ := hMpS hS m hm
                exact ⟨dm, h4D.mappings.subset h1, h2⟩

end

section
variable {KV : Type} [DecidableEq KV]
open v1development (ProfilesDictionary)

theorem convertProfiles_body_spec (pc : v1experimental.ProfileContainer KV)
    (d e D : ProfilesDictionary KV) (dp : v1development.Profile)
    (h : convertProfiles.body pc d = some (dp, e)) (hD : DictLe e D) :
    ∃ profile, pc.Profile = some profile ∧ Interns (profilePred profile D) d e ∧
      e.StringTable = insertAll d.StringTable profile.StringTable ∧
      (Small D → ProfileSpec pc dp D profile) := by
  unfold convertProfiles.body at h
  split at h
  · simp at h
  · rename_i dp1 d1 h1
    split at h
    · simp at h
    · rename_i profile hp
      split at h
      · simp at h
      · rename_i sampleType d2 h2
        split at h
        · simp at h
        · rename_i periodType d3 h3
          split at h
          · simp at h
          · rename_i comments d4 h4
            split at h
            · simp at h
            · rename_i s hs
              simp only [Option.some.injEq, Prod.mk.injEq] at h
              obtain ⟨rfl, rfl⟩ := h
              have hI2 := convertSampleType_interns _ _ _ _ _ h2
              have hI3 := convertValueType_interns _ _ _ _ _ h3
              have hI4 := convertComments_interns _ _ _ _ _ h4
              have hI5 : Interns (strPred (fun s => s ∈ profile.StringTable)) d4
                  (internString d4 s).1 :=
                Interns.str _ (Interns.refl d4) (sliceAt_mem _ _ _ hs)
              have hI6 := convertAttributes_interns pc.Attributes (internString d4 s).1
              have h5D := hI6.le.trans' hD
              have h4D := hI5.le.trans' h5D
              have h3D := hI4.le.trans' h4D
              have h2D := hI3.le.trans' h3D
              have h1D := hI2.le.trans' h2D
              obtain ⟨profile', hp', hI1, hstr1, hmem1, ⟨li, sm, hdp⟩, hspec1⟩ :=
                addToDictionary_spec pc {} dp1 d d1 D h1 h1D
              rw [hp] at hp'
              obtain rfl : profile = profile' := by simpa using hp'
              have htail : Interns (profilePred profile D) d1
                  (convertAttributes pc.Attributes (internString d4 s).1).2 :=
                ((hI2.ofStr.trans hI3.ofStr).trans (hI4.ofStr.trans hI5.ofStr)).trans hI6.ofAttr
              refine ⟨profile, hp, hI1.trans htail, (htail.string_eq hmem1).trans hstr1, ?_⟩
              intro hS
              obtain ⟨hF, hM, hL, hSm⟩ := hspec1 hS
              cases hv : profile.PeriodType with
              | none => rw [hv] at h3; simp [convertValueType] at h3
              | some v =>
                rw [hv] at h3
                subst hdp
                exact
                  { present := hp
                    functions := hF
                    mappings := hM
                    locations := hL
                    samples := hSm
                    sampleType := convertSampleType_spec _ _ _ _ D _ h2 h2D hS
                    periodType := ⟨v, periodType, hv, rfl,
                      convertValueType_spec v _ _ _ D _ h3 h3D hS⟩
                    comments := convertComments_spec _ _ _ _ D _ h4 h4D hS
                    defaultSampleType := sameText_intern _ d4 D _ s hs h5D hS
                    attributes := convertAttributes_spec _ _ D hD hS }

/-! ### The traversal -/

theorem insertAll_append (acc l1 l2 : List String) :
    insertAll (insertAll acc l1) l2 = insertAll acc (l1 ++ l2) := by
  simp [insertAll, List.foldl_append]

theorem FunctionSpec.validFunction {st : List String} {d : ProfilesDictionary KV}
    {f : v1experimental.Function} {df : v1development.Function}
    (h : FunctionSpec st d f df) : FunctionValid d df := by
  obtain ⟨⟨_, _, h1⟩, ⟨_, _, h2⟩, ⟨_, _, h3⟩, -⟩ := h
  exact ⟨sliceAt_validIdx _ _ _ h1, sliceAt_validIdx _ _ _ h2, sliceAt_validIdx _ _ _ h3⟩

theorem MappingSpec.validMapping {st : List String} {d : ProfilesDictionary KV}
    {m : v1experimental.Mapping} {dm : v1development.Mapping}
    (h : MappingSpec st d m dm) : MappingValid d dm := by
  obtain ⟨_, _, h1⟩ := h.2.2.2.1
  exact sliceAt_validIdx _ _ _ h1

theorem forall₂_right {β γ : Type} {R : β → γ → Prop} {Q : γ → Prop} {l1 : List β}
    {l2 : List γ} (h : List.Forall₂ R l1 l2) (hQ : ∀ a b, R a b → Q b) : ∀ b ∈ l2, Q b := by
  induction h with
  | nil => simp
  | cons hab _ ih =>
    intro b hb
    rcases List.mem_cons.1 hb with rfl | hb
    · exact hQ _ _ hab
    · exact ih b hb

theorem LocationFormSpec.validLocation {profile : v1experimental.Profile KV}
    {d : ProfilesDictionary KV} {loc : v1experimental.Location}
    {dl : v1development.Location} (h : LocationFormSpec profile d loc dl) :
    LocationValid d dl := by
  obtain ⟨-, -, hlines, hattrs, m, k, -, hk, ⟨x, hx, -⟩, -⟩ := h
  refine ⟨?_, ?_, ?_⟩
  · intro k' hk'
    rw [hk] at hk'
    obtain rfl : k = k' := by simpa using hk'
    exact sliceAt_validIdx _ _ _ hx
  · exact forall₂_right hlines (fun a b hab => by
      obtain ⟨-, -, f, df, -, hdf, -⟩ := hab
      exact sliceAt_validIdx _ _ _ hdf)
  · exact forall₂_right hattrs (fun a b hab => by
      obtain ⟨x, -, hx⟩ := hab
      exact sliceAt_validIdx _ _ _ hx)

theorem Interns.ofProfile {profile : v1experimental.Profile KV}
    {pcs : List (v1experimental.ProfileContainer KV)} {D d e : ProfilesDictionary KV}
    (h : Interns (profilePred profile D) d e)
    (hsub : ∀ s ∈ profile.StringTable, s ∈ containerStrings pcs) :
    Interns (batchPred pcs D) d e :=
  h.mono hsub (fun _ hx hS => let ⟨_, _, hf⟩ := hx hS; hf.validFunction)
    (fun _ hx hS => let ⟨_, _, hf⟩ := hx hS; hf.validMapping)
    (fun _ hx hS => let ⟨_, _, hf⟩ := hx hS; hf.validLocation) (fun _ _ => trivial)
    (fun _ _ => trivial)

theorem Interns.ofBatch {pcs pcs' : List (v1experimental.ProfileContainer KV)}
    {D d e : ProfilesDictionary KV} (h : Interns (batchPred pcs D) d e)
    (hsub : ∀ s ∈ containerStrings pcs, s ∈ containerStrings pcs') :
    Interns (batchPred pcs' D) d e :=
  h.mono hsub (fun _ hx => hx) (fun _ hx => hx) (fun _ hx => hx) (fun _ _ => trivial)
    (fun _ _ => trivial)

theorem convertProfiles_spec (pcs : List (v1experimental.ProfileContainer KV))
    (d e D : ProfilesDictionary KV) (out : List v1development.Profile)
    (h : convertProfiles pcs d = some (out, e)) (hD : DictLe e D) :
    Interns (batchPred pcs D) d e ∧
      e.StringTable = insertAll d.StringTable (containerStrings pcs) ∧
      (Small D → List.Forall₂ (fun pc dp => ∃ profile, ProfileSpec pc dp D profile) pcs out) := by
  induction pcs generalizing d out with
  | nil =>
    simp [convertProfiles] at h; obtain ⟨rfl, rfl⟩ := h
    exact ⟨Interns.refl d, rfl, fun _ => List.Forall₂.nil⟩
  | cons pc rest ih =>
    simp only [convertProfiles] at h
    split at h
    · simp at h
    · rename_i dp d1 h1
      split at h
      · simp at h
      · rename_i out1 d2 h2
        simp only [Option.some.injEq, Prod.mk.injEq] at h
        obtain ⟨rfl, rfl⟩ := h
        obtain ⟨ihI, ihStr, ihS⟩ := ih _ _ h2
        obtain ⟨profile, hp, hI, hstr, hspec⟩ :=
          convertProfiles_body_spec pc d d1 D dp h1 (ihI.le.trans' hD)
        have hcs : containerStrings (pc :: rest) = profile.StringTable ++ containerStrings rest := by
          simp [containerStrings, hp]
        refine ⟨?_, ?_, ?_⟩
        · refine (hI.ofProfile ?_).trans (ihI.ofBatch ?_)
          · intro s hs; rw [hcs]; exact List.mem_append_left _ hs
          · intro s hs; rw [hcs]; exact List.mem_append_right _ hs
        · rw [ihStr, hstr, insertAll_append, hcs]
        · intro hS
          exact List.Forall₂.cons ⟨profile, hspec hS⟩ (ihS hS)

end

section
variable {KV : Type} [DecidableEq KV]
open v1development (ProfilesDictionary)

theorem convertProfiles_append (l1 l2 : List (v1experimental.ProfileContainer KV))
    (d d1 d2 : ProfilesDictionary KV) (o1 o2 : List v1development.Profile)
    (h1 : convertProfiles l1 d = some (o1, d1)) (h2 : convertProfiles l2 d1 = some (o2, d2)) :
    convertProfiles (l1 ++ l2) d = some (o1 ++ o2, d2) := by
  induction l1 generalizing d o1 with
  | nil => simp [convertProfiles] at h1; obtain ⟨rfl, rfl⟩ := h1; simpa using h2
  | cons x rest ih =>
    simp only [convertProfiles] at h1
    split at h1
    · simp at h1
    · rename_i dp e1 hb
      split at h1
      · simp at h1
      · rename_i out1 e2 hr
        simp only [Option.some.injEq, Prod.mk.injEq] at h1
        obtain ⟨rfl, rfl⟩ := h1
        have hih := ih _ _ hr
        show convertProfiles (x :: (rest ++ l2)) d = _
        simp only [convertProfiles, hb, hih, List.cons_append]

theorem convertScopeProfiles_flat (sps : List (v1experimental.ScopeProfiles KV))
    (d e : ProfilesDictionary KV) (out : List (v1development.ScopeProfiles KV))
    (h : convertScopeProfiles sps d = some (out, e)) :
    convertProfiles (sps.flatMap fun sp => sp.Profiles) d =
      some (out.flatMap fun sp => sp.Profiles, e) := by
  induction sps generalizing d out with
  | nil => simp [convertScopeProfiles] at h; obtain ⟨rfl, rfl⟩ := h; simp [convertProfiles]
  | cons x rest ih =>
    simp only [convertScopeProfiles] at h
    split at h
    · simp at h
    · rename_i profiles d1 h1
      split at h
      · simp at h
      · rename_i out1 d2 h2
        simp only [Option.some.injEq, Prod.mk.injEq] at h
        obtain ⟨rfl, rfl⟩ := h
        simp only [List.flatMap_cons]
        exact convertProfiles_append _ _ _ _ _ _ _ h1 (ih _ _ h2)

theorem convert_loop_flat (rps : List (v1experimental.ResourceProfiles KV))
    (d e : ProfilesDictionary KV) (out : List (v1development.ResourceProfiles KV))
    (h : convert.loop rps d = some (out, e)) :
    convertProfiles (inputContainers rps) d = some (outputProfiles out, e) := by
  induction rps generalizing d out with
  | nil =>
    simp [convert.loop] at h; obtain ⟨rfl, rfl⟩ := h
    simp [convertProfiles, inputContainers, outputProfiles]
  | cons x rest ih =>
    simp only [convert.loop, convertResourceProfiles] at h
    split at h
    · simp at h
    · rename_i drp d1 h1
      split at h1
      · simp at h1
      · rename_i sps d1' hs
        simp only [Option.some.injEq, Prod.mk.injEq] at h1
        obtain ⟨rfl, rfl⟩ := h1
        split at h
        · simp at h
        · rename_i out1 d2 h2
          simp only [Option.some.injEq, Prod.mk.injEq] at h
          obtain ⟨rfl, rfl⟩ := h
          simp only [inputContainers, outputProfiles, List.flatMap_cons]
          exact convertProfiles_append _ _ _ _ _ _ _ (convertScopeProfiles_flat _ _ _ _ hs)
            (ih _ _ h2)

/-- Everything the traversal establishes, read against the dictionary it ends with. -/
theorem convert_loop_spec (rps : List (v1experimental.ResourceProfiles KV))
    (D : ProfilesDictionary KV) (out : List (v1development.ResourceProfiles KV))
    (h : convert.loop rps {} = some (out, D)) :
    Interns (batchPred (inputContainers rps) D) {} D ∧
      D.StringTable = insertAll [] (inputStrings rps) ∧
      (Small D → List.Forall₂ (fun pc dp => ∃ profile, ProfileSpec pc dp D profile)
        (inputContainers rps) (outputProfiles out)) :=
  convertProfiles_spec _ _ _ D _ (convert_loop_flat rps _ _ _ h) (DictLe.rfl' D)

end

/-! ### Repeated strings -/

section
variable {α : Type} [DecidableEq α]

theorem dedupKeepFirst_filter (p : α → Bool) (l : List α) :
    dedupKeepFirst (l.filter p) = (dedupKeepFirst l).filter p := by
  induction l with
  | nil => rfl
  | cons x xs ih =>
    by_cases hp : p x = true
    · simp only [List.filter_cons, hp, if_true, dedupKeepFirst, ih, List.filter_filter]
      congr 1
      apply List.filter_congr
      intro y _
      exact Bool.and_comm _ _
    · simp only [List.filter_cons, hp, dedupKeepFirst, List.filter_filter]
      simp only [Bool.false_eq_true, if_false]
      rw [ih]
      apply List.filter_congr
      intro y _
      by_cases hy : y = x
      · subst hy; simp [hp]
      · simp [hy]

end

theorem insertAll_eq (acc l : List String) :
    insertAll acc l = acc ++ dedupKeepFirst (l.filter (fun s => decide (s ∉ acc))) := by
  induction l generalizing acc with
  | nil => simp [insertAll, dedupKeepFirst]
  | cons x xs ih =>
    have hstep : insertAll acc (x :: xs) = insertAll (findInsert acc x).1 xs := by
      simp [insertAll]
    rw [hstep]
    by_cases hx : x ∈ acc
    · rw [findInsert_eq_self acc x hx, ih]
      simp [List.filter_cons, hx]
    · rw [findInsert_of_not_mem acc x hx, ih]
      simp only [List.filter_cons, hx, not_false_eq_true, decide_True, if_true, dedupKeepFirst,
        List.append_assoc, List.singleton_append]
      congr 2
      rw [← dedupKeepFirst_filter, List.filter_filter]
      congr 1
      apply List.filter_congr
      intro y _
      by_cases hy : y = x
      · subst hy; simp
      · simp [hy]

theorem insertAll_nil (l : List String) : insertAll [] l = dedupKeepFirst l := by
  rw [insertAll_eq]; simp

theorem sampleBatch_run :
    convert.loop sampleBatch.ResourceProfiles {} = some (sampleOut, sampleDictionary) := by
  decide

theorem sampleDictionary_small : Small sampleDictionary := by
  simp [Small, sampleDictionary]

section
variable {KV : Type} [DecidableEq KV]
open v1development (ProfilesDictionary)

/-! ## The claims -/

/-- C1: `findInsert` and `findInsertProtoMessage` (which computes the same result) return
an index that is a valid position of the resulting list, and the resulting list holds the
candidate there; if the list already held the candidate the list is unchanged and the
index is the position of its first occurrence; otherwise the resulting list is the old one
with the candidate appended and the index is the old length. -/
theorem findInsert_contract {α : Type} [DecidableEq α] (list : List α) (candidate : α) :
    findInsertProtoMessage list candidate = findInsert list candidate ∧
    (findInsert list candidate).2 < (findInsert list candidate).1.length ∧
    (findInsert list candidate).1[(findInsert list candidate).2]? = some candidate ∧
    (candidate ∈ list →
      (findInsert list candidate).1 = list ∧
      list[(findInsert list candidate).2]? = some candidate ∧
      ∀ j, j < (findInsert list candidate).2 → list[j]? ≠ some candidate) ∧
    (candidate ∉ list →
      (findInsert list candidate).1 = list ++ [candidate] ∧
      (findInsert list candidate).2 = list.length) := by
  refine ⟨rfl, findInsert_lt _ _, findInsert_get _ _, findInsert_of_mem _ _, ?_⟩
  intro h
  rw [findInsert_of_not_mem _ _ h]
  exact ⟨rfl, rfl⟩

/-- C2: when `convert` completes on a batch, none of the six shared tables of the
dictionary it has built from the empty one holds an entry at two distinct positions. -/
theorem convert_noDuplicates (input : v1experimental.ProfilesData KV)
    (out : List (v1development.ResourceProfiles KV)) (D : ProfilesDictionary KV)
    (h : convert.loop input.ResourceProfiles {} = some (out, D)) : NoDuplicates D := by
  refine (convert_loop_spec _ D out h).1.noDuplicates ?_
  rw [noDuplicates_iff]
  exact ⟨List.nodup_nil, List.nodup_nil, List.nodup_nil, List.nodup_nil, List.nodup_nil,
    List.nodup_nil⟩

end

section
variable {KV : Type} [DecidableEq KV]
open v1development (ProfilesDictionary)

theorem SameText.validText {st : List String} {d : ProfilesDictionary KV} {i o : Int}
    (h : SameText st d i o) : ValidIdx d.StringTable.length o := by
  obtain ⟨_, _, h1⟩ := h
  exact sliceAt_validIdx _ _ _ h1

theorem SampleSpec.validSample {profile : v1experimental.Profile KV} {d : ProfilesDictionary KV}
    {s : v1experimental.Sample} {o : v1development.Sample} (h : SampleSpec profile d s o) :
    SampleValid d o := by
  obtain ⟨⟨loc, -, ⟨x, hx, -⟩, -⟩, -, -, -, hyes, hno⟩ := h
  refine ⟨sliceAt_validIdx _ _ _ hx, ?_⟩
  intro k hk
  by_cases hc : toInt64 s.Link < profile.LinkTable.length
  · obtain ⟨link, k', -, hk', hat⟩ := hyes hc
    rw [hk] at hk'
    obtain rfl : k = k' := by simpa using hk'
    exact sliceAt_validIdx _ _ _ hat
  · rw [hno hc] at hk; simp at hk

theorem ProfileSpec.validProfile {pc : v1experimental.ProfileContainer KV}
    {dp : v1development.Profile} {d : ProfilesDictionary KV}
    {profile : v1experimental.Profile KV} (h : ProfileSpec pc dp d profile) :
    ProfileValid d dp where
  sampleType := forall₂_right h.sampleType (fun _ _ hab => ⟨hab.1.validText, hab.2.validText⟩)
  periodType := by
    intro v hv
    obtain ⟨v', o, -, ho, hspec⟩ := h.periodType
    rw [hv] at ho
    obtain rfl : v = o := by simpa using ho
    exact ⟨hspec.1.validText, hspec.2.validText⟩
  comments := forall₂_right h.comments (fun _ _ hab => hab.validText)
  defaultSampleType := h.defaultSampleType.validText
  attributes := forall₂_right h.attributes (fun _ _ hab => sliceAt_validIdx _ _ _ hab)
  locations := forall₂_right h.locations (fun _ _ hab => by
    obtain ⟨dl, hdl, -⟩ := hab
    exact sliceAt_validIdx _ _ _ hdl)
  samples := forall₂_right h.samples (fun _ _ hab => hab.validSample)

/-- C3 (amended): when `convert` completes on a batch (every local index it reads is then
within range of its local table) and all six shared tables of the dictionary it has built
have fewer than `2^31` entries, every index stored in a record of the dictionary and every
index of every output profile is a valid position of the shared table it refers to. -/
theorem convert_indices_valid (input : v1experimental.ProfilesData KV)
    (out : List (v1development.ResourceProfiles KV)) (D : ProfilesDictionary KV)
    (h : convert.loop input.ResourceProfiles {} = some (out, D)) (hS : Small D) :
    DictionaryValid D ∧ ∀ p ∈ outputProfiles out, ProfileValid D p := by
  obtain ⟨hI, -, hspec⟩ := convert_loop_spec _ D out h
  refine ⟨⟨?_, ?_, ?_⟩, ?_⟩
  · intro f hf
    rcases hI.mem_function f hf with h1 | h1
    · simp at h1
    · exact h1 hS
  · intro f hf
    rcases hI.mem_mapping f hf with h1 | h1
    · simp at h1
    · exact h1 hS
  · intro f hf
    rcases hI.mem_location f hf with h1 | h1
    · simp at h1
    · exact h1 hS
  · exact forall₂_right (hspec hS) (fun _ _ hab => let ⟨_, hp⟩ := hab; hp.validProfile)

/-- Witness of C3: the indices of the converted sample batch are valid. -/
theorem convert_indices_valid_witness :
    DictionaryValid sampleDictionary ∧ ∀ p ∈ outputProfiles sampleOut,
      ProfileValid sampleDictionary p :=
  convert_indices_valid sampleBatch sampleOut sampleDictionary sampleBatch_run
    sampleDictionary_small

/-- C10: when `convert` completes on a batch, the shared string table it has built from
the empty dictionary is the concatenation of the local string tables of the profiles in
traversal order, with every repeated text removed after its first occurrence. -/
theorem convert_stringTable (input : v1experimental.ProfilesData KV)
    (out : List (v1development.ResourceProfiles KV)) (D : ProfilesDictionary KV)
    (h : convert.loop input.ResourceProfiles {} = some (out, D)) :
    D.StringTable = dedupKeepFirst (inputStrings input.ResourceProfiles) := by
  rw [(convert_loop_spec _ D out h).2.1, insertAll_nil]

/-- Witness of C10 on the sample batch. -/
theorem convert_stringTable_witness :
    sampleDictionary.StringTable = dedupKeepFirst (inputStrings sampleBatch.ResourceProfiles) :=
  convert_stringTable sampleBatch sampleOut sampleDictionary sampleBatch_run

/-- Witness of C2 on the sample batch. -/
theorem convert_noDuplicates_witness : NoDuplicates sampleDictionary :=
  convert_noDuplicates sampleBatch sampleOut sampleDictionary sampleBatch_run

/-- C4: `convert` leaves the dictionary field of the output batch as it found it; on the
sample batch, whose profiles have non-empty string tables, the output batch carries no
dictionary although the conversion has built a non-empty one. -/
theorem convert_dictionary_not_attached :
    convert sampleBatch {} = some { ResourceProfiles := sampleOut, Dictionary := none } ∧
    convert.loop sampleBatch.ResourceProfiles {} = some (sampleOut, sampleDictionary) ∧
    sampleDictionary.StringTable ≠ [] := by
  decide

/-- The call `convert(in, out)` completes exactly when its loop does; it appends the
converted resource profiles to those of `out`, and the dictionary the loop has built is
the one the claims about the final dictionary speak of. -/
theorem convert_eq_some_iff (input : v1experimental.ProfilesData KV)
    (out out' : v1development.ProfilesData KV) :
    convert input out = some out' ↔
      ∃ rps D, convert.loop input.ResourceProfiles {} = some (rps, D) ∧
        out' = { out with ResourceProfiles := out.ResourceProfiles ++ rps } := by
  unfold convert
  constructor
  · intro h
    split at h
    · simp at h
    · rename_i rps D hrun
      simp only [Option.some.injEq] at h
      exact ⟨rps, D, hrun, h.symm⟩
  · rintro ⟨rps, D, hrun, rfl⟩
    simp only [hrun]

/-- The dictionary field of the output batch is never assigned. -/
theorem convert_dictionary_unchanged (input : v1experimental.ProfilesData KV)
    (out out' : v1development.ProfilesData KV) (h : convert input out = some out') :
    out'.Dictionary = out.Dictionary := by
  unfold convert at h
  split at h
  · simp at h
  · simp only [Option.some.injEq] at h
    rw [← h]

end

section
variable {KV : Type} [DecidableEq KV]
open v1development (ProfilesDictionary)

/-! ### Lists related entry by entry -/

theorem forall₂_left {β γ : Type} {R : β → γ → Prop} {l1 : List β} {l2 : List γ}
    (h : List.Forall₂ R l1 l2) : ∀ a ∈ l1, ∃ b ∈ l2, R a b := by
  induction h with
  | nil => simp
  | cons hab _ ih =>
    intro a ha
    rcases List.mem_cons.1 ha with rfl | ha
    · exact ⟨_, List.mem_cons_self _ _, hab⟩
    · obtain ⟨b, hb, hr⟩ := ih a ha
      exact ⟨b, List.mem_cons_of_mem _ hb, hr⟩

theorem forall₂_getElem? {β γ : Type} {R : β → γ → Prop} {l1 : List β} {l2 : List γ}
    (h : List.Forall₂ R l1 l2) (i : Nat) (a : β) (ha : l1[i]? = some a) :
    ∃ b, l2[i]? = some b ∧ R a b := by
  induction h generalizing i with
  | nil => simp at ha
  | cons hab _ ih =>
    cases i with
    | zero => simp at ha; subst ha; exact ⟨_, by simp, hab⟩
    | succ i => simpa using ih i (by simpa using ha)

/-! ### Claims about references -/

/-- C5 (amended): when `convert` completes on a batch and all six shared tables of the
dictionary it has built (not the local tables of the batch) have fewer than `2^31` entries
each, then for every profile every string reference (function
name, system name and filename, mapping filename, sample types, period type, comments and
default sample type) resolves in the final shared string table, at the emitted index, to
the text it named in the local string table. -/
theorem convert_string_refs (input : v1experimental.ProfilesData KV)
    (out : List (v1development.ResourceProfiles KV)) (D : ProfilesDictionary KV)
    (h : convert.loop input.ResourceProfiles {} = some (out, D)) (hS : Small D) :
    List.Forall₂
      (fun pc dp => ∃ profile, pc.Profile = some profile ∧ StringRefsSpec profile dp D)
      (inputContainers input.ResourceProfiles) (outputProfiles out) := by
  refine ((convert_loop_spec _ D out h).2.2 hS).imp ?_
  rintro pc dp ⟨profile, hp⟩
  exact ⟨profile, hp.present,
    ⟨hp.functions, hp.mappings, hp.sampleType, hp.periodType, hp.comments,
      hp.defaultSampleType⟩⟩

/-- C7 (amended): when `convert` completes on a batch and all six shared tables of the
dictionary it has built (not the local tables of the batch) have fewer than `2^31` entries
each, then for every profile, every location and every line of
it, the converted line keeps line and column and its `FunctionIndex` is a position of the
shared function table whose entry has the name, system name and filename texts and the
start line of the function the source line refers to. -/
theorem convert_line_refs (input : v1experimental.ProfilesData KV)
    (out : List (v1development.ResourceProfiles KV)) (D : ProfilesDictionary KV)
    (h : convert.loop input.ResourceProfiles {} = some (out, D)) (hS : Small D) :
    List.Forall₂
      (fun pc dp => ∃ profile, pc.Profile = some profile ∧
        List.Forall₂ (LineRefsSpec profile D) profile.Location dp.LocationIndices)
      (inputContainers input.ResourceProfiles) (outputProfiles out) := by
  refine ((convert_loop_spec _ D out h).2.2 hS).imp ?_
  rintro pc dp ⟨profile, hp⟩
  refine ⟨profile, hp.present, hp.locations.imp ?_⟩
  rintro loc o ⟨dl, hdl, -, -, hlines, -⟩
  exact ⟨dl, hdl, hlines⟩

/-- C8 (amended): when `convert` completes on a batch and all six shared tables of the
dictionary it has built (not the local tables of the batch) have fewer than `2^31` entries
each, then for every profile and every location of it the
`MappingIndex` of the converted location is set, and it is the first position of the
shared mapping table whose entry has the memory start, memory limit and file offset of
the location's source mapping (filename and flags are not compared). -/
theorem convert_mapping_first (input : v1experimental.ProfilesData KV)
    (out : List (v1development.ResourceProfiles KV)) (D : ProfilesDictionary KV)
    (h : convert.loop input.ResourceProfiles {} = some (out, D)) (hS : Small D) :
    List.Forall₂
      (fun pc dp => ∃ profile, pc.Profile = some profile ∧
        List.Forall₂ (MappingRefFirst profile D) profile.Location dp.LocationIndices)
      (inputContainers input.ResourceProfiles) (outputProfiles out) := by
  refine ((convert_loop_spec _ D out h).2.2 hS).imp ?_
  rintro pc dp ⟨profile, hp⟩
  refine ⟨profile, hp.present, hp.locations.imp ?_⟩
  rintro loc o ⟨dl, hdl, -, -, -, -, m, k, hm, hk, hfirst⟩
  exact ⟨dl, m, k, hdl, hm, hk, hfirst⟩

/-- C9 (amended): when `convert` completes on a batch and all six shared tables of the
dictionary it has built (not the local tables of the batch) have fewer than `2^31` entries
each, then for every profile and every sample of it the emitted
`LocationsStartIndex` is the first position of the shared location table whose entry has
the address of the source location at the sample's local start position; it is at most
the entry of the profile's `LocationIndices` at that local position, and equal to that
entry exactly when no earlier shared location has the address. -/
theorem convert_start_first (input : v1experimental.ProfilesData KV)
    (out : List (v1development.ResourceProfiles KV)) (D : ProfilesDictionary KV)
    (h : convert.loop input.ResourceProfiles {} = some (out, D)) (hS : Small D) :
    List.Forall₂
      (fun pc dp => ∃ profile, pc.Profile = some profile ∧
        List.Forall₂ (StartRefFirst profile dp D) profile.Sample dp.Sample)
      (inputContainers input.ResourceProfiles) (outputProfiles out) := by
  refine ((convert_loop_spec _ D out h).2.2 hS).imp ?_
  rintro pc dp ⟨profile, hp⟩
  refine ⟨profile, hp.present, hp.samples.imp ?_⟩
  rintro s o ⟨⟨loc, hloc, hfirst⟩, -⟩
  obtain ⟨li, hli, dl, hdl, hAddr, -⟩ := forall₂_getElem? hp.locations _ loc hloc
  have hle : o.LocationsStartIndex ≤ li := by
    by_contra hlt
    obtain ⟨n, rfl, hn⟩ := sliceAt_eq_some _ _ _ hdl
    exact hfirst.2 n dl (by omega) hn hAddr.symm
  refine ⟨loc, li, dl, hloc, hfirst, hli, hdl, hAddr, hle, ?_, ?_⟩
  · intro heq
    rw [← heq]
    exact hfirst.2
  · intro hmin
    by_contra hne
    obtain ⟨⟨x, hx, hxa⟩, -⟩ := hfirst
    obtain ⟨k, hk, hkx⟩ := sliceAt_eq_some _ _ _ hx
    exact hmin k x (by omega) hkx hxa

end

section
variable {KV : Type} [DecidableEq KV]
open v1development (ProfilesDictionary)

/-! ### Unification of functions -/

theorem findEqual_of_nodup {β : Type} [DecidableEq β] (l : List β) (k : Nat) (x : β)
    (hnd : l.Nodup) (hk : l[k]? = some x) : findEqual l x = some k := by
  obtain ⟨i, hi⟩ := findEqual_of_mem l x (List.getElem?_mem hk)
  obtain ⟨h1, h2⟩ := findEqual_some_spec l x i hi
  rw [hi]
  have hd := (distinctEntries_iff_nodup l).2 hnd
  have hkl := (List.getElem?_eq_some_iff.1 hk).1
  have hil := (List.getElem?_eq_some_iff.1 h1).1
  rcases Nat.lt_trichotomy i k with hlt | heq | hgt
  · exact absurd (h1.trans hk.symm) (hd i k hlt hkl)
  · rw [heq]
  · exact absurd hk (h2 k hgt)

theorem findEqual_get {β : Type} [DecidableEq β] (l : List β) (x : β) (i : Nat)
    (h : findEqual l x = some i) : l[i]? = some x := (findEqual_some_spec l x i h).1

theorem FunctionSpec.texts {st : List String} {d : ProfilesDictionary KV}
    {f : v1experimental.Function} {df : v1development.Function}
    (h : FunctionSpec st d f df) :
    ∃ n s fl, functionTexts st f = some (n, s, fl, f.StartLine) ∧
      sliceAt d.StringTable df.NameStrindex = some n ∧
      sliceAt d.StringTable df.SystemNameStrindex = some s ∧
      sliceAt d.StringTable df.FilenameStrindex = some fl := by
  obtain ⟨⟨n, hn, hn'⟩, ⟨s, hs, hs'⟩, ⟨fl, hfl, hfl'⟩, -⟩ := h
  exact ⟨n, s, fl, by simp [functionTexts, hn, hs, hfl], hn', hs', hfl'⟩

theorem FunctionSpec.form {st : List String} {d : ProfilesDictionary KV}
    {f : v1experimental.Function} {df : v1development.Function}
    (h : FunctionSpec st d f df) (hnd : d.StringTable.Nodup)
    (hsmall : d.StringTable.length < 2 ^ 31) : functionForm st d f = some df := by
  obtain ⟨n, s, fl, ht, hn, hs, hfl⟩ := h.texts
  obtain ⟨i, hi, hi'⟩ := sliceAt_eq_some _ _ _ hn
  obtain ⟨j, hj, hj'⟩ := sliceAt_eq_some _ _ _ hs
  obtain ⟨k, hk, hk'⟩ := sliceAt_eq_some _ _ _ hfl
  have hil := (List.getElem?_eq_some_iff.1 hi').1
  have hjl := (List.getElem?_eq_some_iff.1 hj').1
  have hkl := (List.getElem?_eq_some_iff.1 hk').1
  simp only [functionForm, ht, findEqual_of_nodup _ _ _ hnd hi',
    findEqual_of_nodup _ _ _ hnd hj', findEqual_of_nodup _ _ _ hnd hk']
  rw [toInt32_of_lt i (by omega), toInt32_of_lt j (by omega), toInt32_of_lt k (by omega),
    ← hi, ← hj, ← hk, ← h.2.2.2]

theorem FunctionSpec.texts_eq {st st' : List String} {d : ProfilesDictionary KV}
    {f f' : v1experimental.Function} {df : v1development.Function}
    (h : FunctionSpec st d f df) (h' : FunctionSpec st' d f' df) :
    functionTexts st f = functionTexts st' f' := by
  obtain ⟨n, s, fl, ht, hn, hs, hfl⟩ := h.texts
  obtain ⟨n', s', fl', ht', hn', hs', hfl'⟩ := h'.texts
  rw [hn] at hn'; rw [hs] at hs'; rw [hfl] at hfl'
  simp only [Option.some.injEq] at hn' hs' hfl'
  rw [ht, ht', hn', hs', hfl', ← h.2.2.2, ← h'.2.2.2]

theorem storedPosition_congr (st st' : List String) (d : ProfilesDictionary KV)
    (f f' : v1experimental.Function) (h : functionTexts st f = functionTexts st' f') :
    storedPosition st d f = storedPosition st' d f' := by
  simp only [storedPosition, functionForm, h]

theorem nodup_getElem?_unique {β : Type} [DecidableEq β] (l : List β) (i j : Nat) (x : β)
    (hnd : l.Nodup) (hi : l[i]? = some x) (hj : l[j]? = some x) : i = j := by
  have h1 := findEqual_of_nodup l i x hnd hi
  have h2 := findEqual_of_nodup l j x hnd hj
  rw [h1] at h2
  simpa using h2

/-- C6 (amended): when `convert` completes on a batch and all six shared tables of the
dictionary it has built have fewer than `2^31` entries, then for any two source functions
of the batch, from the same profile or from different ones, each has exactly one position
of the shared function table whose entry has its name, system-name and filename texts and
its start line; that position is the one at which its dictionary form is stored, and the
two positions are equal if and only if name text, system-name text, filename text (each
read through the function's own local string table) and start line are equal. -/
theorem convert_functions_unify (input : v1experimental.ProfilesData KV)
    (out : List (v1development.ResourceProfiles KV)) (D : ProfilesDictionary KV)
    (h : convert.loop input.ResourceProfiles {} = some (out, D)) (hS : Small D)
    (pc1 pc2 : v1experimental.ProfileContainer KV)
    (h1 : pc1 ∈ inputContainers input.ResourceProfiles)
    (h2 : pc2 ∈ inputContainers input.ResourceProfiles)
    (p1 p2 : v1experimental.Profile KV) (hp1 : pc1.Profile = some p1)
    (hp2 : pc2.Profile = some p2) (f1 f2 : v1experimental.Function)
    (hf1 : f1 ∈ p1.Function) (hf2 : f2 ∈ p2.Function) :
    ∃ i1 i2, storedPosition p1.StringTable D f1 = some i1 ∧
      storedPosition p2.StringTable D f2 = some i2 ∧
      (i1 = i2 ↔ functionTexts p1.StringTable f1 = functionTexts p2.StringTable f2) ∧
      (∀ i, StoredAt p1.StringTable D f1 i ↔ i = i1) ∧
      (∀ j, StoredAt p2.StringTable D f2 j ↔ j = i2) := by
  obtain ⟨hI, -, hspec⟩ := convert_loop_spec _ D out h
  have hnd : NoDuplicates D := hI.noDuplicates (by
    rw [noDuplicates_iff]
    exact ⟨List.nodup_nil, List.nodup_nil, List.nodup_nil, List.nodup_nil, List.nodup_nil,
      List.nodup_nil⟩)
  rw [noDuplicates_iff] at hnd
  have key : ∀ pc ∈ inputContainers input.ResourceProfiles, ∀ p, pc.Profile = some p →
      ∀ f ∈ p.Function, ∃ df i, FunctionSpec p.StringTable D f df ∧
        D.FunctionTable[i]? = some df ∧ storedPosition p.StringTable D f = some i := by
    intro pc hpc p hp f hf
    obtain ⟨dp, -, profile, hps⟩ := forall₂_left (hspec hS) pc hpc
    have hpe := hps.present
    rw [hp] at hpe
    obtain rfl : p = profile := by simpa using hpe
    obtain ⟨df, hdf, hfs⟩ := hps.functions f hf
    obtain ⟨i, hi⟩ := findEqual_of_mem _ _ hdf
    refine ⟨df, i, hfs, findEqual_get _ _ _ hi, ?_⟩
    simp only [storedPosition, hfs.form hnd.1 hS.2.2.2.2.1, hi]
  have unique : ∀ (st : List String) (f : v1experimental.Function)
      (df : v1development.Function) (i0 : Nat), FunctionSpec st D f df →
      D.FunctionTable[i0]? = some df → ∀ i, StoredAt st D f i ↔ i = i0 := by
    intro st f df i0 hfs hg i
    constructor
    · rintro ⟨df', hg', hfs'⟩
      have e1 := hfs.form hnd.1 hS.2.2.2.2.1
      have e2 := hfs'.form hnd.1 hS.2.2.2.2.1
      rw [e1] at e2
      simp only [Option.some.injEq] at e2
      subst e2
      exact nodup_getElem?_unique _ i i0 df hnd.2.1 hg' hg
    · rintro rfl
      exact ⟨df, hg, hfs⟩
  obtain ⟨df1, i1, hs1, hg1, hpos1⟩ := key pc1 h1 p1 hp1 f1 hf1
  obtain ⟨df2, i2, hs2, hg2, hpos2⟩ := key pc2 h2 p2 hp2 f2 hf2
  refine ⟨i1, i2, hpos1, hpos2, ⟨?_, ?_⟩, unique _ f1 df1 i1 hs1 hg1, unique _ f2 df2 i2 hs2 hg2⟩
  · rintro rfl
    rw [hg1] at hg2
    obtain rfl : df1 = df2 := by simpa using hg2
    exact hs1.texts_eq hs2
  · intro ht
    have := storedPosition_congr _ _ D f1 f2 ht
    rw [hpos1, hpos2] at this
    simpa using this

end

/-- Witness of C6: the two sample profiles name the same function through different
positions of their string tables, and both are stored at one position. -/
theorem convert_functions_unify_witness :
    ∃ i1 i2, storedPosition sampleProfileA.StringTable sampleDictionary ⟨4, 4, 3, 9⟩ = some i1 ∧
      storedPosition sampleProfileB.StringTable sampleDictionary ⟨1, 1, 2, 9⟩ = some i2 ∧
      (i1 = i2 ↔ functionTexts sampleProfileA.StringTable ⟨4, 4, 3, 9⟩ =
        functionTexts sampleProfileB.StringTable ⟨1, 1, 2, 9⟩) ∧
      (∀ i, StoredAt sampleProfileA.StringTable sampleDictionary ⟨4, 4, 3, 9⟩ i ↔ i = i1) ∧
      (∀ j, StoredAt sampleProfileB.StringTable sampleDictionary ⟨1, 1, 2, 9⟩ j ↔ j = i2) :=
  convert_functions_unify sampleBatch sampleOut sampleDictionary sampleBatch_run
    sampleDictionary_small
    ⟨[], 100, 150, ["x=y"], 0, "", [], some sampleProfileA⟩
    ⟨[], 100, 150, [], 0, "", [], some sampleProfileB⟩
    (by decide) (by decide) sampleProfileA sampleProfileB rfl rfl _ _ (by decide) (by decide)

theorem aliasBatch_run :
    convert.loop aliasBatch.ResourceProfiles {} = some (aliasOut, aliasDictionary) := by
  decide

/-- Witness of C5 on the sample batch. -/
theorem convert_string_refs_witness :
    List.Forall₂
      (fun pc dp => ∃ profile, pc.Profile = some profile ∧
        StringRefsSpec profile dp sampleDictionary)
      (inputContainers sampleBatch.ResourceProfiles) (outputProfiles sampleOut) :=
  convert_string_refs sampleBatch sampleOut sampleDictionary sampleBatch_run
    sampleDictionary_small

/-- Witness of C7 on the sample batch. -/
theorem convert_line_refs_witness :
    List.Forall₂
      (fun pc dp => ∃ profile, pc.Profile = some profile ∧
        List.Forall₂ (LineRefsSpec profile sampleDictionary) profile.Location
          dp.LocationIndices)
      (inputContainers sampleBatch.ResourceProfiles) (outputProfiles sampleOut) :=
  convert_line_refs sampleBatch sampleOut sampleDictionary sampleBatch_run
    sampleDictionary_small

theorem aliasDictionary_small : Small aliasDictionary := by
  simp [Small, aliasDictionary]

/-- Witness of C8 (amended) on the batch with two mappings of one memory range. -/
theorem convert_mapping_first_witness :
    List.Forall₂
      (fun pc dp => ∃ profile, pc.Profile = some profile ∧
        List.Forall₂ (MappingRefFirst profile aliasDictionary) profile.Location
          dp.LocationIndices)
      (inputContainers aliasBatch.ResourceProfiles) (outputProfiles aliasOut) :=
  convert_mapping_first aliasBatch aliasOut aliasDictionary aliasBatch_run
    aliasDictionary_small

/-- Witness of C9 (amended) on the batch with two locations of one address. -/
theorem convert_start_first_witness :
    List.Forall₂
      (fun pc dp => ∃ profile, pc.Profile = some profile ∧
        List.Forall₂ (StartRefFirst profile dp aliasDictionary) profile.Sample dp.Sample)
      (inputContainers aliasBatch.ResourceProfiles) (outputProfiles aliasOut) :=
  convert_start_first aliasBatch aliasOut aliasDictionary aliasBatch_run
    aliasDictionary_small

/-- C8 as stated fails: on `aliasBatch` the conversion completes, the second location
refers to the second mapping (file `b.so`), and the `MappingIndex` of its converted
location is position 0 of the shared mapping table, which holds the mapping of `a.so`. -/
theorem convert_mapping_exact_fails :
    convert.loop aliasBatch.ResourceProfiles {} = some (aliasOut, aliasDictionary) ∧
    ¬ List.Forall₂
      (fun pc dp => ∃ profile, pc.Profile = some profile ∧
        List.Forall₂ (MappingRefExact profile aliasDictionary) profile.Location
          dp.LocationIndices)
      (inputContainers aliasBatch.ResourceProfiles) (outputProfiles aliasOut) := by
  refine ⟨aliasBatch_run, ?_⟩
  intro h
  simp only [inputContainers, outputProfiles, aliasBatch, aliasOut, List.flatMap_cons,
    List.flatMap_nil, List.append_nil, List.forall₂_cons, List.forall₂_nil_left_iff,
    and_true] at h
  obtain ⟨profile, hp, hl⟩ := h
  simp only [Option.some.injEq] at hp
  subst hp
  simp only [aliasProfile, aliasOutProfile, List.forall₂_cons, List.forall₂_nil_left_iff,
    and_true] at hl
  obtain ⟨-, dl, m, k, dm, hdl, hm, hk, hdm, hspec⟩ := hl
  simp [sliceAt, aliasDictionary] at hdl
  subst hdl
  simp at hm
  subst hm
  simp at hk
  subst hk
  simp [sliceAt, aliasDictionary] at hdm
  subst hdm
  obtain ⟨s, h1, h2⟩ := hspec.2.2.2.1
  simp [sliceAt, aliasDictionary] at h1 h2
  rw [← h1] at h2
  exact absurd h2 (by decide)

/-- C9 as stated fails: on `aliasBatch` the conversion completes, the sample starts at
local location 1, whose entry of `LocationIndices` is 1, and the emitted
`LocationsStartIndex` is 0. -/
theorem convert_start_exact_fails :
    convert.loop aliasBatch.ResourceProfiles {} = some (aliasOut, aliasDictionary) ∧
    ¬ List.Forall₂
      (fun pc dp => ∃ profile, pc.Profile = some profile ∧
        List.Forall₂ (StartRefExact dp) profile.Sample dp.Sample)
      (inputContainers aliasBatch.ResourceProfiles) (outputProfiles aliasOut) := by
  refine ⟨aliasBatch_run, ?_⟩
  intro h
  simp only [inputContainers, outputProfiles, aliasBatch, aliasOut, List.flatMap_cons,
    List.flatMap_nil, List.append_nil, List.forall₂_cons, List.forall₂_nil_left_iff,
    and_true] at h
  obtain ⟨profile, hp, hl⟩ := h
  simp only [Option.some.injEq] at hp
  subst hp
  simp [aliasProfile, aliasOutProfile, StartRefExact] at hl

/-! ### A string table beyond the range of `int32` -/

theorem bigName_injective : Function.Injective bigName := by
  intro n m h
  unfold bigName at h
  have h2 := congrArg String.length h
  simpa only [String.length, List.length_replicate] using h2

theorem bigStrings_length : bigStrings.length = 2 ^ 32 + 1 := by
  unfold bigStrings
  rw [List.length_map, List.length_range]

theorem map_range_getElem? {β : Type} (g : Nat → β) (n k : Nat) (hk : k < n) :
    ((List.range n).map g)[k]? = some (g k) := by
  rw [List.getElem?_map, List.getElem?_range hk, Option.map_some']

theorem bigStrings_getElem? (k : Nat) (hk : k < 2 ^ 32 + 1) :
    bigStrings[k]? = some (bigName k) := by
  unfold bigStrings
  exact map_range_getElem? bigName _ k hk

theorem bigStrings_nodup : bigStrings.Nodup := by
  unfold bigStrings
  exact (List.nodup_range _).map bigName_injective

theorem dedupKeepFirst_of_nodup {β : Type} [DecidableEq β] (l : List β) (h : l.Nodup) :
    dedupKeepFirst l = l := by
  induction l with
  | nil => rfl
  | cons x xs ih =>
    rw [List.nodup_cons] at h
    simp only [dedupKeepFirst, ih h.2]
    congr 1
    rw [List.filter_eq_self]
    intro y hy
    simp only [ne_eq, decide_not, Bool.not_eq_true', decide_eq_false_iff_not]
    rintro rfl
    exact h.1 hy

theorem addStringToDictionary_loop_eq {KV : Type} [DecidableEq KV] (l : List String)
    (d : v1development.ProfilesDictionary KV) :
    addStringToDictionary.loop l d = { d with StringTable := insertAll d.StringTable l } := by
  induction l generalizing d with
  | nil => rfl
  | cons x rest ih =>
    simp only [addStringToDictionary.loop, ih, insertAll, List.foldl_cons, internString]

theorem findInsert_of_nodup {β : Type} [DecidableEq β] (l : List β) (k : Nat) (x : β)
    (hnd : l.Nodup) (hk : l[k]? = some x) : findInsert l x = (l, k) := by
  simp only [findInsert, findEqual_of_nodup l k x hnd hk]

/-! ### The conversion of a profile whose string table exceeds the range of `int32` -/

section
variable (st : List String) (a b c : String)

theorem internString_of_nodup (d : v1development.ProfilesDictionary String) (k : Nat)
    (x : String) (hnd : d.StringTable.Nodup) (hk : d.StringTable[k]? = some x) :
    internString d x = (d, k) := by
  cases d
  simp only [internString, findInsert_of_nodup _ k x hnd hk]

theorem toInt32_zero : toInt32 0 = 0 := by norm_num [toInt32]

variable (n m : Nat)

theorem wide_addMapping (hnd : st.Nodup) (h0 : st[0]? = some a) :
    addMappingToDictionary.loop (wideProfile st n m) (wideProfile st n m).Mapping
        ({ StringTable := st } : v1development.ProfilesDictionary String) =
      some { StringTable := st, MappingTable := [{}] } := by
  have hs0 : sliceAt st 0 = some a := by simp [sliceAt, h0]
  have hi0 : ∀ d : v1development.ProfilesDictionary String, d.StringTable = st →
      internString d a = (d, 0) := fun d hd =>
    internString_of_nodup d 0 a (hd ▸ hnd) (hd ▸ h0)
  simp [wideProfile, addMappingToDictionary.loop, addMappingToDictionary.attrs, hs0, hi0,
    internMapping, findInsertProtoMessage, findEqual, toInt32_zero]

theorem addFunctionToDictionary_loop_step {KV : Type} [DecidableEq KV]
    (profile : v1experimental.Profile KV) (f : v1experimental.Function)
    (rest : List v1experimental.Function) (d : v1development.ProfilesDictionary KV)
    (name sys fl : String) (i j k : Nat)
    (h1 : sliceAt profile.StringTable f.Name = some name)
    (h2 : sliceAt profile.StringTable f.SystemName = some sys)
    (h3 : sliceAt profile.StringTable f.Filename = some fl)
    (hi1 : internString d name = (d, i)) (hi2 : internString d sys = (d, j))
    (hi3 : internString d fl = (d, k)) :
    addFunctionToDictionary.loop profile (f :: rest) d =
      addFunctionToDictionary.loop profile rest
        (internFunction d
          { NameStrindex := toInt32 i, SystemNameStrindex := toInt32 j,
            FilenameStrindex := toInt32 k, StartLine := f.StartLine }).1 := by
  simp only [addFunctionToDictionary.loop, h1, h2, h3, hi1, hi2, hi3]

theorem wide_addFunction (hnd : st.Nodup) (h0 : st[0]? = some a)
    (hn : st[n]? = some c) (hwrap : toInt32 (n : Int) = 0) :
    addFunctionToDictionary.loop (wideProfile st n m) (wideProfile st n m).Function
        ({ StringTable := st, MappingTable := [{}] } :
          v1development.ProfilesDictionary String) =
      some { StringTable := st, MappingTable := [{}], FunctionTable := [{}] } := by
  have hs0 : sliceAt st 0 = some a := by simp [sliceAt, h0]
  have hsn : sliceAt st (n : Int) = some c := by rw [sliceAt_natCast]; exact hn
  have hi0 : ∀ d : v1development.ProfilesDictionary String, d.StringTable = st →
      internString d a = (d, 0) := fun d hd =>
    internString_of_nodup d 0 a (hd ▸ hnd) (hd ▸ h0)
  have hin : ∀ d : v1development.ProfilesDictionary String, d.StringTable = st →
      internString d c = (d, n) := fun d hd =>
    internString_of_nodup d n c (hd ▸ hnd) (hd ▸ hn)
  have step1 := addFunctionToDictionary_loop_step (wideProfile st n m) ⟨0, 0, 0, 0⟩
    [⟨n, 0, 0, 0⟩]
    ({ StringTable := st, MappingTable := [{}] } : v1development.ProfilesDictionary String)
    a a a 0 0 0 hs0 hs0 hs0 (hi0 _ rfl) (hi0 _ rfl) (hi0 _ rfl)
  have e1 : (internFunction
      ({ StringTable := st, MappingTable := [{}] } : v1development.ProfilesDictionary String)
      { NameStrindex := 0, SystemNameStrindex := 0, FilenameStrindex := 0, StartLine := 0 }).1 =
      { StringTable := st, MappingTable := [{}], FunctionTable := [{}] } := by
    simp [internFunction, findInsertProtoMessage, findEqual]
  have step2 := addFunctionToDictionary_loop_step (wideProfile st n m) ⟨n, 0, 0, 0⟩ []
    ({ StringTable := st, MappingTable := [{}], FunctionTable := [{}] } :
      v1development.ProfilesDictionary String)
    c a a n 0 0 hsn hs0 hs0 (hin _ rfl) (hi0 _ rfl) (hi0 _ rfl)
  have e2 : (internFunction
      ({ StringTable := st, MappingTable := [{}], FunctionTable := [{}] } :
        v1development.ProfilesDictionary String)
      { NameStrindex := 0, SystemNameStrindex := 0, FilenameStrindex := 0, StartLine := 0 }).1 =
      { StringTable := st, MappingTable := [{}], FunctionTable := [{}] } := by
    simp [internFunction, findInsertProtoMessage, findEqual]
  simp only [Nat.cast_zero, toInt32_zero] at step1
  simp only [hwrap, Nat.cast_zero, toInt32_zero] at step2
  rw [e1] at step1
  rw [e2] at step2
  exact step1.trans (step2.trans rfl)

theorem wide_addLocation (h0 : st[0]? = some a) (hn : st[n]? = some c) (hne : c ≠ a) :
    addLocationToDictionary.loop (wideProfile st n m) (wideProfile st n m).Location
        ({ StringTable := st, MappingTable := [{}], FunctionTable := [{}] } :
          v1development.ProfilesDictionary String) =
      some ([0], wideDictionary st) := by
  have hs0 : sliceAt st 0 = some a := by simp [sliceAt, h0]
  have hsn : sliceAt st (n : Int) = some c := by rw [sliceAt_natCast]; exact hn
  simp [wideProfile, wideDictionary, addLocationToDictionary.loop,
    addLocationToDictionary.lines, addLocationToDictionary.attrs, lookupMapping,
    lookupMapping.loop, lookupFunction, lookupFunction.loop, functionEqual, hs0, hsn, hne,
    internLocation, findInsertProtoMessage, findEqual, toInt32_zero]

theorem wide_addToDictionary (hnd : st.Nodup) (h0 : st[0]? = some a)
    (hn : st[n]? = some c) (hne : c ≠ a) (hwrap : toInt32 (n : Int) = 0)
    (p0 : v1development.Profile) :
    addToDictionary (wideContainer st n m) p0 {} =
      some ({ p0 with LocationIndices := [0], Sample := [] }, wideDictionary st) := by
  have hp : (wideContainer st n m).Profile = some (wideProfile st n m) := rfl
  have h1 : addLinkToDictionary (wideContainer st n m)
      ({} : v1development.ProfilesDictionary String) = some {} := rfl
  have h2 : addStringToDictionary (wideContainer st n m)
      ({} : v1development.ProfilesDictionary String) = some { StringTable := st } := by
    simp only [addStringToDictionary, hp, addStringToDictionary_loop_eq]
    show some ({ StringTable := insertAll [] st } : v1development.ProfilesDictionary String) = _
    rw [insertAll_nil, dedupKeepFirst_of_nodup st hnd]
  have h3 : addAttributeToDictionary (wideContainer st n m)
      ({ StringTable := st } : v1development.ProfilesDictionary String) =
      some { StringTable := st } := rfl
  have h4 : addMappingToDictionary (wideContainer st n m)
      ({ StringTable := st } : v1development.ProfilesDictionary String) =
      some { StringTable := st, MappingTable := [{}] } := by
    simp only [addMappingToDictionary, hp]
    exact wide_addMapping st a n m hnd h0
  have h5 : addFunctionToDictionary (wideContainer st n m)
      ({ StringTable := st, MappingTable := [{}] } :
        v1development.ProfilesDictionary String) =
      some { StringTable := st, MappingTable := [{}], FunctionTable := [{}] } := by
    simp only [addFunctionToDictionary, hp]
    exact wide_addFunction st a c n m hnd h0 hn hwrap
  have h6 : addLocationToDictionary (wideContainer st n m)
      ({ StringTable := st, MappingTable := [{}], FunctionTable := [{}] } :
        v1development.ProfilesDictionary String) = some ([0], wideDictionary st) := by
    simp only [addLocationToDictionary, hp]
    exact wide_addLocation st a c n m h0 hn hne
  have h7 : addSamplesToDictionary (wideContainer st n m) (wideDictionary st) =
      some ([], wideDictionary st) := rfl
  simp only [addToDictionary, h1, h2, h3, h4, h5, h6, h7]

theorem toInt64_zero : toInt64 0 = 0 := by norm_num [toInt64]

theorem wide_body (hnd : st.Nodup) (h0 : st[0]? = some a) (hn : st[n]? = some c)
    (hm : st[m]? = some b) (hne : c ≠ a) (hwrap : toInt32 (n : Int) = 0) :
    convertProfiles.body (wideContainer st n m) {} =
      some (wideOutProfile (toInt32 (m : Int)), wideDictionary st) := by
  have hp : (wideContainer st n m).Profile = some (wideProfile st n m) := rfl
  have hs0 : sliceAt st 0 = some a := by simp [sliceAt, h0]
  have hsm : sliceAt st (m : Int) = some b := by rw [sliceAt_natCast]; exact hm
  have hi0 : internString (wideDictionary st) a = (wideDictionary st, 0) :=
    internString_of_nodup _ 0 a hnd h0
  have him : internString (wideDictionary st) b = (wideDictionary st, m) :=
    internString_of_nodup _ m b hnd hm
  have g1 : convertSampleType (wideProfile st n m).SampleType (wideProfile st n m).StringTable
      (wideDictionary st) = some ([], wideDictionary st) := rfl
  have g2 : convertValueType (wideProfile st n m).PeriodType (wideProfile st n m).StringTable
      (wideDictionary st) = some ({ TypeStrindex := 0, UnitStrindex := 0 }, wideDictionary st) := by
    show convertValueType (some ⟨0, 0⟩) st (wideDictionary st) = _
    simp only [convertValueType, hs0, hi0, Nat.cast_zero, toInt32_zero]
  have g3 : convertComments (wideProfile st n m).Comment (wideProfile st n m).StringTable
      (wideDictionary st) = some ([toInt32 (m : Int)], wideDictionary st) := by
    show convertComments [(m : Int)] st (wideDictionary st) = _
    simp only [convertComments, hsm, him]
  have g4 : sliceAt (wideProfile st n m).StringTable (wideProfile st n m).DefaultSampleType =
      some a := hs0
  simp only [convertProfiles.body, wide_addToDictionary st a c n m hnd h0 hn hne hwrap, hp, g1,
    g2, g3, g4, hi0]
  simp only [wideContainer, convertAttributes, Nat.cast_zero, toInt32_zero, toInt64_zero,
    sub_self, wideOutProfile]
  rfl

theorem wide_run (hnd : st.Nodup) (h0 : st[0]? = some a) (hn : st[n]? = some c)
    (hm : st[m]? = some b) (hne : c ≠ a) (hwrap : toInt32 (n : Int) = 0) :
    convert.loop (wideBatch st n m).ResourceProfiles {} =
      some (wideOut (toInt32 (m : Int)), wideDictionary st) := by
  simp only [wideBatch, convert.loop, convertResourceProfiles, convertScopeProfiles,
    convertProfiles, wide_body st a b c n m hnd h0 hn hm hne hwrap, wideOut]

end

section
variable (st : List String) (a b c : String) (n m : Nat)

theorem wide_comment_fails (cm : Int) (hcm : cm < 0) :
    ¬ List.Forall₂
      (fun pc dp => ∃ profile, pc.Profile = some profile ∧
        StringRefsSpec profile dp (wideDictionary st))
      (inputContainers (wideBatch st n m).ResourceProfiles) (outputProfiles (wideOut cm)) := by
  intro h
  simp only [inputContainers, outputProfiles, wideBatch, wideOut, List.flatMap_cons,
    List.flatMap_nil, List.append_nil, List.forall₂_cons, List.forall₂_nil_left_iff,
    and_true] at h
  obtain ⟨profile, hp, hspec⟩ := h
  simp only [wideContainer, Option.some.injEq] at hp
  subst hp
  have hc := hspec.comments
  simp only [wideProfile, wideOutProfile, List.forall₂_cons, List.forall₂_nil_left_iff,
    and_true] at hc
  obtain ⟨s, -, hs⟩ := hc
  simp [sliceAt, hcm] at hs

theorem wide_positions (hnd : st.Nodup) (h0 : st[0]? = some a) (hn : st[n]? = some c)
    (hne : c ≠ a) (hwrap : toInt32 (n : Int) = 0) :
    storedPosition st (wideDictionary st) ⟨0, 0, 0, 0⟩ = some 0 ∧
    storedPosition st (wideDictionary st) ⟨n, 0, 0, 0⟩ = some 0 ∧
    functionTexts st ⟨0, 0, 0, 0⟩ ≠ functionTexts st ⟨n, 0, 0, 0⟩ := by
  have hs0 : sliceAt st 0 = some a := by simp [sliceAt, h0]
  have hsn : sliceAt st (n : Int) = some c := by rw [sliceAt_natCast]; exact hn
  have hf0 : findEqual (wideDictionary st).StringTable a = some 0 :=
    findEqual_of_nodup st 0 a hnd h0
  have hfn : findEqual (wideDictionary st).StringTable c = some n :=
    findEqual_of_nodup st n c hnd hn
  have ht0 : functionTexts st ⟨0, 0, 0, 0⟩ = some (a, a, a, 0) := by
    simp only [functionTexts, hs0]
  have htn : functionTexts st ⟨n, 0, 0, 0⟩ = some (c, a, a, 0) := by
    simp only [functionTexts, hs0, hsn]
  have hform0 : functionForm st (wideDictionary st) ⟨0, 0, 0, 0⟩ = some {} := by
    simp only [functionForm, ht0, hf0, Nat.cast_zero, toInt32_zero]
  have hformn : functionForm st (wideDictionary st) ⟨n, 0, 0, 0⟩ = some {} := by
    simp only [functionForm, htn, hf0, hfn, Nat.cast_zero, toInt32_zero, hwrap]
  have hfind : findEqual (wideDictionary st).FunctionTable {} = some 0 := by
    simp [wideDictionary, findEqual]
  refine ⟨by simp only [storedPosition, hform0, hfind],
    by simp only [storedPosition, hformn, hfind], ?_⟩
  rw [ht0, htn]
  intro h
  simp only [Option.some.injEq, Prod.mk.injEq] at h
  exact hne h.1.symm

theorem wide_line_fails (h0 : st[0]? = some a) (hn : st[n]? = some c) (hne : c ≠ a)
    (cm : Int) :
    ¬ List.Forall₂
      (fun pc dp => ∃ profile, pc.Profile = some profile ∧
        List.Forall₂ (LineRefsSpec profile (wideDictionary st)) profile.Location
          dp.LocationIndices)
      (inputContainers (wideBatch st n m).ResourceProfiles) (outputProfiles (wideOut cm)) := by
  intro h
  simp only [inputContainers, outputProfiles, wideBatch, wideOut, List.flatMap_cons,
    List.flatMap_nil, List.append_nil, List.forall₂_cons, List.forall₂_nil_left_iff,
    and_true] at h
  obtain ⟨profile, hp, hl⟩ := h
  simp only [wideContainer, Option.some.injEq] at hp
  subst hp
  simp only [wideProfile, wideOutProfile, List.forall₂_cons, List.forall₂_nil_left_iff,
    and_true] at hl
  obtain ⟨dl, hdl, hlines⟩ := hl
  simp [sliceAt, wideDictionary] at hdl
  subst hdl
  simp only [List.forall₂_cons, List.forall₂_nil_left_iff, and_true] at hlines
  obtain ⟨-, -, f, df, hf, hdf, hspec⟩ := hlines
  simp at hf
  subst hf
  simp [sliceAt, wideDictionary] at hdf
  subst hdf
  obtain ⟨s, h1, h2⟩ := hspec.1
  have hsn : sliceAt st (n : Int) = some c := by rw [sliceAt_natCast]; exact hn
  have hs0 : sliceAt st 0 = some a := by simp [sliceAt, h0]
  simp only [hsn, Option.some.injEq] at h1
  simp only [wideDictionary, hs0, Option.some.injEq] at h2
  exact hne (h1.trans h2.symm)

end

theorem toInt32_pow32 : toInt32 ((4294967296 : Nat) : Int) = 0 := by
  norm_num [toInt32]

theorem toInt32_pow31 : toInt32 ((2147483648 : Nat) : Int) = -2147483648 := by
  norm_num [toInt32]

theorem bigName_pow32_ne : bigName 4294967296 ≠ bigName 0 :=
  fun h => absurd (bigName_injective h) (by norm_num)

/-- The conversion completes on the batch whose only profile has the string table
`bigStrings`. -/
theorem bigBatch_run :
    convert.loop (wideBatch bigStrings 4294967296 2147483648).ResourceProfiles {} =
      some (wideOut (-2147483648), wideDictionary bigStrings) :=
  toInt32_pow31 ▸ wide_run bigStrings (bigName 0) (bigName 2147483648) (bigName 4294967296)
    4294967296 2147483648 bigStrings_nodup (bigStrings_getElem? 0 (by norm_num))
    (bigStrings_getElem? 4294967296 (by norm_num))
    (bigStrings_getElem? 2147483648 (by norm_num)) bigName_pow32_ne toInt32_pow32

/-- C5 as stated fails beyond the range of `int32`: on a profile whose string table has
`2^32 + 1` distinct texts and whose comment is the text at position `2^31`, the
conversion completes and emits the comment index `-2^31`, which denotes no entry of the
shared string table. -/
theorem convert_string_refs_overflow :
    convert.loop (wideBatch bigStrings 4294967296 2147483648).ResourceProfiles {} =
      some (wideOut (-2147483648), wideDictionary bigStrings) ∧
    ¬ List.Forall₂
      (fun pc dp => ∃ profile, pc.Profile = some profile ∧
        StringRefsSpec profile dp (wideDictionary bigStrings))
      (inputContainers (wideBatch bigStrings 4294967296 2147483648).ResourceProfiles)
      (outputProfiles (wideOut (-2147483648))) :=
  ⟨bigBatch_run, wide_comment_fails bigStrings 4294967296 2147483648 (-2147483648)
    (by norm_num)⟩

/-- C6 as stated fails beyond the range of `int32`: on a profile whose string table has
`2^32 + 1` distinct texts, the function named by position 0 and the function named by
position `2^32` have different name texts, yet the conversion completes and stores the
dictionary forms of both at position 0 of the shared function table. -/
theorem convert_functions_unify_overflow :
    convert.loop (wideBatch bigStrings 4294967296 2147483648).ResourceProfiles {} =
      some (wideOut (-2147483648), wideDictionary bigStrings) ∧
    storedPosition bigStrings (wideDictionary bigStrings) ⟨0, 0, 0, 0⟩ = some 0 ∧
    storedPosition bigStrings (wideDictionary bigStrings) ⟨(4294967296 : Nat), 0, 0, 0⟩ =
      some 0 ∧
    functionTexts bigStrings ⟨0, 0, 0, 0⟩ ≠
      functionTexts bigStrings ⟨(4294967296 : Nat), 0, 0, 0⟩ :=
  ⟨bigBatch_run, wide_positions bigStrings (bigName 0) (bigName 4294967296) 4294967296
    bigStrings_nodup (bigStrings_getElem? 0 (by norm_num))
    (bigStrings_getElem? 4294967296 (by norm_num)) bigName_pow32_ne toInt32_pow32⟩

/-- C7 as stated fails beyond the range of `int32`: on a profile whose string table has
`2^32 + 1` distinct texts and whose only line refers to the function named by position
`2^32`, the conversion completes and the converted line has `FunctionIndex` 0, whose
entry of the shared function table has the name text of position 0. -/
theorem convert_line_refs_overflow :
    convert.loop (wideBatch bigStrings 4294967296 2147483648).ResourceProfiles {} =
      some (wideOut (-2147483648), wideDictionary bigStrings) ∧
    ¬ List.Forall₂
      (fun pc dp => ∃ profile, pc.Profile = some profile ∧
        List.Forall₂ (LineRefsSpec profile (wideDictionary bigStrings)) profile.Location
          dp.LocationIndices)
      (inputContainers (wideBatch bigStrings 4294967296 2147483648).ResourceProfiles)
      (outputProfiles (wideOut (-2147483648))) :=
  ⟨bigBatch_run, wide_line_fails bigStrings (bigName 0) (bigName 4294967296) 4294967296
    2147483648 (bigStrings_getElem? 0 (by norm_num))
    (bigStrings_getElem? 4294967296 (by norm_num)) bigName_pow32_ne (-2147483648)⟩

section
variable {KV : Type} [DecidableEq KV]
open v1development (ProfilesDictionary)

/-! ### Start time and duration -/

theorem convertProfiles_body_times (xpc : v1experimental.ProfileContainer KV)
    (d e : ProfilesDictionary KV) (dp : v1development.Profile)
    (h : convertProfiles.body xpc d = some (dp, e)) :
    dp.TimeNanos = toInt64 xpc.StartTimeUnixNano ∧
    dp.DurationNanos = toInt64 (toInt64 xpc.EndTimeUnixNano - toInt64 xpc.StartTimeUnixNano) := by
  unfold convertProfiles.body at h
  split at h
  · simp at h
  · split at h
    · simp at h
    · split at h
      · simp at h
      · split at h
        · simp at h
        · split at h
          · simp at h
          · split at h
            · simp at h
            · simp only [Option.some.injEq, Prod.mk.injEq] at h
              obtain ⟨rfl, rfl⟩ := h
              exact ⟨rfl, rfl⟩

theorem toInt64_of_lt (n : Nat) (h : n < 2 ^ 63) : toInt64 (n : Int) = n := by
  unfold toInt64
  omega

theorem toInt64_sub (s e : Nat) (hs : s < 2 ^ 63) (he : e < 2 ^ 64) (hle : s ≤ e)
    (hd : e - s < 2 ^ 63) :
    toInt64 (toInt64 (e : Int) - toInt64 (s : Int)) = (e : Int) - (s : Int) := by
  unfold toInt64
  omega

/-- C13: for a profile container with start time `s < 2^63` and end time `e` (an unsigned
64-bit value) such that `0 ≤ e - s < 2^63`, the converted profile has `TimeNanos = s` and
`DurationNanos = e - s`. -/
theorem convert_time_duration (xpc : v1experimental.ProfileContainer KV)
    (d e : ProfilesDictionary KV) (dp : v1development.Profile)
    (h : convertProfiles.body xpc d = some (dp, e))
    (hs : xpc.StartTimeUnixNano < 2 ^ 63) (he : xpc.EndTimeUnixNano < 2 ^ 64)
    (hle : xpc.StartTimeUnixNano ≤ xpc.EndTimeUnixNano)
    (hd : xpc.EndTimeUnixNano - xpc.StartTimeUnixNano < 2 ^ 63) :
    dp.TimeNanos = (xpc.StartTimeUnixNano : Int) ∧
    dp.DurationNanos = (xpc.EndTimeUnixNano : Int) - (xpc.StartTimeUnixNano : Int) := by
  obtain ⟨h1, h2⟩ := convertProfiles_body_times xpc d e dp h
  exact ⟨h1.trans (toInt64_of_lt _ hs), h2.trans (toInt64_sub _ _ hs he hle hd)⟩

end

theorem sampleContainerA_run :
    convertProfiles.body sampleContainerA {} = some (sampleOutA, sampleDictionaryA) := by
  decide

/-- Start time 100 and end time 150 give time 100 and duration 50. -/
theorem convert_time_duration_witness :
    convertProfiles.body sampleContainerA {} = some (sampleOutA, sampleDictionaryA) ∧
    sampleOutA.TimeNanos = (100 : Nat) ∧ sampleOutA.DurationNanos = (150 : Nat) - (100 : Nat) :=
  ⟨sampleContainerA_run,
    convert_time_duration sampleContainerA {} sampleDictionaryA sampleOutA sampleContainerA_run
      (by decide) (by decide) (by decide) (by decide)⟩

section
variable {KV : Type} [DecidableEq KV]
open v1development (ProfilesDictionary)

/-! ### The stages of one profile -/

theorem addToDictionary_stages (pc : v1experimental.ProfileContainer KV)
    (p0 dp : v1development.Profile) (d e : ProfilesDictionary KV)
    (h : addToDictionary pc p0 d = some (dp, e)) :
    ∃ profile d5 d6 li sm, pc.Profile = some profile ∧
      addToDictionary.interned pc d = some d5 ∧
      addLocationToDictionary.loop profile profile.Location d5 = some (li, d6) ∧
      addSamplesToDictionary.loop profile profile.Sample d6 = some (sm, e) ∧
      dp = { p0 with LocationIndices := li, Sample := sm } := by
  unfold addToDictionary at h
  cases hp : pc.Profile with
  | none => simp [addLinkToDictionary, hp] at h
  | some profile =>
    simp only [addLinkToDictionary, addStringToDictionary, addAttributeToDictionary,
      addMappingToDictionary, addFunctionToDictionary, addLocationToDictionary,
      addSamplesToDictionary, hp] at h
    split at h
    · simp at h
    · rename_i d4 h4
      split at h
      · simp at h
      · rename_i d5 h5
        split at h
        · simp at h
        · rename_i li d6 h6
          split at h
          · simp at h
          · rename_i sm d7 h7
            simp only [Option.some.injEq, Prod.mk.injEq] at h
            obtain ⟨rfl, rfl⟩ := h
            refine ⟨profile, d5, d6, li, sm, rfl, ?_, h6, h7, rfl⟩
            simp only [addToDictionary.interned, addLinkToDictionary, addStringToDictionary,
              addAttributeToDictionary, addMappingToDictionary, addFunctionToDictionary, hp, h4,
              h5]

theorem convertProfiles_body_stages (pc : v1experimental.ProfileContainer KV)
    (d e : ProfilesDictionary KV) (dp : v1development.Profile)
    (h : convertProfiles.body pc d = some (dp, e)) :
    ∃ dp1 d1, addToDictionary pc {} d = some (dp1, d1) ∧
      dp.Sample = dp1.Sample ∧ dp.LocationIndices = dp1.LocationIndices := by
  unfold convertProfiles.body at h
  split at h
  · simp at h
  · rename_i dp1 d1 h1
    split at h
    · simp at h
    · split at h
      · simp at h
      · split at h
        · simp at h
        · split at h
          · simp at h
          · split at h
            · simp at h
            · simp only [Option.some.injEq, Prod.mk.injEq] at h
              obtain ⟨rfl, rfl⟩ := h
              exact ⟨dp1, d1, h1, rfl, rfl⟩

theorem convertProfiles_forall₂
    (R : v1experimental.ProfileContainer KV → v1development.Profile → Prop)
    (hR : ∀ pc (d e : ProfilesDictionary KV) dp,
      convertProfiles.body pc d = some (dp, e) → R pc dp)
    (pcs : List (v1experimental.ProfileContainer KV)) (d e : ProfilesDictionary KV)
    (out : List v1development.Profile) (h : convertProfiles pcs d = some (out, e)) :
    List.Forall₂ R pcs out := by
  induction pcs generalizing d out with
  | nil =>
    simp only [convertProfiles, Option.some.injEq, Prod.mk.injEq] at h
    obtain ⟨rfl, rfl⟩ := h
    exact List.Forall₂.nil
  | cons pc rest ih =>
    unfold convertProfiles at h
    split at h
    · simp at h
    · rename_i dp d1 hb
      split at h
      · simp at h
      · rename_i o d2 hr
        simp only [Option.some.injEq, Prod.mk.injEq] at h
        obtain ⟨rfl, rfl⟩ := h
        exact List.Forall₂.cons (hR pc d d1 dp hb) (ih d1 o hr)

theorem convert_loop_forall₂
    (R : v1experimental.ProfileContainer KV → v1development.Profile → Prop)
    (hR : ∀ pc (d e : ProfilesDictionary KV) dp,
      convertProfiles.body pc d = some (dp, e) → R pc dp)
    (rps : List (v1experimental.ResourceProfiles KV)) (d e : ProfilesDictionary KV)
    (out : List (v1development.ResourceProfiles KV)) (h : convert.loop rps d = some (out, e)) :
    List.Forall₂ R (inputContainers rps) (outputProfiles out) :=
  convertProfiles_forall₂ R hR _ d e _ (convert_loop_flat rps d e out h)

/-! ### The copied fields of a sample -/

theorem addSamplesToDictionary_loop_copy (profile : v1experimental.Profile KV)
    (l : List v1experimental.Sample) (d e : ProfilesDictionary KV)
    (out : List v1development.Sample)
    (h : addSamplesToDictionary.loop profile l d = some (out, e)) :
    List.Forall₂ SampleCopySpec l out := by
  induction l generalizing d out with
  | nil =>
    simp only [addSamplesToDictionary.loop, Option.some.injEq, Prod.mk.injEq] at h
    obtain ⟨rfl, rfl⟩ := h
    exact List.Forall₂.nil
  | cons s rest ih =>
    simp only [addSamplesToDictionary.loop] at h
    split at h
    · simp at h
    · split at h
      · split at h
        · simp at h
        · split at h
          · simp at h
          · rename_i r d1 hr
            simp only [Option.some.injEq, Prod.mk.injEq] at h
            obtain ⟨rfl, rfl⟩ := h
            exact List.Forall₂.cons ⟨rfl, fun hlt => toInt32_of_lt _ hlt, rfl, rfl⟩ (ih _ _ hr)
      · split at h
        · simp at h
        · rename_i r d1 hr
          simp only [Option.some.injEq, Prod.mk.injEq] at h
          obtain ⟨rfl, rfl⟩ := h
          exact List.Forall₂.cons ⟨rfl, fun hlt => toInt32_of_lt _ hlt, rfl, rfl⟩ (ih _ _ hr)

theorem convertProfiles_body_copy (pc : v1experimental.ProfileContainer KV)
    (d e : ProfilesDictionary KV) (dp : v1development.Profile)
    (h : convertProfiles.body pc d = some (dp, e)) :
    ∃ profile, pc.Profile = some profile ∧
      List.Forall₂ SampleCopySpec profile.Sample dp.Sample := by
  obtain ⟨dp1, d1, h1, hs, -⟩ := convertProfiles_body_stages pc d e dp h
  obtain ⟨profile, d5, d6, li, sm, hp, -, -, h7, rfl⟩ := addToDictionary_stages pc _ dp1 d d1 h1
  refine ⟨profile, hp, ?_⟩
  rw [hs]
  exact addSamplesToDictionary_loop_copy profile _ d6 d1 sm h7

/-- C17 (amended): in every completed conversion each converted sample has the values and
timestamps of its source sample unchanged, and its `LocationsLength` is the `int32` of the
source `LocationsLength`, which is the same number whenever the source value is below
`2^31`. -/
theorem convert_sample_copy (input : v1experimental.ProfilesData KV)
    (out : List (v1development.ResourceProfiles KV)) (D : ProfilesDictionary KV)
    (h : convert.loop input.ResourceProfiles {} = some (out, D)) :
    List.Forall₂
      (fun pc dp => ∃ profile, pc.Profile = some profile ∧
        List.Forall₂ SampleCopySpec profile.Sample dp.Sample)
      (inputContainers input.ResourceProfiles) (outputProfiles out) :=
  convert_loop_forall₂ _ convertProfiles_body_copy _ _ _ _ h

end

/-- Witness of C17 (amended) on the sample batch. -/
theorem convert_sample_copy_witness :
    List.Forall₂
      (fun pc dp => ∃ profile, pc.Profile = some profile ∧
        List.Forall₂ SampleCopySpec profile.Sample dp.Sample)
      (inputContainers sampleBatch.ResourceProfiles) (outputProfiles sampleOut) :=
  convert_sample_copy sampleBatch sampleOut sampleDictionary sampleBatch_run

/-- C17 as stated fails beyond the range of `int32`: a sample with `LocationsLength`
`2^31` is converted to a sample with `LocationsLength` `-2^31`. -/
theorem convert_sample_length_wraps :
    convert.loop (sampleTestBatch longSample).ResourceProfiles {} =
      some (sampleTestOut { LocationsLength := -2147483648, Value := [1],
                            TimestampsUnixNano := [3] }, aliasDictionary) ∧
    ¬ List.Forall₂
      (fun pc dp => ∃ profile, pc.Profile = some profile ∧
        List.Forall₂ SampleCopyExact profile.Sample dp.Sample)
      (inputContainers (sampleTestBatch longSample).ResourceProfiles)
      (outputProfiles (sampleTestOut { LocationsLength := -2147483648, Value := [1],
                                       TimestampsUnixNano := [3] })) := by
  refine ⟨by decide, ?_⟩
  intro h
  simp only [inputContainers, outputProfiles, sampleTestBatch, sampleTestOut,
    List.flatMap_cons, List.flatMap_nil, List.append_nil, List.forall₂_cons,
    List.forall₂_nil_left_iff, and_true] at h
  obtain ⟨profile, hp, hl⟩ := h
  simp only [Option.some.injEq] at hp
  subst hp
  simp [aliasOutProfile, SampleCopyExact, longSample] at hl

/-- C14 fails in the code for a link position of `2^63` or more: `int(sample.Link)` is
then negative, the guard `len(LinkTable) > int(sample.Link)` holds, and the index
expression `LinkTable[sample.Link]` is out of range, so the conversion aborts.  For a link
position that is outside the table but below `2^63` the sample is converted without a
`LinkIndex`. -/
theorem convert_far_link_aborts :
    convert.loop (sampleTestBatch farLinkSample).ResourceProfiles {} = none ∧
    convert (sampleTestBatch farLinkSample) {} = none ∧
    convert.loop (sampleTestBatch nearLinkSample).ResourceProfiles {} =
      some (sampleTestOut { LocationsLength := 1, Value := [1], LinkIndex := none },
        aliasDictionary) := by
  decide

section
variable {KV : Type} [DecidableEq KV]
open v1development (ProfilesDictionary)

/-! ### Tables that a stretch of the conversion leaves as they are -/

theorem Interns.function_eq {P : InternPred KV} {d e : ProfilesDictionary KV}
    (h : Interns P d e) (hp : ∀ s, P.func s → s ∈ d.FunctionTable) :
    e.FunctionTable = d.FunctionTable := by
  induction h with
  | refl => rfl
  | func t _ ht ih =>
    show (findInsert _ t).1 = _
    rw [findInsert_eq_self _ _ (by rw [ih]; exact hp t ht), ih]
  | str x _ _ ih => exact ih
  | map x _ _ ih => exact ih
  | loc x _ _ ih => exact ih
  | attr x _ _ ih => exact ih
  | link x _ _ ih => exact ih

theorem Interns.mapping_eq {P : InternPred KV} {d e : ProfilesDictionary KV}
    (h : Interns P d e) (hp : ∀ s, P.map s → s ∈ d.MappingTable) :
    e.MappingTable = d.MappingTable := by
  induction h with
  | refl => rfl
  | map t _ ht ih =>
    show (findInsert _ t).1 = _
    rw [findInsert_eq_self _ _ (by rw [ih]; exact hp t ht), ih]
  | str x _ _ ih => exact ih
  | func x _ _ ih => exact ih
  | loc x _ _ ih => exact ih
  | attr x _ _ ih => exact ih
  | link x _ _ ih => exact ih

theorem Interns.location_eq {P : InternPred KV} {d e : ProfilesDictionary KV}
    (h : Interns P d e) (hp : ∀ s, P.loc s → s ∈ d.LocationTable) :
    e.LocationTable = d.LocationTable := by
  induction h with
  | refl => rfl
  | loc t _ ht ih =>
    show (findInsert _ t).1 = _
    rw [findInsert_eq_self _ _ (by rw [ih]; exact hp t ht), ih]
  | str x _ _ ih => exact ih
  | func x _ _ ih => exact ih
  | map x _ _ ih => exact ih
  | attr x _ _ ih => exact ih
  | link x _ _ ih => exact ih

theorem Interns.attribute_eq {P : InternPred KV} {d e : ProfilesDictionary KV}
    (h : Interns P d e) (hp : ∀ s, P.attr s → s ∈ d.AttributeTable) :
    e.AttributeTable = d.AttributeTable := by
  induction h with
  | refl => rfl
  | attr t _ ht ih =>
    show (findInsert _ t).1 = _
    rw [findInsert_eq_self _ _ (by rw [ih]; exact hp t ht), ih]
  | str x _ _ ih => exact ih
  | func x _ _ ih => exact ih
  | map x _ _ ih => exact ih
  | loc x _ _ ih => exact ih
  | link x _ _ ih => exact ih

theorem Interns.link_eq {P : InternPred KV} {d e : ProfilesDictionary KV}
    (h : Interns P d e) (hp : ∀ s, P.link s → s ∈ d.LinkTable) :
    e.LinkTable = d.LinkTable := by
  induction h with
  | refl => rfl
  | link t _ ht ih =>
    show (findInsert _ t).1 = _
    rw [findInsert_eq_self _ _ (by rw [ih]; exact hp t ht), ih]
  | str x _ _ ih => exact ih
  | func x _ _ ih => exact ih
  | map x _ _ ih => exact ih
  | loc x _ _ ih => exact ih
  | attr x _ _ ih => exact ih

/-! ### What each stage interns -/

theorem Interns.attrToMap {S : String → Prop} {d e : ProfilesDictionary KV}
    (h : Interns attrPred d e) : Interns (mapPred S) d e :=
  h.mono (fun _ hx => hx.elim) (fun _ hx => hx.elim) (fun _ hx => hx.elim) (fun _ hx => hx.elim)
    (fun _ _ => trivial) (fun _ hx => hx.elim)

theorem Interns.attrToLoc {d e : ProfilesDictionary KV}
    (h : Interns attrPred d e) : Interns (locPred : InternPred KV) d e :=
  h.mono (fun _ hx => hx.elim) (fun _ hx => hx.elim) (fun _ hx => hx.elim) (fun _ hx => hx.elim)
    (fun _ _ => trivial) (fun _ hx => hx.elim)

theorem addMappingToDictionary_loop_tables (profile : v1experimental.Profile KV)
    (l : List v1experimental.Mapping) (d e : ProfilesDictionary KV)
    (h : addMappingToDictionary.loop profile l d = some e) :
    Interns (mapPred (fun s => s ∈ profile.StringTable)) d e := by
  induction l generalizing d with
  | nil =>
    simp [addMappingToDictionary.loop] at h; subst h
    exact Interns.refl d
  | cons x rest ih =>
    simp only [addMappingToDictionary.loop] at h
    split at h
    · simp at h
    · rename_i filename hfn
      split at h
      · simp at h
      · rename_i d1 h1
        refine Interns.trans ?_ (ih _ h)
        refine Interns.map _ ?_ trivial
        exact (Interns.str _ (Interns.refl d) (sliceAt_mem _ _ _ hfn)).trans
          (addMappingToDictionary_attrs_interns _ _ _ _ h1).attrToMap

theorem addFunctionToDictionary_loop_tables (profile : v1experimental.Profile KV)
    (l : List v1experimental.Function) (d e : ProfilesDictionary KV)
    (h : addFunctionToDictionary.loop profile l d = some e) :
    Interns (funcPred (fun s => s ∈ profile.StringTable)) d e := by
  induction l generalizing d with
  | nil =>
    simp [addFunctionToDictionary.loop] at h; subst h
    exact Interns.refl d
  | cons x rest ih =>
    simp only [addFunctionToDictionary.loop] at h
    split at h
    · simp at h
    · rename_i name hn
      split at h
      · simp at h
      · rename_i systemName hs
        split at h
        · simp at h
        · rename_i filename hf
          refine Interns.trans ?_ (ih _ h)
          refine Interns.func _ ?_ trivial
          exact Interns.str _ (Interns.str _ (Interns.str _ (Interns.refl d)
            (sliceAt_mem _ _ _ hn)) (sliceAt_mem _ _ _ hs)) (sliceAt_mem _ _ _ hf)

theorem addLocationToDictionary_loop_tables (profile : v1experimental.Profile KV)
    (l : List v1experimental.Location) (d e : ProfilesDictionary KV) (out : List Int)
    (h : addLocationToDictionary.loop profile l d = some (out, e)) :
    Interns (locPred : InternPred KV) d e := by
  induction l generalizing d out with
  | nil =>
    simp [addLocationToDictionary.loop] at h; obtain ⟨rfl, rfl⟩ := h
    exact Interns.refl d
  | cons x rest ih =>
    simp only [addLocationToDictionary.loop] at h
    split at h
    · simp at h
    · split at h
      · simp at h
      · split at h
        · simp at h
        · rename_i attrIdx d1 h1
          split at h
          · simp at h
          · rename_i result d2 h2
            simp only [Option.some.injEq, Prod.mk.injEq] at h
            obtain ⟨rfl, rfl⟩ := h
            refine Interns.trans ?_ (ih _ _ h2)
            exact Interns.loc _ (addLocationToDictionary_attrs_interns _ _ _ _ _ h1).attrToLoc
              trivial

theorem addSamplesToDictionary_loop_links (profile : v1experimental.Profile KV)
    (l : List v1experimental.Sample) (d e : ProfilesDictionary KV)
    (out : List v1development.Sample)
    (h : addSamplesToDictionary.loop profile l d = some (out, e)) :
    Interns (linkPred : InternPred KV) d e := by
  induction l generalizing d out with
  | nil =>
    simp [addSamplesToDictionary.loop] at h; obtain ⟨rfl, rfl⟩ := h
    exact Interns.refl d
  | cons s rest ih =>
    simp only [addSamplesToDictionary.loop] at h
    split at h
    · simp at h
    · split at h
      · split at h
        · simp at h
        · split at h
          · simp at h
          · rename_i r d1 hr
            simp only [Option.some.injEq, Prod.mk.injEq] at h
            obtain ⟨rfl, rfl⟩ := h
            exact (Interns.link _ (Interns.refl d) trivial).trans (ih _ _ hr)
      · split at h
        · simp at h
        · rename_i r d1 hr
          simp only [Option.some.injEq, Prod.mk.injEq] at h
          obtain ⟨rfl, rfl⟩ := h
          exact ih _ _ hr

/-! ### Every operation extends the tables -/

theorem addToDictionary_le (pc : v1experimental.ProfileContainer KV)
    (p0 dp : v1development.Profile) (d e : ProfilesDictionary KV)
    (h : addToDictionary pc p0 d = some (dp, e)) : DictLe d e := by
  obtain ⟨profile, hp, hI, -⟩ := addToDictionary_spec pc p0 dp d e e h (DictLe.rfl' e)
  exact hI.le

theorem convertProfiles_body_le (pc : v1experimental.ProfileContainer KV)
    (d e : ProfilesDictionary KV) (dp : v1development.Profile)
    (h : convertProfiles.body pc d = some (dp, e)) : DictLe d e := by
  obtain ⟨profile, hp, hI, -⟩ := convertProfiles_body_spec pc d e e dp h (DictLe.rfl' e)
  exact hI.le

theorem convertProfiles_le (pcs : List (v1experimental.ProfileContainer KV))
    (d e : ProfilesDictionary KV) (out : List v1development.Profile)
    (h : convertProfiles pcs d = some (out, e)) : DictLe d e :=
  (convertProfiles_spec pcs d e e out h (DictLe.rfl' e)).1.le

theorem convertScopeProfiles_le (sps : List (v1experimental.ScopeProfiles KV))
    (d e : ProfilesDictionary KV) (out : List (v1development.ScopeProfiles KV))
    (h : convertScopeProfiles sps d = some (out, e)) : DictLe d e :=
  convertProfiles_le _ d e _ (convertScopeProfiles_flat sps d e out h)

theorem convertResourceProfiles_le (xrp : v1experimental.ResourceProfiles KV)
    (d e : ProfilesDictionary KV) (out : v1development.ResourceProfiles KV)
    (h : convertResourceProfiles xrp d = some (out, e)) : DictLe d e := by
  unfold convertResourceProfiles at h
  split at h
  · simp at h
  · rename_i sps d1 h1
    simp only [Option.some.injEq, Prod.mk.injEq] at h
    obtain ⟨rfl, rfl⟩ := h
    exact convertScopeProfiles_le _ _ _ _ h1

theorem convert_loop_le (rps : List (v1experimental.ResourceProfiles KV))
    (d e : ProfilesDictionary KV) (out : List (v1development.ResourceProfiles KV))
    (h : convert.loop rps d = some (out, e)) : DictLe d e :=
  convertProfiles_le _ d e _ (convert_loop_flat rps d e out h)

theorem DictLe.getElem?_eq {d e : ProfilesDictionary KV} (h : DictLe d e) (i : Nat) :
    (∀ x, d.MappingTable[i]? = some x → e.MappingTable[i]? = some x) ∧
    (∀ x, d.LocationTable[i]? = some x → e.LocationTable[i]? = some x) ∧
    (∀ x, d.FunctionTable[i]? = some x → e.FunctionTable[i]? = some x) ∧
    (∀ x, d.LinkTable[i]? = some x → e.LinkTable[i]? = some x) ∧
    (∀ x, d.StringTable[i]? = some x → e.StringTable[i]? = some x) ∧
    (∀ x, d.AttributeTable[i]? = some x → e.AttributeTable[i]? = some x) :=
  ⟨isPrefix_getElem? h.mappings i, isPrefix_getElem? h.locations i,
    isPrefix_getElem? h.functions i, isPrefix_getElem? h.links i,
    isPrefix_getElem? h.strings i, isPrefix_getElem? h.attributes i⟩

/-- C11: every operation that changes the dictionary, whenever it returns, leaves each
shared table's previous contents as an initial segment of the new contents (`DictLe`), so
every position that was valid before holds the same entry after.  This covers the seven
`add…ToDictionary` operations, `addToDictionary`, the converters called by
`convertProfiles`, and the traversal functions. -/
theorem dictionary_tables_extend (pc : v1experimental.ProfileContainer KV)
    (d : ProfilesDictionary KV) :
    (∀ e, addLinkToDictionary pc d = some e → DictLe d e) ∧
    (∀ e, addStringToDictionary pc d = some e → DictLe d e) ∧
    (∀ e, addAttributeToDictionary pc d = some e → DictLe d e) ∧
    (∀ e, addMappingToDictionary pc d = some e → DictLe d e) ∧
    (∀ e, addFunctionToDictionary pc d = some e → DictLe d e) ∧
    (∀ li e, addLocationToDictionary pc d = some (li, e) → DictLe d e) ∧
    (∀ sm e, addSamplesToDictionary pc d = some (sm, e) → DictLe d e) ∧
    (∀ p0 dp e, addToDictionary pc p0 d = some (dp, e) → DictLe d e) ∧
    (∀ l, DictLe d (convertAttributes l d).2) ∧
    (∀ l st out e, convertComments l st d = some (out, e) → DictLe d e) ∧
    (∀ v st o e, convertValueType v st d = some (o, e) → DictLe d e) ∧
    (∀ l st out e, convertSampleType l st d = some (out, e) → DictLe d e) ∧
    (∀ dp e, convertProfiles.body pc d = some (dp, e) → DictLe d e) ∧
    (∀ pcs out e, convertProfiles pcs d = some (out, e) → DictLe d e) ∧
    (∀ sps out e, convertScopeProfiles sps d = some (out, e) → DictLe d e) ∧
    (∀ xrp out e, convertResourceProfiles xrp d = some (out, e) → DictLe d e) ∧
    (∀ rps out e, convert.loop rps d = some (out, e) → DictLe d e) ∧
    (∀ e : ProfilesDictionary KV, DictLe d e → ∀ i : Nat,
      (∀ x, d.MappingTable[i]? = some x → e.MappingTable[i]? = some x) ∧
      (∀ x, d.LocationTable[i]? = some x → e.LocationTable[i]? = some x) ∧
      (∀ x, d.FunctionTable[i]? = some x → e.FunctionTable[i]? = some x) ∧
      (∀ x, d.LinkTable[i]? = some x → e.LinkTable[i]? = some x) ∧
      (∀ x, d.StringTable[i]? = some x → e.StringTable[i]? = some x) ∧
      (∀ x, d.AttributeTable[i]? = some x → e.AttributeTable[i]? = some x)) := by
  refine ⟨?_, ?_, ?_, ?_, ?_, ?_, ?_, ?_, ?_, ?_, ?_, ?_, ?_, ?_, ?_, ?_, ?_, ?_⟩
  · intro e h
    unfold addLinkToDictionary at h
    split at h
    · simp at h
    · simp only [Option.some.injEq] at h
      subst h
      exact (addLinkToDictionary_loop_interns _ d).le
  · intro e h
    unfold addStringToDictionary at h
    split at h
    · simp at h
    · simp only [Option.some.injEq] at h
      subst h
      exact (addStringToDictionary_loop_interns (fun _ => True) _ (fun _ _ => trivial) d).le
  · intro e h
    unfold addAttributeToDictionary at h
    split at h
    · simp at h
    · simp only [Option.some.injEq] at h
      subst h
      exact (addAttributeToDictionary_loop_interns _ d).le
  · intro e h
    unfold addMappingToDictionary at h
    split at h
    · simp at h
    · exact (addMappingToDictionary_loop_tables _ _ d e h).le
  · intro e h
    unfold addFunctionToDictionary at h
    split at h
    · simp at h
    · exact (addFunctionToDictionary_loop_tables _ _ d e h).le
  · intro li e h
    unfold addLocationToDictionary at h
    split at h
    · simp at h
    · exact (addLocationToDictionary_loop_tables _ _ d e li h).le
  · intro sm e h
    unfold addSamplesToDictionary at h
    split at h
    · simp at h
    · exact (addSamplesToDictionary_loop_links _ _ d e sm h).le
  · intro p0 dp e h
    exact addToDictionary_le pc p0 dp d e h
  · intro l
    exact (convertAttributes_interns l d).le
  · intro l st out e h
    exact (convertComments_interns l st d e out h).le
  · intro v st o e h
    exact (convertValueType_interns v st d e o h).le
  · intro l st out e h
    exact (convertSampleType_interns l st d e out h).le
  · intro dp e h
    exact convertProfiles_body_le pc d e dp h
  · intro pcs out e h
    exact convertProfiles_le pcs d e out h
  · intro sps out e h
    exact convertScopeProfiles_le sps d e out h
  · intro xrp out e h
    exact convertResourceProfiles_le xrp d e out h
  · intro rps out e h
    exact convert_loop_le rps d e out h
  · intro e h i
    exact h.getElem?_eq i

end

/-- Instance of C11: the dictionary after the first profile of the sample batch is an
initial segment, table by table, of the dictionary after both. -/
theorem dictionary_tables_extend_witness :
    DictLe sampleDictionaryA sampleDictionary :=
  (dictionary_tables_extend sampleContainerA sampleDictionaryA).2.2.2.2.2.2.2.2.2.2.2.2.2.1
    [⟨[], 100, 150, [], 0, "", [], some sampleProfileB⟩] [sampleOutB] sampleDictionary
    (by decide)

section
variable {KV : Type} [DecidableEq KV]
open v1development (ProfilesDictionary)

/-! ### The conversion of one profile, stage by stage -/

theorem convertProfiles_body_iff (pc : v1experimental.ProfileContainer KV)
    (d e : ProfilesDictionary KV) (dp : v1development.Profile) :
    convertProfiles.body pc d = some (dp, e) ↔
    ∃ profile d4 d5 li d6 sm d7 sty d8 pt d9 cm d10 s,
      pc.Profile = some profile ∧
      addMappingToDictionary.loop profile profile.Mapping
        (addAttributeToDictionary.loop profile.AttributeTable
          (addStringToDictionary.loop profile.StringTable
            (addLinkToDictionary.loop profile.LinkTable d))) = some d4 ∧
      addFunctionToDictionary.loop profile profile.Function d4 = some d5 ∧
      addLocationToDictionary.loop profile profile.Location d5 = some (li, d6) ∧
      addSamplesToDictionary.loop profile profile.Sample d6 = some (sm, d7) ∧
      convertSampleType profile.SampleType profile.StringTable d7 = some (sty, d8) ∧
      convertValueType profile.PeriodType profile.StringTable d8 = some (pt, d9) ∧
      convertComments profile.Comment profile.StringTable d9 = some (cm, d10) ∧
      sliceAt profile.StringTable profile.DefaultSampleType = some s ∧
      e = (convertAttributes pc.Attributes (internString d10 s).1).2 ∧
      dp = { SampleType := sty
             Sample := sm
             LocationIndices := li
             TimeNanos := toInt64 pc.StartTimeUnixNano
             DurationNanos :=
               toInt64 (toInt64 pc.EndTimeUnixNano - toInt64 pc.StartTimeUnixNano)
             PeriodType := some pt
             Period := profile.Period
             CommentStrindices := cm
             DefaultSampleTypeIndex := toInt32 (internString d10 s).2
             ProfileId := pc.ProfileId
             DroppedAttributesCount := pc.DroppedAttributesCount
             OriginalPayloadFormat := pc.OriginalPayloadFormat
             OriginalPayload := pc.OriginalPayload
             AttributeIndices := (convertAttributes pc.Attributes (internString d10 s).1).1 } := by
  constructor
  · intro h
    unfold convertProfiles.body at h
    split at h
    · simp at h
    · rename_i dp1 d1 h1
      split at h
      · simp at h
      · rename_i profile hp
        split at h
        · simp at h
        · rename_i sty d8 h8
          split at h
          · simp at h
          · rename_i pt d9 h9
            split at h
            · simp at h
            · rename_i cm d10 h10
              split at h
              · simp at h
              · rename_i s hs
                simp only [Option.some.injEq, Prod.mk.injEq] at h
                obtain ⟨rfl, rfl⟩ := h
                unfold addToDictionary at h1
                simp only [addLinkToDictionary, addStringToDictionary, addAttributeToDictionary,
                  addMappingToDictionary, addFunctionToDictionary, addLocationToDictionary,
                  addSamplesToDictionary, hp] at h1
                split at h1
                · simp at h1
                · rename_i d4 h4
                  split at h1
                  · simp at h1
                  · rename_i d5 h5
                    split at h1
                    · simp at h1
                    · rename_i li d6 h6
                      split at h1
                      · simp at h1
                      · rename_i sm d7 h7
                        simp only [Option.some.injEq, Prod.mk.injEq] at h1
                        obtain ⟨rfl, rfl⟩ := h1
                        exact ⟨profile, d4, d5, li, d6, sm, _, sty, d8, pt, d9, cm, d10, s, hp,
                          h4, h5, h6, h7, h8, h9, h10, hs, rfl, rfl⟩
  · rintro ⟨profile, d4, d5, li, d6, sm, d7, sty, d8, pt, d9, cm, d10, s, hp, h4, h5, h6, h7,
      h8, h9, h10, hs, rfl, rfl⟩
    simp only [convertProfiles.body, addToDictionary, addLinkToDictionary,
      addStringToDictionary, addAttributeToDictionary, addMappingToDictionary,
      addFunctionToDictionary, addLocationToDictionary, addSamplesToDictionary, hp, h4, h5, h6,
      h7, h8, h9, h10, hs]

end

/-! ### Replaying an insert-or-find call on a later table -/

section
variable {α : Type} [DecidableEq α]

theorem findInsert_first (l : List α) (c : α) (j : Nat) (hj : j < (findInsert l c).2) :
    (findInsert l c).1[j]? ≠ some c := by
  by_cases hc : c ∈ l
  · obtain ⟨h1, -, h3⟩ := findInsert_of_mem l c hc
    rw [h1]
    exact h3 j hj
  · rw [findInsert_of_not_mem l c hc] at hj ⊢
    simp only at hj ⊢
    rw [List.getElem?_append_left hj]
    intro h
    exact hc (List.getElem?_mem h)

theorem findEqual_of_first (l : List α) (c : α) (i : Nat) (h1 : l[i]? = some c)
    (h2 : ∀ j, j < i → l[j]? ≠ some c) : findEqual l c = some i := by
  obtain ⟨k, hk⟩ := findEqual_of_mem l c (List.getElem?_mem h1)
  obtain ⟨hk1, hk2⟩ := findEqual_some_spec l c k hk
  rcases lt_trichotomy k i with hlt | heq | hgt
  · exact absurd hk1 (h2 k hlt)
  · rw [hk, heq]
  · exact absurd h1 (hk2 i hgt)

theorem findInsert_replay (l L : List α) (c : α) (h : (findInsert l c).1 <+: L) :
    findInsert L c = (L, (findInsert l c).2) := by
  have hi := findInsert_get l c
  have hL : L[(findInsert l c).2]? = some c := isPrefix_getElem? h _ _ hi
  have hfirst : ∀ j, j < (findInsert l c).2 → L[j]? ≠ some c := by
    intro j hj hjc
    have hlt : j < (findInsert l c).1.length := lt_trans hj (findInsert_lt l c)
    have hsome : (findInsert l c).1[j]? = some ((findInsert l c).1[j]) :=
      List.getElem?_eq_getElem hlt
    have := isPrefix_getElem? h _ _ hsome
    rw [this] at hjc
    rw [hjc] at hsome
    exact findInsert_first l c j hj hsome
  have hfe := findEqual_of_first L c _ hL hfirst
  have hstep : findInsert L c = (L, (findInsert l c).2) := by
    rw [findInsert.eq_1 L c, hfe]
  exact hstep

end

section
variable {KV : Type} [DecidableEq KV]
open v1development (ProfilesDictionary)

theorem internString_replay (d D : ProfilesDictionary KV) (s : String)
    (h : DictLe (internString d s).1 D) : internString D s = (D, (internString d s).2) := by
  have := findInsert_replay d.StringTable D.StringTable s h.strings
  simp only [internString, this]

theorem internAttribute_replay (d D : ProfilesDictionary KV) (x : KV)
    (h : DictLe (internAttribute d x).1 D) :
    internAttribute D x = (D, (internAttribute d x).2) := by
  have := findInsert_replay d.AttributeTable D.AttributeTable x h.attributes
  simp only [internAttribute, findInsertProtoMessage_eq, this]

theorem internLink_replay (d D : ProfilesDictionary KV) (x : v1development.Link)
    (h : DictLe (internLink d x).1 D) : internLink D x = (D, (internLink d x).2) := by
  have := findInsert_replay d.LinkTable D.LinkTable x h.links
  simp only [internLink, findInsertProtoMessage_eq, this]

theorem internMapping_replay (d D : ProfilesDictionary KV) (x : v1development.Mapping)
    (h : DictLe (internMapping d x).1 D) : internMapping D x = (D, (internMapping d x).2) := by
  have := findInsert_replay d.MappingTable D.MappingTable x h.mappings
  simp only [internMapping, findInsertProtoMessage_eq, this]

theorem internFunction_replay (d D : ProfilesDictionary KV) (x : v1development.Function)
    (h : DictLe (internFunction d x).1 D) :
    internFunction D x = (D, (internFunction d x).2) := by
  have := findInsert_replay d.FunctionTable D.FunctionTable x h.functions
  simp only [internFunction, findInsertProtoMessage_eq, this]

theorem internLocation_replay (d D : ProfilesDictionary KV) (x : v1development.Location)
    (h : DictLe (internLocation d x).1 D) :
    internLocation D x = (D, (internLocation d x).2) := by
  have := findInsert_replay d.LocationTable D.LocationTable x h.locations
  simp only [internLocation, findInsertProtoMessage_eq, this]

/-! ### Replaying a stage on a dictionary that already holds its results -/

theorem addLinkToDictionary_loop_replay (l : List v1experimental.Link)
    (d D : ProfilesDictionary KV) (h : DictLe (addLinkToDictionary.loop l d) D) :
    addLinkToDictionary.loop l D = D := by
  induction l generalizing d with
  | nil => rfl
  | cons x rest ih =>
    simp only [addLinkToDictionary.loop] at h ⊢
    have hle := (addLinkToDictionary_loop_interns rest
      (internLink d { TraceId := x.TraceId, SpanId := x.SpanId }).1).le
    rw [internLink_replay d D _ (hle.trans' h)]
    exact ih _ h

theorem addStringToDictionary_loop_replay (l : List String)
    (d D : ProfilesDictionary KV) (h : DictLe (addStringToDictionary.loop l d) D) :
    addStringToDictionary.loop l D = D := by
  induction l generalizing d with
  | nil => rfl
  | cons x rest ih =>
    simp only [addStringToDictionary.loop] at h ⊢
    have hle := (addStringToDictionary_loop_interns (fun _ => True) rest (fun _ _ => trivial)
      (internString d x).1).le
    rw [internString_replay d D _ (hle.trans' h)]
    exact ih _ h

theorem addAttributeToDictionary_loop_replay (l : List KV)
    (d D : ProfilesDictionary KV) (h : DictLe (addAttributeToDictionary.loop l d) D) :
    addAttributeToDictionary.loop l D = D := by
  induction l generalizing d with
  | nil => rfl
  | cons x rest ih =>
    simp only [addAttributeToDictionary.loop] at h ⊢
    have hle := (addAttributeToDictionary_loop_interns rest (internAttribute d x).1).le
    rw [internAttribute_replay d D _ (hle.trans' h)]
    exact ih _ h

theorem addMappingToDictionary_attrs_replay (profile : v1experimental.Profile KV)
    (l : List Nat) (d e D : ProfilesDictionary KV)
    (h : addMappingToDictionary.attrs profile l d = some e) (hD : DictLe e D) :
    addMappingToDictionary.attrs profile l D = some D := by
  induction l generalizing d with
  | nil => rfl
  | cons x rest ih =>
    simp only [addMappingToDictionary.attrs] at h ⊢
    split at h
    · simp at h
    · rename_i attr hattr
      have hle := (addMappingToDictionary_attrs_interns _ _ _ _ h).le
      simp only [hattr, internAttribute_replay d D _ (hle.trans' hD)]
      exact ih _ h

theorem addMappingToDictionary_loop_replay (profile : v1experimental.Profile KV)
    (l : List v1experimental.Mapping) (d e D : ProfilesDictionary KV)
    (h : addMappingToDictionary.loop profile l d = some e) (hD : DictLe e D) :
    addMappingToDictionary.loop profile l D = some D := by
  induction l generalizing d with
  | nil => rfl
  | cons x rest ih =>
    simp only [addMappingToDictionary.loop] at h ⊢
    split at h
    · simp at h
    · rename_i filename hfn
      split at h
      · simp at h
      · rename_i d1 h1
        have hle3 := (addMappingToDictionary_loop_tables _ _ _ _ h).le
        have hle2 := internMapping_le d1
          { MemoryStart := x.MemoryStart, MemoryLimit := x.MemoryLimit,
            FileOffset := x.FileOffset,
            FilenameStrindex := toInt32 (internString d filename).2,
            HasFunctions := x.HasFunctions, HasFilenames := x.HasFilenames,
            HasLineNumbers := x.HasLineNumbers, HasInlineFrames := x.HasInlineFrames }
        have hle1 := (addMappingToDictionary_attrs_interns _ _ _ _ h1).le
        have h3D := hle3.trans' hD
        have h2D := hle2.trans' h3D
        have h1D := hle1.trans' h2D
        simp only [hfn, internString_replay d D _ h1D,
          addMappingToDictionary_attrs_replay profile _ _ d1 D h1 h2D,
          internMapping_replay d1 D _ h3D]
        exact ih _ h

theorem addFunctionToDictionary_loop_replay (profile : v1experimental.Profile KV)
    (l : List v1experimental.Function) (d e D : ProfilesDictionary KV)
    (h : addFunctionToDictionary.loop profile l d = some e) (hD : DictLe e D) :
    addFunctionToDictionary.loop profile l D = some D := by
  induction l generalizing d with
  | nil => rfl
  | cons x rest ih =>
    simp only [addFunctionToDictionary.loop] at h ⊢
    split at h
    · simp at h
    · rename_i name hn
      split at h
      · simp at h
      · rename_i systemName hs
        split at h
        · simp at h
        · rename_i filename hf
          have hle4 := (addFunctionToDictionary_loop_tables _ _ _ _ h).le
          have h4D := hle4.trans' hD
          have h3D := (internFunction_le _ _).trans' h4D
          have h2D := (internString_le _ filename).trans' h3D
          have h1D := (internString_le _ systemName).trans' h2D
          have e1 := internString_replay d D name h1D
          have e2 := internString_replay (internString d name).1 D systemName h2D
          have e3 := internString_replay (internString (internString d name).1 systemName).1 D
            filename h3D
          have e4 := internFunction_replay _ D _ h4D
          simp only [hn, hs, hf, e1, e2, e3, e4]
          exact ih _ h

end

section
variable {KV : Type} [DecidableEq KV]
open v1development (ProfilesDictionary)

/-! ### The resolvers read only the tables they scan -/

theorem lookupMapping_congr (m : v1experimental.Mapping) (d D : ProfilesDictionary KV)
    (h : D.MappingTable = d.MappingTable) : lookupMapping m D = lookupMapping m d := by
  simp only [lookupMapping, h]

theorem lookupLocation_congr (loc : v1experimental.Location) (d D : ProfilesDictionary KV)
    (h : D.LocationTable = d.LocationTable) : lookupLocation loc D = lookupLocation loc d := by
  simp only [lookupLocation, h]

theorem functionEqual_congr (f : v1experimental.Function) (df : v1development.Function)
    (profile : v1experimental.Profile KV) (d D : ProfilesDictionary KV)
    (h : D.StringTable = d.StringTable) :
    functionEqual f df profile D = functionEqual f df profile d := by
  simp only [functionEqual, h]

theorem lookupFunction_loop_congr (f : v1experimental.Function)
    (profile : v1experimental.Profile KV) (d D : ProfilesDictionary KV)
    (h : D.StringTable = d.StringTable) (l : List v1development.Function) (i : Nat) :
    lookupFunction.loop f profile D l i = lookupFunction.loop f profile d l i := by
  induction l generalizing i with
  | nil => rfl
  | cons x rest ih =>
    simp only [lookupFunction.loop, functionEqual_congr f x profile d D h, ih]

theorem lookupFunction_congr (f : v1experimental.Function)
    (profile : v1experimental.Profile KV) (d D : ProfilesDictionary KV)
    (hs : D.StringTable = d.StringTable) (hf : D.FunctionTable = d.FunctionTable) :
    lookupFunction f profile D = lookupFunction f profile d := by
  simp only [lookupFunction, hf, lookupFunction_loop_congr f profile d D hs]

theorem addLocationToDictionary_lines_congr (profile : v1experimental.Profile KV)
    (d D : ProfilesDictionary KV) (hs : D.StringTable = d.StringTable)
    (hf : D.FunctionTable = d.FunctionTable) (l : List v1experimental.Line) :
    addLocationToDictionary.lines profile D l = addLocationToDictionary.lines profile d l := by
  induction l with
  | nil => rfl
  | cons x rest ih =>
    simp only [addLocationToDictionary.lines, ih]
    split
    · rfl
    · rename_i function hf1
      rw [lookupFunction_congr function profile d D hs hf]

/-! ### Replaying the location and sample stages -/

theorem addLocationToDictionary_attrs_replay (profile : v1experimental.Profile KV)
    (l : List Nat) (d e D : ProfilesDictionary KV) (out : List Int)
    (h : addLocationToDictionary.attrs profile l d = some (out, e)) (hD : DictLe e D) :
    addLocationToDictionary.attrs profile l D = some (out, D) := by
  induction l generalizing d out with
  | nil =>
    simp only [addLocationToDictionary.attrs, Option.some.injEq, Prod.mk.injEq] at h
    obtain ⟨rfl, rfl⟩ := h
    rfl
  | cons x rest ih =>
    simp only [addLocationToDictionary.attrs] at h ⊢
    split at h
    · simp at h
    · rename_i attr hattr
      split at h
      · simp at h
      · rename_i o d1 h1
        simp only [Option.some.injEq, Prod.mk.injEq] at h
        obtain ⟨rfl, rfl⟩ := h
        have hle := (addLocationToDictionary_attrs_interns _ _ _ _ _ h1).le
        simp only [hattr, internAttribute_replay d D _ (hle.trans' hD), ih _ _ h1]

theorem addLocationToDictionary_loop_replay (profile : v1experimental.Profile KV)
    (l : List v1experimental.Location) (d e D : ProfilesDictionary KV) (out : List Int)
    (h : addLocationToDictionary.loop profile l d = some (out, e)) (hD : DictLe e D)
    (hm : D.MappingTable = d.MappingTable) (hf : D.FunctionTable = d.FunctionTable)
    (hs : D.StringTable = d.StringTable) :
    addLocationToDictionary.loop profile l D = some (out, D) := by
  induction l generalizing d out with
  | nil =>
    simp only [addLocationToDictionary.loop, Option.some.injEq, Prod.mk.injEq] at h
    obtain ⟨rfl, rfl⟩ := h
    rfl
  | cons x rest ih =>
    simp only [addLocationToDictionary.loop] at h ⊢
    split at h
    · simp at h
    · rename_i mapping hmap
      split at h
      · simp at h
      · rename_i dlines hlines
        split at h
        · simp at h
        · rename_i attrIdx d1 h1
          split at h
          · simp at h
          · rename_i result d2 h2
            simp only [Option.some.injEq, Prod.mk.injEq] at h
            obtain ⟨rfl, rfl⟩ := h
            have hI1 := addLocationToDictionary_attrs_interns _ _ _ _ _ h1
            have hI2 := addLocationToDictionary_loop_tables _ _ _ _ _ h2
            have h2D := hI2.le.trans' hD
            have h1D := (internLocation_le _ _).trans' h2D
            have e1 := addLocationToDictionary_attrs_replay profile _ d d1 D attrIdx h1 h1D
            have e2 := internLocation_replay d1 D _ h2D
            have hm1 : d1.MappingTable = d.MappingTable :=
              hI1.mapping_eq (fun _ hx => hx.elim)
            have hf1 : d1.FunctionTable = d.FunctionTable :=
              hI1.function_eq (fun _ hx => hx.elim)
            have hs1 : d1.StringTable = d.StringTable :=
              hI1.string_eq (fun _ hx => hx.elim)
            have e3 := ih _ _ h2 (show D.MappingTable = (internLocation d1 _).1.MappingTable
                from hm.trans hm1.symm)
              (show D.FunctionTable = (internLocation d1 _).1.FunctionTable
                from hf.trans hf1.symm)
              (show D.StringTable = (internLocation d1 _).1.StringTable from hs.trans hs1.symm)
            simp only [hmap, addLocationToDictionary_lines_congr profile d D hs hf, hlines,
              lookupMapping_congr mapping d D hm, e1, e2, e3]

theorem addSamplesToDictionary_loop_replay (profile : v1experimental.Profile KV)
    (l : List v1experimental.Sample) (d e D : ProfilesDictionary KV)
    (out : List v1development.Sample)
    (h : addSamplesToDictionary.loop profile l d = some (out, e)) (hD : DictLe e D)
    (hl : D.LocationTable = d.LocationTable) :
    addSamplesToDictionary.loop profile l D = some (out, D) := by
  induction l generalizing d out with
  | nil =>
    simp only [addSamplesToDictionary.loop, Option.some.injEq, Prod.mk.injEq] at h
    obtain ⟨rfl, rfl⟩ := h
    rfl
  | cons x rest ih =>
    simp only [addSamplesToDictionary.loop] at h ⊢
    split at h
    · simp at h
    · rename_i location hloc
      split at h
      · rename_i hlt
        split at h
        · simp at h
        · rename_i link hlink
          split at h
          · simp at h
          · rename_i result d1 hrest
            simp only [Option.some.injEq, Prod.mk.injEq] at h
            obtain ⟨rfl, rfl⟩ := h
            have hI := addSamplesToDictionary_loop_links _ _ _ _ _ hrest
            have e1 := internLink_replay d D _ (hI.le.trans' hD)
            have e2 := ih _ _ hrest (show D.LocationTable = (internLink d _).1.LocationTable
              from hl)
            simp only [hloc, hlt, if_true, hlink, e1, e2, lookupLocation_congr location d D hl]
      · rename_i hlt
        split at h
        · simp at h
        · rename_i result d1 hrest
          simp only [Option.some.injEq, Prod.mk.injEq] at h
          obtain ⟨rfl, rfl⟩ := h
          simp only [hloc, hlt, if_false, ih _ _ hrest hl, lookupLocation_congr location d D hl]

/-! ### Replaying the converters -/

theorem convertAttributes_replay (l : List KV) (d D : ProfilesDictionary KV)
    (h : DictLe (convertAttributes l d).2 D) :
    convertAttributes l D = ((convertAttributes l d).1, D) := by
  induction l generalizing d with
  | nil => rfl
  | cons x rest ih =>
    simp only [convertAttributes] at h ⊢
    have hle := (convertAttributes_interns rest (internAttribute d x).1).le
    simp only [internAttribute_replay d D _ (hle.trans' h), ih _ h]

theorem convertComments_replay (l : List Int) (st : List String)
    (d e D : ProfilesDictionary KV) (out : List Int)
    (h : convertComments l st d = some (out, e)) (hD : DictLe e D) :
    convertComments l st D = some (out, D) := by
  induction l generalizing d out with
  | nil =>
    simp only [convertComments, Option.some.injEq, Prod.mk.injEq] at h
    obtain ⟨rfl, rfl⟩ := h
    rfl
  | cons x rest ih =>
    simp only [convertComments] at h ⊢
    split at h
    · simp at h
    · rename_i s hs
      split at h
      · simp at h
      · rename_i o d1 h1
        simp only [Option.some.injEq, Prod.mk.injEq] at h
        obtain ⟨rfl, rfl⟩ := h
        have hle := (convertComments_interns _ _ _ _ _ h1).le
        simp only [hs, internString_replay d D _ (hle.trans' hD), ih _ _ h1]

theorem convertValueType_replay (v : Option v1experimental.ValueType) (st : List String)
    (d e D : ProfilesDictionary KV) (o : v1development.ValueType)
    (h : convertValueType v st d = some (o, e)) (hD : DictLe e D) :
    convertValueType v st D = some (o, D) := by
  unfold convertValueType at h ⊢
  split at h
  · simp at h
  · rename_i x
    split at h
    · simp at h
    · rename_i t ht
      split at h
      · simp at h
      · rename_i u hu
        simp only [Option.some.injEq, Prod.mk.injEq] at h
        obtain ⟨rfl, rfl⟩ := h
        have h1D := (internString_le _ u).trans' hD
        simp only [ht, hu, internString_replay d D t h1D,
          internString_replay (internString d t).1 D u hD]

theorem convertSampleType_replay (l : List v1experimental.ValueType) (st : List String)
    (d e D : ProfilesDictionary KV) (out : List v1development.ValueType)
    (h : convertSampleType l st d = some (out, e)) (hD : DictLe e D) :
    convertSampleType l st D = some (out, D) := by
  induction l generalizing d out with
  | nil =>
    simp only [convertSampleType, Option.some.injEq, Prod.mk.injEq] at h
    obtain ⟨rfl, rfl⟩ := h
    rfl
  | cons x rest ih =>
    simp only [convertSampleType] at h ⊢
    split at h
    · simp at h
    · rename_i v d1 h1
      split at h
      · simp at h
      · rename_i o d2 h2
        simp only [Option.some.injEq, Prod.mk.injEq] at h
        obtain ⟨rfl, rfl⟩ := h
        have hle := (convertSampleType_interns _ _ _ _ _ h2).le
        simp only [convertValueType_replay (some x) st d d1 D v h1 (hle.trans' hD), ih _ _ h2]

end

section
variable {KV : Type} [DecidableEq KV]
open v1development (ProfilesDictionary)

/-! ### Converting a profile a second time -/

theorem Interns.strToTables {S : String → Prop} {f m l a k : Prop}
    {d e : ProfilesDictionary KV} (h : Interns (strPred S) d e) :
    Interns (tablesPred S f m l a k) d e :=
  h.mono (fun _ hx => hx) (fun _ hx => hx.elim) (fun _ hx => hx.elim) (fun _ hx => hx.elim)
    (fun _ hx => hx.elim) (fun _ hx => hx.elim)

theorem Interns.attrToTables {S : String → Prop} {f m l k : Prop}
    {d e : ProfilesDictionary KV} (h : Interns attrPred d e) :
    Interns (tablesPred S f m l True k) d e :=
  h.mono (fun _ hx => hx.elim) (fun _ hx => hx.elim) (fun _ hx => hx.elim) (fun _ hx => hx.elim)
    (fun _ _ => trivial) (fun _ hx => hx.elim)

theorem Interns.linkToTables {S : String → Prop} {f m l a : Prop}
    {d e : ProfilesDictionary KV} (h : Interns linkPred d e) :
    Interns (tablesPred S f m l a True) d e :=
  h.mono (fun _ hx => hx.elim) (fun _ hx => hx.elim) (fun _ hx => hx.elim) (fun _ hx => hx.elim)
    (fun _ hx => hx.elim) (fun _ _ => trivial)

theorem Interns.locToTables {S : String → Prop} {f m k : Prop}
    {d e : ProfilesDictionary KV} (h : Interns locPred d e) :
    Interns (tablesPred S f m True True k) d e :=
  h.mono (fun _ hx => hx.elim) (fun _ hx => hx.elim) (fun _ hx => hx.elim) (fun _ _ => trivial)
    (fun _ _ => trivial) (fun _ hx => hx.elim)

/-- After the sample stage only strings of the local string table, attributes and links
are interned. -/
theorem convertProfiles_body_tail (pc : v1experimental.ProfileContainer KV)
    (profile : v1experimental.Profile KV) (d6 d7 d8 d9 d10 : ProfilesDictionary KV)
    (sm : List v1development.Sample) (sty : List v1development.ValueType)
    (pt : v1development.ValueType) (cm : List Int) (s : String)
    (h7 : addSamplesToDictionary.loop profile profile.Sample d6 = some (sm, d7))
    (h8 : convertSampleType profile.SampleType profile.StringTable d7 = some (sty, d8))
    (h9 : convertValueType profile.PeriodType profile.StringTable d8 = some (pt, d9))
    (h10 : convertComments profile.Comment profile.StringTable d9 = some (cm, d10))
    (hs : sliceAt profile.StringTable profile.DefaultSampleType = some s) :
    Interns linkPred d6 d7 ∧
    Interns (strPred (fun s => s ∈ profile.StringTable)) d7 d8 ∧
    Interns (strPred (fun s => s ∈ profile.StringTable)) d8 d9 ∧
    Interns (strPred (fun s => s ∈ profile.StringTable)) d9 d10 ∧
    Interns (strPred (fun s => s ∈ profile.StringTable)) d10 (internString d10 s).1 ∧
    Interns attrPred (internString d10 s).1
      (convertAttributes pc.Attributes (internString d10 s).1).2 ∧
    Interns (tablesPred (fun s => s ∈ profile.StringTable) False False False True True) d6
      (convertAttributes pc.Attributes (internString d10 s).1).2 := by
  have hI6 := addSamplesToDictionary_loop_links _ _ _ _ _ h7
  have hI7 := convertSampleType_interns _ _ _ _ _ h8
  have hI8 := convertValueType_interns _ _ _ _ _ h9
  have hI9 := convertComments_interns _ _ _ _ _ h10
  have hI10 : Interns (strPred (fun s => s ∈ profile.StringTable)) d10 (internString d10 s).1 :=
    Interns.str _ (Interns.refl d10) (sliceAt_mem _ _ _ hs)
  have hI11 := convertAttributes_interns pc.Attributes (internString d10 s).1
  exact ⟨hI6, hI7, hI8, hI9, hI10, hI11,
    (hI6.linkToTables.trans (hI7.strToTables.trans hI8.strToTables)).trans
      ((hI9.strToTables.trans hI10.strToTables).trans hI11.attrToTables)⟩

theorem convertProfiles_body_replay (pc : v1experimental.ProfileContainer KV)
    (d e : ProfilesDictionary KV) (dp : v1development.Profile)
    (h : convertProfiles.body pc d = some (dp, e)) :
    convertProfiles.body pc e = some (dp, e) := by
  obtain ⟨profile, d4, d5, li, d6, sm, d7, sty, d8, pt, d9, cm, d10, s, hp, h4, h5, h6, h7,
    h8, h9, h10, hs, he, hdp⟩ := (convertProfiles_body_iff pc d e dp).1 h
  obtain ⟨hI6, hI7, hI8, hI9, hI10, hI11, htail⟩ :=
    convertProfiles_body_tail pc profile d6 d7 d8 d9 d10 sm sty pt cm s h7 h8 h9 h10 hs
  rw [← he] at hI11 htail
  -- the stages before the samples
  have hI0 := addLinkToDictionary_loop_interns profile.LinkTable d
  have hI1 := addStringToDictionary_loop_interns (fun _ => True) profile.StringTable
    (fun _ _ => trivial) (addLinkToDictionary.loop profile.LinkTable d)
  have hI2 := addAttributeToDictionary_loop_interns profile.AttributeTable
    (addStringToDictionary.loop profile.StringTable
      (addLinkToDictionary.loop profile.LinkTable d))
  have hI3 := addMappingToDictionary_loop_tables _ _ _ _ h4
  have hI4 := addFunctionToDictionary_loop_tables _ _ _ _ h5
  have hI5 := addLocationToDictionary_loop_tables _ _ _ _ _ h6
  -- every stage result is below the final dictionary
  have l10 : DictLe (internString d10 s).1 e := hI11.le
  have l9 : DictLe d10 e := hI10.le.trans' l10
  have l8 : DictLe d9 e := hI9.le.trans' l9
  have l7 : DictLe d8 e := hI8.le.trans' l8
  have l6 : DictLe d7 e := hI7.le.trans' l7
  have l5 : DictLe d6 e := hI6.le.trans' l6
  have l4 : DictLe d5 e := hI5.le.trans' l5
  have l3 : DictLe d4 e := hI4.le.trans' l4
  have l2 := hI3.le.trans' l3
  have l1 := hI2.le.trans' l2
  have l0 := hI1.le.trans' l1
  -- the local strings are in the table from the string stage on
  have hmem5 : ∀ x ∈ profile.StringTable, x ∈ d5.StringTable := fun x hx =>
    (hI2.le.trans' (hI3.le.trans' hI4.le)).strings.subset
      (addStringToDictionary_loop_mem profile.StringTable _ x hx)
  have hmem6 : ∀ x ∈ profile.StringTable, x ∈ d6.StringTable := fun x hx =>
    hI5.le.strings.subset (hmem5 x hx)
  -- tables that stay as they are from the location stage on
  have hm65 : d6.MappingTable = d5.MappingTable := hI5.mapping_eq (fun _ hx => hx.elim)
  have hf65 : d6.FunctionTable = d5.FunctionTable := hI5.function_eq (fun _ hx => hx.elim)
  have hs65 : d6.StringTable = d5.StringTable := hI5.string_eq (fun _ hx => hx.elim)
  have hme : e.MappingTable = d6.MappingTable := htail.mapping_eq (fun _ hx => hx.elim)
  have hfe : e.FunctionTable = d6.FunctionTable := htail.function_eq (fun _ hx => hx.elim)
  have hse : e.StringTable = d6.StringTable := htail.string_eq (fun x hx => hmem6 x hx)
  have hle : e.LocationTable = d6.LocationTable := htail.location_eq (fun _ hx => hx.elim)
  -- each stage replayed on the final dictionary
  have r0 := addLinkToDictionary_loop_replay profile.LinkTable d e l0
  have r1 := addStringToDictionary_loop_replay profile.StringTable _ e l1
  have r2 := addAttributeToDictionary_loop_replay profile.AttributeTable _ e l2
  have r3 := addMappingToDictionary_loop_replay profile _ _ d4 e h4 l3
  have r4 := addFunctionToDictionary_loop_replay profile _ _ d5 e h5 l4
  have r5 := addLocationToDictionary_loop_replay profile _ d5 d6 e li h6 l5
    (hme.trans hm65) (hfe.trans hf65) (hse.trans hs65)
  have r6 := addSamplesToDictionary_loop_replay profile _ d6 d7 e sm h7 l6 hle
  have r7 := convertSampleType_replay _ _ d7 d8 e sty h8 l7
  have r8 := convertValueType_replay _ _ d8 d9 e pt h9 l8
  have r9 := convertComments_replay _ _ d9 d10 e cm h10 l9
  have r10 := internString_replay d10 e s l10
  have r11 := convertAttributes_replay pc.Attributes (internString d10 s).1 e
    (by rw [← he]; exact DictLe.rfl' e)
  refine (convertProfiles_body_iff pc e e dp).2
    ⟨profile, e, e, li, e, sm, e, sty, e, pt, e, cm, e, s, hp, ?_, r4, r5, r6, r7, r8, r9, hs,
      ?_, ?_⟩
  · rw [r0, r1, r2, r3]
  · rw [r10, r11]
  · rw [r10, r11, hdp]

/-- C20: converting a profile a second time changes nothing.  For every dictionary `d`
and every profile container on which the conversion started from `d` completes, with
dictionary `d1` and converted profile `dp`, the conversion of the same container started
from `d1` completes too, leaves every table of `d1` as it is, and produces the same
converted profile `dp`. -/
theorem convert_profile_idempotent (pc : v1experimental.ProfileContainer KV)
    (d d1 : ProfilesDictionary KV) (dp : v1development.Profile)
    (h : convertProfiles.body pc d = some (dp, d1)) :
    convertProfiles.body pc d1 = some (dp, d1) :=
  convertProfiles_body_replay pc d d1 dp h

end

/-- Instance of C20: the first container of the sample batch, converted again from the
dictionary its first conversion left. -/
theorem convert_profile_idempotent_witness :
    convertProfiles.body sampleContainerA {} = some (sampleOutA, sampleDictionaryA) ∧
    convertProfiles.body sampleContainerA sampleDictionaryA =
      some (sampleOutA, sampleDictionaryA) :=
  ⟨sampleContainerA_run,
    convert_profile_idempotent sampleContainerA {} sampleDictionaryA sampleOutA
      sampleContainerA_run⟩

section
variable {KV : Type} [DecidableEq KV]
open v1development (ProfilesDictionary)

/-! ### Each stage returns on in-range input -/

theorem sliceAt_of_valid {β : Type} (l : List β) (i : Int) (h : ValidIdx l.length i) :
    ∃ x, sliceAt l i = some x := by
  obtain ⟨h0, h1⟩ := h
  have hlt : i.toNat < l.length := by omega
  exact ⟨l[i.toNat], by simp only [sliceAt, if_neg (not_lt.2 h0), List.getElem?_eq_getElem hlt]⟩

theorem addMappingToDictionary_attrs_total (profile : v1experimental.Profile KV)
    (l : List Nat) (hl : ∀ a ∈ l, a < profile.AttributeTable.length)
    (d : ProfilesDictionary KV) : ∃ e, addMappingToDictionary.attrs profile l d = some e := by
  induction l generalizing d with
  | nil => exact ⟨d, rfl⟩
  | cons x rest ih =>
    have hx := hl x (List.mem_cons_self _ _)
    simp only [addMappingToDictionary.attrs, List.getElem?_eq_getElem hx]
    exact ih (fun a ha => hl a (List.mem_cons_of_mem _ ha)) _

theorem addMappingToDictionary_loop_total (profile : v1experimental.Profile KV)
    (l : List v1experimental.Mapping)
    (hl : ∀ m ∈ l, ValidIdx profile.StringTable.length m.Filename ∧
      ∀ a ∈ m.Attributes, a < profile.AttributeTable.length)
    (d : ProfilesDictionary KV) : ∃ e, addMappingToDictionary.loop profile l d = some e := by
  induction l generalizing d with
  | nil => exact ⟨d, rfl⟩
  | cons x rest ih =>
    obtain ⟨hf, ha⟩ := hl x (List.mem_cons_self _ _)
    obtain ⟨fn, hfn⟩ := sliceAt_of_valid _ _ hf
    obtain ⟨d1, h1⟩ := addMappingToDictionary_attrs_total profile x.Attributes ha
      (internString d fn).1
    simp only [addMappingToDictionary.loop, hfn, h1]
    exact ih (fun a ha => hl a (List.mem_cons_of_mem _ ha)) _

theorem addFunctionToDictionary_loop_total (profile : v1experimental.Profile KV)
    (l : List v1experimental.Function)
    (hl : ∀ f ∈ l, ValidIdx profile.StringTable.length f.Name ∧
      ValidIdx profile.StringTable.length f.SystemName ∧
      ValidIdx profile.StringTable.length f.Filename)
    (d : ProfilesDictionary KV) : ∃ e, addFunctionToDictionary.loop profile l d = some e := by
  induction l generalizing d with
  | nil => exact ⟨d, rfl⟩
  | cons x rest ih =>
    obtain ⟨h1, h2, h3⟩ := hl x (List.mem_cons_self _ _)
    obtain ⟨a, ha⟩ := sliceAt_of_valid _ _ h1
    obtain ⟨b, hb⟩ := sliceAt_of_valid _ _ h2
    obtain ⟨c, hc⟩ := sliceAt_of_valid _ _ h3
    simp only [addFunctionToDictionary.loop, ha, hb, hc]
    exact ih (fun a ha => hl a (List.mem_cons_of_mem _ ha)) _

theorem functionEqual_total (f : v1experimental.Function) (df : v1development.Function)
    (profile : v1experimental.Profile KV) (d : ProfilesDictionary KV)
    (hf : ValidIdx profile.StringTable.length f.Name ∧
      ValidIdx profile.StringTable.length f.SystemName ∧
      ValidIdx profile.StringTable.length f.Filename)
    (hv : FunctionValid d df) : ∃ b, functionEqual f df profile d = some b := by
  obtain ⟨a1, ha1⟩ := sliceAt_of_valid _ _ hf.1
  obtain ⟨a2, ha2⟩ := sliceAt_of_valid _ _ hf.2.1
  obtain ⟨a3, ha3⟩ := sliceAt_of_valid _ _ hf.2.2
  obtain ⟨b1, hb1⟩ := sliceAt_of_valid _ _ hv.1
  obtain ⟨b2, hb2⟩ := sliceAt_of_valid _ _ hv.2.1
  obtain ⟨b3, hb3⟩ := sliceAt_of_valid _ _ hv.2.2
  simp only [functionEqual, ha1, ha2, ha3, hb1, hb2, hb3]
  split_ifs <;> exact ⟨_, rfl⟩

theorem lookupFunction_loop_total (f : v1experimental.Function)
    (profile : v1experimental.Profile KV) (d : ProfilesDictionary KV)
    (hf : ValidIdx profile.StringTable.length f.Name ∧
      ValidIdx profile.StringTable.length f.SystemName ∧
      ValidIdx profile.StringTable.length f.Filename)
    (l : List v1development.Function) (hl : ∀ df ∈ l, FunctionValid d df) (i : Nat) :
    ∃ r, lookupFunction.loop f profile d l i = some r := by
  induction l generalizing i with
  | nil => exact ⟨-1, rfl⟩
  | cons x rest ih =>
    obtain ⟨b, hb⟩ := functionEqual_total f x profile d hf (hl x (List.mem_cons_self _ _))
    cases b with
    | true => exact ⟨toInt32 i, by simp only [lookupFunction.loop, hb]⟩
    | false =>
      obtain ⟨r, hr⟩ := ih (fun a ha => hl a (List.mem_cons_of_mem _ ha)) (i + 1)
      exact ⟨r, by simp only [lookupFunction.loop, hb, hr]⟩

theorem addLocationToDictionary_lines_total (profile : v1experimental.Profile KV)
    (d : ProfilesDictionary KV) (hin : ProfileInRange profile) (hv : FunctionsValid d)
    (l : List v1experimental.Line)
    (hl : ∀ ln ∈ l, ln.FunctionIndex < profile.Function.length) :
    ∃ out, addLocationToDictionary.lines profile d l = some out := by
  induction l with
  | nil => exact ⟨[], rfl⟩
  | cons x rest ih =>
    have hx := hl x (List.mem_cons_self _ _)
    have hget := List.getElem?_eq_getElem hx
    obtain ⟨r, hr⟩ := lookupFunction_loop_total profile.Function[x.FunctionIndex] profile d
      (hin.functions _ (List.getElem_mem _)) d.FunctionTable hv 0
    obtain ⟨out, hout⟩ := ih (fun a ha => hl a (List.mem_cons_of_mem _ ha))
    exact ⟨_, by simp only [addLocationToDictionary.lines, hget, lookupFunction, hr, hout]; rfl⟩

theorem addLocationToDictionary_attrs_total (profile : v1experimental.Profile KV)
    (l : List Nat) (hl : ∀ a ∈ l, a < profile.AttributeTable.length)
    (d : ProfilesDictionary KV) :
    ∃ out e, addLocationToDictionary.attrs profile l d = some (out, e) := by
  induction l generalizing d with
  | nil => exact ⟨[], d, rfl⟩
  | cons x rest ih =>
    have hx := hl x (List.mem_cons_self _ _)
    obtain ⟨out, e, h⟩ := ih (fun a ha => hl a (List.mem_cons_of_mem _ ha))
      (internAttribute d profile.AttributeTable[x]).1
    exact ⟨_, _, by
      simp only [addLocationToDictionary.attrs, List.getElem?_eq_getElem hx, h]; rfl⟩

theorem FunctionsValid.congr {d e : ProfilesDictionary KV} (h : FunctionsValid d)
    (hf : e.FunctionTable = d.FunctionTable) (hs : e.StringTable = d.StringTable) :
    FunctionsValid e := by
  intro df hdf
  rw [hf] at hdf
  have := h df hdf
  simpa only [FunctionValid, hs] using this

theorem FunctionValid.monoValid {d e : ProfilesDictionary KV} {df : v1development.Function}
    (h : FunctionValid d df) (hle : DictLe d e) : FunctionValid e df := by
  have hlen : d.StringTable.length ≤ e.StringTable.length := hle.strings.length_le
  obtain ⟨⟨a1, a2⟩, ⟨b1, b2⟩, ⟨c1, c2⟩⟩ := h
  exact ⟨⟨a1, by omega⟩, ⟨b1, by omega⟩, ⟨c1, by omega⟩⟩

theorem FunctionsValid.monoTable {d e : ProfilesDictionary KV} (h : FunctionsValid d)
    (hf : e.FunctionTable = d.FunctionTable) (hle : DictLe d e) : FunctionsValid e := by
  intro df hdf
  rw [hf] at hdf
  exact (h df hdf).monoValid hle

theorem addLocationToDictionary_loop_total (profile : v1experimental.Profile KV)
    (hin : ProfileInRange profile) (l : List v1experimental.Location)
    (hl : ∀ x ∈ l, x ∈ profile.Location) (d : ProfilesDictionary KV)
    (hv : FunctionsValid d) :
    ∃ out e, addLocationToDictionary.loop profile l d = some (out, e) := by
  induction l generalizing d with
  | nil => exact ⟨[], d, rfl⟩
  | cons x rest ih =>
    obtain ⟨hm, hln, ha⟩ := hin.locations x (hl x (List.mem_cons_self _ _))
    obtain ⟨dlines, hlines⟩ := addLocationToDictionary_lines_total profile d hin hv x.Line hln
    obtain ⟨attrIdx, d1, h1⟩ := addLocationToDictionary_attrs_total profile x.Attributes ha d
    have hI1 := addLocationToDictionary_attrs_interns _ _ _ _ _ h1
    have hv1 : FunctionsValid d1 :=
      hv.congr (hI1.function_eq (fun _ hx => hx.elim)) (hI1.string_eq (fun _ hx => hx.elim))
    obtain ⟨out, e, h2⟩ := ih (fun a ha => hl a (List.mem_cons_of_mem _ ha))
      (internLocation d1
        { MappingIndex :=
            if lookupMapping profile.Mapping[x.MappingIndex] d ≥ 0 then
              some (lookupMapping profile.Mapping[x.MappingIndex] d) else none
          Address := x.Address
          Line := dlines
          IsFolded := x.IsFolded
          AttributeIndices := attrIdx }).1 (hv1.congr rfl rfl)
    exact ⟨_, _, by
      simp only [addLocationToDictionary.loop, List.getElem?_eq_getElem hm, hlines, h1, h2]; rfl⟩

theorem addSamplesToDictionary_loop_total (profile : v1experimental.Profile KV)
    (l : List v1experimental.Sample)
    (hl : ∀ s ∈ l, s.LocationsStartIndex < profile.Location.length ∧ s.Link < 2 ^ 63)
    (d : ProfilesDictionary KV) :
    ∃ out e, addSamplesToDictionary.loop profile l d = some (out, e) := by
  induction l generalizing d with
  | nil => exact ⟨[], d, rfl⟩
  | cons x rest ih =>
    obtain ⟨hloc, hlink⟩ := hl x (List.mem_cons_self _ _)
    have hrest := ih (fun a ha => hl a (List.mem_cons_of_mem _ ha))
    by_cases hlt : (profile.LinkTable.length : Int) > toInt64 x.Link
    · have hlt' : x.Link < profile.LinkTable.length := by
        rw [toInt64_of_lt _ hlink] at hlt
        exact_mod_cast hlt
      obtain ⟨out, e, h2⟩ := hrest (internLink d (convertLink profile.LinkTable[x.Link])).1
      exact ⟨_, _, by
        simp only [addSamplesToDictionary.loop, List.getElem?_eq_getElem hloc, hlt, if_true,
          List.getElem?_eq_getElem hlt', h2]; rfl⟩
    · obtain ⟨out, e, h2⟩ := hrest d
      exact ⟨_, _, by
        simp only [addSamplesToDictionary.loop, List.getElem?_eq_getElem hloc, hlt, if_false,
          h2]; rfl⟩

theorem convertValueType_total (v : v1experimental.ValueType) (st : List String)
    (hv : ValidIdx st.length v.Type_ ∧ ValidIdx st.length v.Unit_)
    (d : ProfilesDictionary KV) : ∃ o e, convertValueType (some v) st d = some (o, e) := by
  obtain ⟨t, ht⟩ := sliceAt_of_valid _ _ hv.1
  obtain ⟨u, hu⟩ := sliceAt_of_valid _ _ hv.2
  exact ⟨_, _, by simp only [convertValueType, ht, hu]; rfl⟩

theorem convertSampleType_total (l : List v1experimental.ValueType) (st : List String)
    (hl : ∀ v ∈ l, ValidIdx st.length v.Type_ ∧ ValidIdx st.length v.Unit_)
    (d : ProfilesDictionary KV) : ∃ out e, convertSampleType l st d = some (out, e) := by
  induction l generalizing d with
  | nil => exact ⟨[], d, rfl⟩
  | cons x rest ih =>
    obtain ⟨o, d1, h1⟩ := convertValueType_total x st (hl x (List.mem_cons_self _ _)) d
    obtain ⟨out, e, h2⟩ := ih (fun a ha => hl a (List.mem_cons_of_mem _ ha)) d1
    exact ⟨_, _, by simp only [convertSampleType, h1, h2]; rfl⟩

theorem convertComments_total (l : List Int) (st : List String)
    (hl : ∀ c ∈ l, ValidIdx st.length c) (d : ProfilesDictionary KV) :
    ∃ out e, convertComments l st d = some (out, e) := by
  induction l generalizing d with
  | nil => exact ⟨[], d, rfl⟩
  | cons x rest ih =>
    obtain ⟨s, hs⟩ := sliceAt_of_valid _ _ (hl x (List.mem_cons_self _ _))
    obtain ⟨out, e, h2⟩ := ih (fun a ha => hl a (List.mem_cons_of_mem _ ha)) (internString d s).1
    exact ⟨_, _, by simp only [convertComments, hs, h2]; rfl⟩

/-! ### The function table keeps valid string indices -/

theorem addFunctionToDictionary_loop_valid (profile : v1experimental.Profile KV)
    (l : List v1experimental.Function) (d e D : ProfilesDictionary KV)
    (h : addFunctionToDictionary.loop profile l d = some e) (hD : DictLe e D)
    (hsmall : D.StringTable.length < 2 ^ 31)
    (hv : ∀ df ∈ d.FunctionTable, FunctionValid D df) :
    ∀ df ∈ e.FunctionTable, FunctionValid D df := by
  induction l generalizing d with
  | nil =>
    simp [addFunctionToDictionary.loop] at h; subst h
    exact hv
  | cons x rest ih =>
    simp only [addFunctionToDictionary.loop] at h
    split at h
    · simp at h
    · rename_i name hn
      split at h
      · simp at h
      · rename_i systemName hs
        split at h
        · simp at h
        · rename_i filename hf
          have hle4 := (addFunctionToDictionary_loop_tables _ _ _ _ h).le
          have h4D := hle4.trans' hD
          have h3D := (internFunction_le _ _).trans' h4D
          have h2D := (internString_le _ filename).trans' h3D
          have h1D := (internString_le _ systemName).trans' h2D
          refine ih _ h ?_
          intro df hdf
          rcases findInsert_mem _ _ _ hdf with hold | rfl
          · exact hv df hold
          · exact ⟨sliceAt_validIdx _ _ _
                (sliceAt_toInt32 _ _ (internString_at d name) h1D.strings hsmall),
              sliceAt_validIdx _ _ _
                (sliceAt_toInt32 _ _ (internString_at _ systemName) h2D.strings hsmall),
              sliceAt_validIdx _ _ _
                (sliceAt_toInt32 _ _ (internString_at _ filename) h3D.strings hsmall)⟩

end

section
variable {KV : Type} [DecidableEq KV]
open v1development (ProfilesDictionary)

/-! ### The conversion returns on in-range input -/

theorem insertAll_length_le (acc l : List String) : acc.length ≤ (insertAll acc l).length := by
  rw [insertAll_eq, List.length_append]
  exact Nat.le_add_right _ _

theorem convertProfiles_body_total (pc : v1experimental.ProfileContainer KV)
    (profile : v1experimental.Profile KV) (d : ProfilesDictionary KV)
    (hp : pc.Profile = some profile) (hr : ProfileInRange profile) (hv : FunctionsValid d)
    (hsz : (insertAll d.StringTable profile.StringTable).length < 2 ^ 31) :
    ∃ dp e, convertProfiles.body pc d = some (dp, e) ∧ FunctionsValid e ∧
      e.StringTable = insertAll d.StringTable profile.StringTable := by
  have hI0 := addLinkToDictionary_loop_interns profile.LinkTable d
  have hI1 := addStringToDictionary_loop_interns (fun _ => True) profile.StringTable
    (fun _ _ => trivial) (addLinkToDictionary.loop profile.LinkTable d)
  have hI2 := addAttributeToDictionary_loop_interns profile.AttributeTable
    (addStringToDictionary.loop profile.StringTable
      (addLinkToDictionary.loop profile.LinkTable d))
  obtain ⟨d4, h4⟩ := addMappingToDictionary_loop_total profile profile.Mapping hr.mappings
    (addAttributeToDictionary.loop profile.AttributeTable
      (addStringToDictionary.loop profile.StringTable
        (addLinkToDictionary.loop profile.LinkTable d)))
  obtain ⟨d5, h5⟩ := addFunctionToDictionary_loop_total profile profile.Function hr.functions d4
  have hI3 := addMappingToDictionary_loop_tables _ _ _ _ h4
  have hI4 := addFunctionToDictionary_loop_tables _ _ _ _ h5
  -- the string table is complete after the string stage
  have hs0 := hI0.string_eq (fun _ hx => hx.elim)
  have hs1 := addStringToDictionary_loop_strings profile.StringTable
    (addLinkToDictionary.loop profile.LinkTable d)
  have hmem1 := addStringToDictionary_loop_mem profile.StringTable
    (addLinkToDictionary.loop profile.LinkTable d)
  have hs2 := hI2.string_eq (fun _ hx => hx.elim)
  have hs3 : d4.StringTable = _ := hI3.string_eq (fun s hs => by rw [hs2]; exact hmem1 s hs)
  have hs4 : d5.StringTable = d4.StringTable :=
    hI4.string_eq (fun s hs => by rw [hs3, hs2]; exact hmem1 s hs)
  have hst5 : d5.StringTable = insertAll d.StringTable profile.StringTable := by
    rw [hs4, hs3, hs2, hs1, hs0]
  -- the function table is the initial one until the function stage
  have hf0 := hI0.function_eq (fun _ hx => hx.elim)
  have hf1 := hI1.function_eq (fun _ hx => hx.elim)
  have hf2 := hI2.function_eq (fun _ hx => hx.elim)
  have hf3 : d4.FunctionTable = _ := hI3.function_eq (fun _ hx => hx.elim)
  have hv4 : FunctionsValid d4 :=
    hv.monoTable (by rw [hf3, hf2, hf1, hf0]) (hI0.le.trans' (hI1.le.trans' (hI2.le.trans' hI3.le)))
  have hv5 : FunctionsValid d5 :=
    addFunctionToDictionary_loop_valid profile _ d4 d5 d5 h5 (DictLe.rfl' d5)
      (by rw [hst5]; exact hsz) (fun df hdf => (hv4 df hdf).monoValid hI4.le)
  obtain ⟨li, d6, h6⟩ := addLocationToDictionary_loop_total profile hr profile.Location
    (fun _ hx => hx) d5 hv5
  obtain ⟨sm, d7, h7⟩ := addSamplesToDictionary_loop_total profile profile.Sample hr.samples d6
  obtain ⟨sty, d8, h8⟩ := convertSampleType_total profile.SampleType profile.StringTable
    hr.sampleType d7
  obtain ⟨v, hpv, hvv⟩ := hr.periodType
  obtain ⟨pt, d9, h9⟩ := convertValueType_total v profile.StringTable hvv d8
  rw [← hpv] at h9
  obtain ⟨cm, d10, h10⟩ := convertComments_total profile.Comment profile.StringTable
    hr.comments d9
  obtain ⟨s, hs⟩ := sliceAt_of_valid _ _ hr.defaultSampleType
  have hbody := (convertProfiles_body_iff pc d _ _).2
    ⟨profile, d4, d5, li, d6, sm, d7, sty, d8, pt, d9, cm, d10, s, hp, h4, h5, h6, h7, h8, h9,
      h10, hs, rfl, rfl⟩
  have hI5 := addLocationToDictionary_loop_tables _ _ _ _ _ h6
  obtain ⟨-, -, -, -, -, -, htail⟩ :=
    convertProfiles_body_tail pc profile d6 d7 d8 d9 d10 sm sty pt cm s h7 h8 h9 h10 hs
  have hmem6 : ∀ x ∈ profile.StringTable, x ∈ d6.StringTable := fun x hx =>
    (hI2.le.trans' (hI3.le.trans' (hI4.le.trans' hI5.le))).strings.subset (hmem1 x hx)
  refine ⟨_, _, hbody, ?_, ?_⟩
  · refine hv5.monoTable ?_ (hI5.le.trans' htail.le)
    rw [htail.function_eq (fun _ hx => hx.elim), hI5.function_eq (fun _ hx => hx.elim)]
  · rw [htail.string_eq (fun x hx => hmem6 x hx), hI5.string_eq (fun _ hx => hx.elim), hst5]

theorem convertProfiles_total (pcs : List (v1experimental.ProfileContainer KV))
    (hin : ∀ pc ∈ pcs, ContainerInRange pc) (d : ProfilesDictionary KV)
    (hv : FunctionsValid d)
    (hsz : (insertAll d.StringTable (containerStrings pcs)).length < 2 ^ 31) :
    ∃ out e, convertProfiles pcs d = some (out, e) ∧ FunctionsValid e := by
  induction pcs generalizing d with
  | nil => exact ⟨[], d, rfl, hv⟩
  | cons pc rest ih =>
    obtain ⟨profile, hp, hr⟩ := hin pc (List.mem_cons_self _ _)
    have hcs : containerStrings (pc :: rest) = profile.StringTable ++ containerStrings rest := by
      simp only [containerStrings, List.flatMap_cons, hp]
    rw [hcs, ← insertAll_append] at hsz
    obtain ⟨dp, d1, hb, hv1, hst1⟩ := convertProfiles_body_total pc profile d hp hr hv
      (lt_of_le_of_lt (insertAll_length_le _ _) hsz)
    obtain ⟨out, e, hrest, hve⟩ := ih (fun a ha => hin a (List.mem_cons_of_mem _ ha)) d1 hv1
      (by rw [hst1]; exact hsz)
    exact ⟨dp :: out, e, by simp only [convertProfiles, hb, hrest], hve⟩

/-! ### From the flattened list of containers back to the traversal -/

theorem convertProfiles_append_inv (l1 l2 : List (v1experimental.ProfileContainer KV))
    (d e : ProfilesDictionary KV) (o : List v1development.Profile)
    (h : convertProfiles (l1 ++ l2) d = some (o, e)) :
    ∃ o1 d1 o2, convertProfiles l1 d = some (o1, d1) ∧ convertProfiles l2 d1 = some (o2, e) ∧
      o = o1 ++ o2 := by
  induction l1 generalizing d o with
  | nil => exact ⟨[], d, o, rfl, h, rfl⟩
  | cons x rest ih =>
    rw [List.cons_append] at h
    unfold convertProfiles at h
    split at h
    · simp at h
    · rename_i dp d1 hb
      split at h
      · simp at h
      · rename_i o' d2 hr
        simp only [Option.some.injEq, Prod.mk.injEq] at h
        obtain ⟨rfl, rfl⟩ := h
        obtain ⟨o1, d1', o2, g1, g2, rfl⟩ := ih d1 o' hr
        exact ⟨dp :: o1, d1', o2, by simp only [convertProfiles, hb, g1], g2, rfl⟩

theorem convertScopeProfiles_of_flat (sps : List (v1experimental.ScopeProfiles KV))
    (d e : ProfilesDictionary KV) (o : List v1development.Profile)
    (h : convertProfiles (sps.flatMap fun sp => sp.Profiles) d = some (o, e)) :
    ∃ out, convertScopeProfiles sps d = some (out, e) := by
  induction sps generalizing d o with
  | nil =>
    simp only [List.flatMap_nil, convertProfiles, Option.some.injEq, Prod.mk.injEq] at h
    obtain ⟨rfl, rfl⟩ := h
    exact ⟨[], rfl⟩
  | cons x rest ih =>
    rw [List.flatMap_cons] at h
    obtain ⟨o1, d1, o2, g1, g2, -⟩ := convertProfiles_append_inv _ _ d e o h
    obtain ⟨out, hout⟩ := ih d1 o2 g2
    exact ⟨_, by simp only [convertScopeProfiles, g1, hout]; rfl⟩

theorem convert_loop_of_flat (rps : List (v1experimental.ResourceProfiles KV))
    (d e : ProfilesDictionary KV) (o : List v1development.Profile)
    (h : convertProfiles (inputContainers rps) d = some (o, e)) :
    ∃ out, convert.loop rps d = some (out, e) := by
  induction rps generalizing d o with
  | nil =>
    simp only [inputContainers, List.flatMap_nil, convertProfiles, Option.some.injEq,
      Prod.mk.injEq] at h
    obtain ⟨rfl, rfl⟩ := h
    exact ⟨[], rfl⟩
  | cons x rest ih =>
    simp only [inputContainers, List.flatMap_cons] at h
    obtain ⟨o1, d1, o2, g1, g2, -⟩ := convertProfiles_append_inv _ _ d e o h
    obtain ⟨sps, hsps⟩ := convertScopeProfiles_of_flat x.ScopeProfiles d d1 o1 g1
    obtain ⟨out, hout⟩ := ih d1 o2 g2
    exact ⟨_, by simp only [convert.loop, convertResourceProfiles, hsps, hout]; rfl⟩

theorem convert_loop_total (rps : List (v1experimental.ResourceProfiles KV))
    (hin : ∀ pc ∈ inputContainers rps, ContainerInRange pc)
    (hsz : (dedupKeepFirst (inputStrings rps)).length < 2 ^ 31) :
    ∃ out D, convert.loop rps ({} : ProfilesDictionary KV) = some (out, D) ∧
      FunctionsValid D := by
  obtain ⟨o, e, h, hv⟩ := convertProfiles_total (inputContainers rps) hin
    ({} : ProfilesDictionary KV) (fun _ hx => by simp at hx)
    (by
      show (insertAll [] (containerStrings (inputContainers rps))).length < 2 ^ 31
      rw [insertAll_nil]
      exact hsz)
  obtain ⟨out, hout⟩ := convert_loop_of_flat rps _ e o h
  exact ⟨out, e, hout, hv⟩

end

/-! ### A profile in range on which the conversion aborts -/

section
variable (st : List String) (a c : String) (n m : Nat) (k : Int)

theorem wide_stages (hnd : st.Nodup) (h0 : st[0]? = some a) :
    addMappingToDictionary (wideContainer st n m)
      (addAttributeToDictionary.loop (wideProfile st n m).AttributeTable
        (addStringToDictionary.loop (wideProfile st n m).StringTable
          (addLinkToDictionary.loop (wideProfile st n m).LinkTable
            ({} : v1development.ProfilesDictionary String)))) =
      some { StringTable := st, MappingTable := [{}] } := by
  have hp : (wideContainer st n m).Profile = some (wideProfile st n m) := rfl
  have h2 : addStringToDictionary.loop (wideProfile st n m).StringTable
      ({} : v1development.ProfilesDictionary String) = { StringTable := st } := by
    rw [addStringToDictionary_loop_eq]
    show ({ StringTable := insertAll [] st } : v1development.ProfilesDictionary String) = _
    rw [insertAll_nil, dedupKeepFirst_of_nodup st hnd]
  have h1 : addLinkToDictionary.loop (wideProfile st n m).LinkTable
      ({} : v1development.ProfilesDictionary String) = {} := rfl
  rw [h1, h2]
  simp only [addMappingToDictionary, hp]
  exact wide_addMapping st a n m hnd h0

theorem wide_addFunction_neg (hnd : st.Nodup) (h0 : st[0]? = some a)
    (hn : st[n]? = some c) (hk : toInt32 (n : Int) = k) (hk0 : k ≠ 0) :
    addFunctionToDictionary.loop (wideProfile st n m) (wideProfile st n m).Function
        ({ StringTable := st, MappingTable := [{}] } :
          v1development.ProfilesDictionary String) =
      some { StringTable := st, MappingTable := [{}],
             FunctionTable := [{}, { NameStrindex := k }] } := by
  have hs0 : sliceAt st 0 = some a := by simp [sliceAt, h0]
  have hsn : sliceAt st (n : Int) = some c := by rw [sliceAt_natCast]; exact hn
  have hi0 : ∀ d : v1development.ProfilesDictionary String, d.StringTable = st →
      internString d a = (d, 0) := fun d hd =>
    internString_of_nodup d 0 a (hd ▸ hnd) (hd ▸ h0)
  have hin : ∀ d : v1development.ProfilesDictionary String, d.StringTable = st →
      internString d c = (d, n) := fun d hd =>
    internString_of_nodup d n c (hd ▸ hnd) (hd ▸ hn)
  have step1 := addFunctionToDictionary_loop_step (wideProfile st n m) ⟨0, 0, 0, 0⟩
    [⟨n, 0, 0, 0⟩]
    ({ StringTable := st, MappingTable := [{}] } : v1development.ProfilesDictionary String)
    a a a 0 0 0 hs0 hs0 hs0 (hi0 _ rfl) (hi0 _ rfl) (hi0 _ rfl)
  have e1 : (internFunction
      ({ StringTable := st, MappingTable := [{}] } : v1development.ProfilesDictionary String)
      { NameStrindex := 0, SystemNameStrindex := 0, FilenameStrindex := 0, StartLine := 0 }).1 =
      { StringTable := st, MappingTable := [{}], FunctionTable := [{}] } := by
    simp [internFunction, findInsertProtoMessage, findEqual]
  have step2 := addFunctionToDictionary_loop_step (wideProfile st n m) ⟨n, 0, 0, 0⟩ []
    ({ StringTable := st, MappingTable := [{}], FunctionTable := [{}] } :
      v1development.ProfilesDictionary String)
    c a a n 0 0 hsn hs0 hs0 (hin _ rfl) (hi0 _ rfl) (hi0 _ rfl)
  have e2 : (internFunction
      ({ StringTable := st, MappingTable := [{}], FunctionTable := [{}] } :
        v1development.ProfilesDictionary String)
      { NameStrindex := k, SystemNameStrindex := 0, FilenameStrindex := 0, StartLine := 0 }).1 =
      { StringTable := st, MappingTable := [{}],
        FunctionTable := [{}, { NameStrindex := k }] } := by
    simp [internFunction, findInsertProtoMessage, findEqual, hk0, Ne.symm hk0]
  simp only [Nat.cast_zero, toInt32_zero] at step1
  rw [hk] at step2
  simp only [Nat.cast_zero, toInt32_zero] at step2
  rw [e1] at step1
  rw [e2] at step2
  exact step1.trans (step2.trans rfl)

theorem wide_addLocation_neg (h0 : st[0]? = some a) (hn : st[n]? = some c) (hne : c ≠ a)
    (hk : k < 0) :
    addLocationToDictionary.loop (wideProfile st n m) (wideProfile st n m).Location
        ({ StringTable := st, MappingTable := [{}],
           FunctionTable := [{}, { NameStrindex := k }] } :
          v1development.ProfilesDictionary String) = none := by
  have hs0 : sliceAt st 0 = some a := by simp [sliceAt, h0]
  have hsn : sliceAt st (n : Int) = some c := by rw [sliceAt_natCast]; exact hn
  have hsk : sliceAt st k = none := by simp [sliceAt, hk]
  simp [wideProfile, addLocationToDictionary.loop, addLocationToDictionary.lines,
    lookupMapping, lookupMapping.loop, lookupFunction, lookupFunction.loop, functionEqual, hs0,
    hsn, hsk, hne]

theorem wide_functionEqual_neg (hn : st[n]? = some c) (hk : k < 0) :
    functionEqual ⟨(n : Int), 0, 0, 0⟩ { NameStrindex := k } (wideProfile st n m)
      ({ StringTable := st, MappingTable := [{}],
         FunctionTable := [{}, { NameStrindex := k }] } :
        v1development.ProfilesDictionary String) = none := by
  have hsn : sliceAt st (n : Int) = some c := by rw [sliceAt_natCast]; exact hn
  have hsk : sliceAt st k = none := by simp [sliceAt, hk]
  simp only [functionEqual, wideProfile, hsn, hsk]

theorem wide_body_neg (hnd : st.Nodup) (h0 : st[0]? = some a) (hn : st[n]? = some c)
    (hne : c ≠ a) (hk : toInt32 (n : Int) = k) (hneg : k < 0) :
    convertProfiles.body (wideContainer st n m) {} = none := by
  have hp : (wideContainer st n m).Profile = some (wideProfile st n m) := rfl
  have h4 := wide_stages st a n m hnd h0
  have h5 := wide_addFunction_neg st a c n m k hnd h0 hn hk (ne_of_lt hneg)
  have h6 := wide_addLocation_neg st a c n m k h0 hn hne hneg
  cases hb : convertProfiles.body (wideContainer st n m) {} with
  | none => rfl
  | some r =>
    obtain ⟨dp, e⟩ := r
    obtain ⟨profile, d4, d5, li, d6, sm, d7, sty, d8, pt, d9, cm, d10, s, hp', g4, g5, g6, -⟩ :=
      (convertProfiles_body_iff _ _ _ _).1 hb
    rw [hp] at hp'
    simp only [Option.some.injEq] at hp'
    subst hp'
    simp only [addMappingToDictionary, hp] at h4
    rw [h4] at g4
    simp only [Option.some.injEq] at g4
    subst g4
    rw [h5] at g5
    simp only [Option.some.injEq] at g5
    subst g5
    rw [h6] at g6
    simp at g6

theorem wide_run_neg (hnd : st.Nodup) (h0 : st[0]? = some a) (hn : st[n]? = some c)
    (hne : c ≠ a) (hk : toInt32 (n : Int) = k) (hneg : k < 0) :
    convert.loop (wideBatch st n m).ResourceProfiles {} = none := by
  simp only [wideBatch, convert.loop, convertResourceProfiles, convertScopeProfiles,
    convertProfiles, wide_body_neg st a c n m k hnd h0 hn hne hk hneg]

theorem wide_inRange (hn : n < st.length) (hm : m < st.length) :
    BatchInRange (wideBatch st n m) := by
  have h0 : 0 < st.length := by omega
  intro pc hpc
  simp only [inputContainers, wideBatch, List.flatMap_cons, List.flatMap_nil, List.append_nil,
    List.mem_singleton] at hpc
  subst hpc
  refine ⟨wideProfile st n m, rfl, ?_⟩
  constructor
  · intro f hf
    simp only [wideProfile, List.mem_cons, List.mem_singleton, List.not_mem_nil, or_false] at hf
    rcases hf with rfl | rfl <;> simp [wideProfile, ValidIdx, h0, hn]
  · intro x hx
    simp only [wideProfile, List.mem_singleton] at hx
    subst hx
    simp [wideProfile, ValidIdx, h0]
  · intro x hx
    simp only [wideProfile, List.mem_singleton] at hx
    subst hx
    simp [wideProfile]
  · intro x hx
    simp [wideProfile] at hx
  · intro x hx
    simp [wideProfile] at hx
  · exact ⟨⟨0, 0⟩, rfl, by simp [wideProfile, ValidIdx, h0]⟩
  · intro x hx
    simp only [wideProfile, List.mem_singleton] at hx
    subst hx
    simp [wideProfile, ValidIdx, hm]
  · simp [wideProfile, ValidIdx, h0]

end

theorem bigName_pow31_ne : bigName 2147483648 ≠ bigName 0 :=
  fun h => absurd (bigName_injective h) (by norm_num)

/-- The conversion aborts on the batch whose only profile has the string table
`bigStrings` and a function named from position `2^31`. -/
theorem bigBatch_aborts :
    convert.loop (wideBatch bigStrings 2147483648 0).ResourceProfiles {} = none :=
  wide_run_neg bigStrings (bigName 0) (bigName 2147483648) 2147483648 0 (-2147483648)
    bigStrings_nodup (bigStrings_getElem? 0 (by norm_num))
    (bigStrings_getElem? 2147483648 (by norm_num)) bigName_pow31_ne toInt32_pow31
    (by norm_num)

theorem bigBatch_inRange : BatchInRange (wideBatch bigStrings 2147483648 0) :=
  wide_inRange bigStrings 2147483648 0 (by rw [bigStrings_length]; norm_num)
    (by rw [bigStrings_length]; norm_num)

section
variable {KV : Type} [DecidableEq KV]
open v1development (ProfilesDictionary)

/-- C12 (amended): for every input batch in which every profile and its period type are
present, every index field is within range of the local table it refers to (a sample's
link position below `2^63`), and the local string tables hold fewer than `2^31` distinct
strings, `convert` completes and produces an output batch. -/
theorem convert_completes (input : v1experimental.ProfilesData KV)
    (out : v1development.ProfilesData KV) (hin : BatchInRange input)
    (hsz : (dedupKeepFirst (inputStrings input.ResourceProfiles)).length < 2 ^ 31) :
    ∃ out', convert input out = some out' := by
  obtain ⟨rps, D, h, -⟩ := convert_loop_total input.ResourceProfiles hin hsz
  exact ⟨_, (convert_eq_some_iff input out _).2 ⟨rps, D, h, rfl⟩⟩

/-- C18 (amended): if every profile and its period type are present, every index field
is within range of the local table it refers to (a sample's link position below `2^63`),
and the local string tables hold fewer than `2^31` distinct strings, then the conversion
started on the empty dictionary runs to its end without an out-of-range access, every
entry of the shared function table has its three string indices in range of the shared
string table, and `functionEqual` returns on every source function and every entry of the
shared function table. -/
theorem convert_in_range_safe (input : v1experimental.ProfilesData KV)
    (hin : BatchInRange input)
    (hsz : (dedupKeepFirst (inputStrings input.ResourceProfiles)).length < 2 ^ 31) :
    ∃ out D, convert.loop input.ResourceProfiles ({} : ProfilesDictionary KV) = some (out, D) ∧
      FunctionsValid D ∧
      ∀ pc ∈ inputContainers input.ResourceProfiles, ∀ profile, pc.Profile = some profile →
        ∀ f ∈ profile.Function, ∀ df ∈ D.FunctionTable,
          ∃ b, functionEqual f df profile D = some b := by
  obtain ⟨rps, D, h, hv⟩ := convert_loop_total input.ResourceProfiles hin hsz
  refine ⟨rps, D, h, hv, ?_⟩
  intro pc hpc profile hp f hf df hdf
  obtain ⟨profile', hp', hr⟩ := hin pc hpc
  rw [hp] at hp'
  simp only [Option.some.injEq] at hp'
  subst hp'
  exact functionEqual_total f df profile D (hr.functions f hf) (hv df hdf)

end

theorem convert_eq_none_of_loop {KV : Type} [DecidableEq KV]
    (input : v1experimental.ProfilesData KV) (out : v1development.ProfilesData KV)
    (h : convert.loop input.ResourceProfiles {} = none) : convert input out = none := by
  simp only [convert, h]

theorem emptyTableBatch_aborts : convert emptyTableBatch {} = none := by decide

theorem missingMappingBatch_aborts : convert missingMappingBatch {} = none := by decide

theorem sampleBatch_inRange : BatchInRange sampleBatch := by
  intro pc hpc
  simp only [inputContainers, sampleBatch, List.flatMap_cons, List.flatMap_nil,
    List.append_nil, List.singleton_append, List.mem_cons, List.mem_singleton,
    List.not_mem_nil, or_false] at hpc
  rcases hpc with rfl | rfl
  · exact ⟨sampleProfileA, rfl, by constructor <;> simp [sampleProfileA, ValidIdx]⟩
  · exact ⟨sampleProfileB, rfl, by constructor <;> simp [sampleProfileB, ValidIdx]⟩

theorem sampleBatch_strings :
    (dedupKeepFirst (inputStrings sampleBatch.ResourceProfiles)).length < 2 ^ 31 := by
  decide

/-- Witness of C12 (amended) on the sample batch. -/
theorem convert_completes_witness : ∃ out', convert sampleBatch {} = some out' :=
  convert_completes sampleBatch {} sampleBatch_inRange sampleBatch_strings

/-- Witness of C18 (amended) on the sample batch. -/
theorem convert_in_range_safe_witness :
    ∃ out D, convert.loop sampleBatch.ResourceProfiles
        ({} : v1development.ProfilesDictionary String) = some (out, D) ∧
      FunctionsValid D ∧
      ∀ pc ∈ inputContainers sampleBatch.ResourceProfiles, ∀ profile,
        pc.Profile = some profile → ∀ f ∈ profile.Function, ∀ df ∈ D.FunctionTable,
          ∃ b, functionEqual f df profile D = some b :=
  convert_in_range_safe sampleBatch sampleBatch_inRange sampleBatch_strings

/-- C12 as stated fails: `convert` aborts on a batch whose profile has an empty local
string table, on a batch whose location refers to a mapping position that does not
exist, and on a batch with every index in range whose string table exceeds the range of
`int32`. -/
theorem convert_aborts_on_malformed :
    convert emptyTableBatch {} = none ∧ convert missingMappingBatch {} = none ∧
    convert (wideBatch bigStrings 2147483648 0) {} = none :=
  ⟨emptyTableBatch_aborts, missingMappingBatch_aborts,
    convert_eq_none_of_loop _ _ bigBatch_aborts⟩

/-- C18 as stated fails beyond the range of `int32`: every index field of the batch is in
range, its string table has `2^32 + 1` distinct texts and a function is named from
position `2^31`; the dictionary form of the function gets the name index `-2^31`, and the
lookup `dict.StringTable[dfunc.NameStrindex]` of `functionEqual` is out of range. -/
theorem convert_in_range_aborts :
    BatchInRange (wideBatch bigStrings 2147483648 0) ∧
    convert.loop (wideBatch bigStrings 2147483648 0).ResourceProfiles {} = none ∧
    functionEqual ⟨((2147483648 : Nat) : Int), 0, 0, 0⟩ { NameStrindex := -2147483648 }
      (wideProfile bigStrings 2147483648 0)
      ({ StringTable := bigStrings, MappingTable := [{}],
         FunctionTable := [{}, { NameStrindex := -2147483648 }] } :
        v1development.ProfilesDictionary String) = none :=
  ⟨bigBatch_inRange, bigBatch_aborts,
    wide_functionEqual_neg bigStrings (bigName 2147483648) 2147483648 0 (-2147483648)
      (bigStrings_getElem? 2147483648 (by norm_num)) (by norm_num)⟩

section
variable {KV : Type} [DecidableEq KV]
open v1development (ProfilesDictionary)

/-! ### The resolvers find what the earlier stages interned -/

theorem addToDictionary_interned_iff (pc : v1experimental.ProfileContainer KV)
    (d d5 : ProfilesDictionary KV) :
    addToDictionary.interned pc d = some d5 ↔
    ∃ profile d4, pc.Profile = some profile ∧
      addMappingToDictionary.loop profile profile.Mapping
        (addAttributeToDictionary.loop profile.AttributeTable
          (addStringToDictionary.loop profile.StringTable
            (addLinkToDictionary.loop profile.LinkTable d))) = some d4 ∧
      addFunctionToDictionary.loop profile profile.Function d4 = some d5 := by
  constructor
  · intro h
    unfold addToDictionary.interned at h
    cases hp : pc.Profile with
    | none => simp [addLinkToDictionary, hp] at h
    | some profile =>
      simp only [addLinkToDictionary, addStringToDictionary, addAttributeToDictionary,
        addMappingToDictionary, addFunctionToDictionary, hp] at h
      split at h
      · simp at h
      · rename_i d4 h4
        exact ⟨profile, d4, rfl, h4, h⟩
  · rintro ⟨profile, d4, hp, h4, h5⟩
    simp only [addToDictionary.interned, addLinkToDictionary, addStringToDictionary,
      addAttributeToDictionary, addMappingToDictionary, addFunctionToDictionary, hp, h4, h5]

theorem resolversHit_of_stages (profile : v1experimental.Profile KV)
    (d3 d4 d5 d6 e : ProfilesDictionary KV) (li : List Int) (sm : List v1development.Sample)
    (h4 : addMappingToDictionary.loop profile profile.Mapping d3 = some d4)
    (h5 : addFunctionToDictionary.loop profile profile.Function d4 = some d5)
    (h6 : addLocationToDictionary.loop profile profile.Location d5 = some (li, d6))
    (h7 : addSamplesToDictionary.loop profile profile.Sample d6 = some (sm, e))
    (hS : Small e) : ResolversHit profile d5 d6 e := by
  have hle45 := (addFunctionToDictionary_loop_tables _ _ _ _ h5).le
  have hle56 := (addLocationToDictionary_loop_tables _ _ _ _ _ h6).le
  have hle67 := (addSamplesToDictionary_loop_links _ _ _ _ _ h7).le
  have hF : ∀ d', DictLe d5 d' → Small d' → FunctionsInterned profile d' := by
    intro d' h5d hS' f hf
    obtain ⟨df, h1, h2⟩ := (addFunctionToDictionary_loop_spec profile d' profile.Function
      (fun _ hx => hx) d4 d5 h5 h5d).2 hS' f hf
    exact ⟨df, h5d.functions.subset h1, h2⟩
  have hM : ∀ d', DictLe d5 d' → Small d' → MappingsInterned profile d' := by
    intro d' h5d hS' m hm
    obtain ⟨dm, h1, h2⟩ := (addMappingToDictionary_loop_spec profile d' profile.Mapping
      (fun _ hx => hx) d3 d4 h4 (hle45.trans' h5d)).2 hS' m hm
    exact ⟨dm, (hle45.trans' h5d).mappings.subset h1, h2⟩
  have hL : LocationsInterned profile d6 :=
    (addLocationToDictionary_loop_spec profile d6 profile.Location (fun _ hx => hx) d5 d6 li
      h6 (DictLe.rfl' _) (hF d5 (DictLe.rfl' _)) (hM d5 (DictLe.rfl' _))).2.2
  refine ⟨?_, ?_⟩
  · intro d' h5d hd6
    have hS' : Small d' := Small.of_le (hd6.trans' hle67) hS
    refine ⟨?_, ?_⟩
    · intro loc _ m hm
      obtain ⟨dm, h1, h2⟩ := hM d' h5d hS' m (List.getElem?_mem hm)
      exact (lookupMapping_first m d' hS'.1 ⟨dm, h1, h2.key⟩).1
    · intro loc _ ln _ f hf r hr
      exact (lookupFunction_first f profile d' r hr hS'.2.2.1
        (hF d' h5d hS' f (List.getElem?_mem hf))).1
  · intro d' h6d hde s _ loc hloc
    have hS' : Small d' := Small.of_le hde hS
    exact (lookupLocation_first loc d' hS'.2.1
      (hL.monoLocations h6d loc (List.getElem?_mem hloc))).1

/-- C19 (amended): in every call of `addToDictionary` that returns with all six shared
tables below `2^31` entries, no resolver misses.  With `d5` the dictionary after the five
interning steps, `d6` the dictionary after the locations and `e` the one after the
samples: `lookupMapping` is non-negative on the mapping of every location and
`lookupFunction` on the function of every line at every dictionary between `d5` and `d6`,
`lookupLocation` is non-negative on the start location of every sample at every
dictionary between `d6` and `e`, and every converted location has its `MappingIndex`
set. -/
theorem resolvers_never_miss (pc : v1experimental.ProfileContainer KV)
    (p0 dp : v1development.Profile) (d e : ProfilesDictionary KV)
    (h : addToDictionary pc p0 d = some (dp, e)) (hS : Small e) :
    ∃ profile d5 d6, pc.Profile = some profile ∧
      addToDictionary.interned pc d = some d5 ∧
      addLocationToDictionary.loop profile profile.Location d5 = some (dp.LocationIndices, d6) ∧
      addSamplesToDictionary.loop profile profile.Sample d6 = some (dp.Sample, e) ∧
      ResolversHit profile d5 d6 e ∧
      ∀ o ∈ dp.LocationIndices, ∃ dl k,
        sliceAt e.LocationTable o = some dl ∧ dl.MappingIndex = some k := by
  obtain ⟨profile, d5, d6, li, sm, hp, hint, h6, h7, rfl⟩ := addToDictionary_stages pc p0 dp d e h
  obtain ⟨profile', d4, hp', h4, h5⟩ := (addToDictionary_interned_iff pc d d5).1 hint
  rw [hp] at hp'
  simp only [Option.some.injEq] at hp'
  subst hp'
  refine ⟨profile, d5, d6, hp, hint, h6, h7,
    resolversHit_of_stages profile _ d4 d5 d6 e li sm h4 h5 h6 h7 hS, ?_⟩
  obtain ⟨profile', hp', -, -, -, -, hspec⟩ := addToDictionary_spec pc p0 _ d e e h (DictLe.rfl' e)
  rw [hp] at hp'
  simp only [Option.some.injEq] at hp'
  subst hp'
  obtain ⟨-, -, hloc, -⟩ := hspec hS
  refine forall₂_right hloc (fun _ o hspec => ?_)
  obtain ⟨dl, hdl, -, -, -, -, m, k, -, hk, -⟩ := hspec
  exact ⟨dl, k, hdl, hk⟩

end

theorem sampleContainerA_stage :
    addToDictionary sampleContainerA {} {} = some (sampleStageOutA, sampleStageDictionaryA) := by
  decide

/-- Witness of C19 (amended) on the first container of the sample batch. -/
theorem resolvers_never_miss_witness :
    ∃ profile d5 d6, sampleContainerA.Profile = some profile ∧
      addToDictionary.interned sampleContainerA {} = some d5 ∧
      addLocationToDictionary.loop profile profile.Location d5 =
        some (sampleStageOutA.LocationIndices, d6) ∧
      addSamplesToDictionary.loop profile profile.Sample d6 =
        some (sampleStageOutA.Sample, sampleStageDictionaryA) ∧
      ResolversHit profile d5 d6 sampleStageDictionaryA ∧
      ∀ o ∈ sampleStageOutA.LocationIndices, ∃ dl k,
        sliceAt sampleStageDictionaryA.LocationTable o = some dl ∧ dl.MappingIndex = some k :=
  resolvers_never_miss sampleContainerA {} sampleStageOutA {} sampleStageDictionaryA
    sampleContainerA_stage (by simp [Small, sampleStageDictionaryA, sampleDictionaryA])

/-! ### A resolver that misses beyond the range of `int32` -/

section
variable (st : List String) (a c : String) (n m : Nat)

theorem wide_interned (hnd : st.Nodup) (h0 : st[0]? = some a) (hn : st[n]? = some c)
    (hwrap : toInt32 (n : Int) = 0) :
    addToDictionary.interned (wideContainer st n m) {} =
      some { StringTable := st, MappingTable := [{}], FunctionTable := [{}] } := by
  have hp : (wideContainer st n m).Profile = some (wideProfile st n m) := rfl
  have h4 := wide_stages st a n m hnd h0
  simp only [addMappingToDictionary, hp] at h4
  exact (addToDictionary_interned_iff _ _ _).2
    ⟨wideProfile st n m, _, hp, h4, wide_addFunction st a c n m hnd h0 hn hwrap⟩

theorem wide_lookup_miss (h0 : st[0]? = some a) (hn : st[n]? = some c) (hne : c ≠ a) :
    lookupFunction ⟨(n : Int), 0, 0, 0⟩ (wideProfile st n m)
      ({ StringTable := st, MappingTable := [{}], FunctionTable := [{}] } :
        v1development.ProfilesDictionary String) = some (-1) := by
  have hs0 : sliceAt st 0 = some a := by simp [sliceAt, h0]
  have hsn : sliceAt st (n : Int) = some c := by rw [sliceAt_natCast]; exact hn
  simp [lookupFunction, lookupFunction.loop, functionEqual, wideProfile, hs0, hsn, hne]

end

/-- C19 as stated fails beyond the range of `int32`: every index field of the batch is in
range and the conversion completes, but the function of the only line is named from
position `2^32` of a string table of `2^32 + 1` distinct texts; its dictionary form has
name index 0, and `lookupFunction` finds no equal entry and returns `-1`. -/
theorem resolver_misses_beyond_int32 :
    BatchInRange (wideBatch bigStrings 4294967296 2147483648) ∧
    convert.loop (wideBatch bigStrings 4294967296 2147483648).ResourceProfiles {} =
      some (wideOut (-2147483648), wideDictionary bigStrings) ∧
    addToDictionary.interned (wideContainer bigStrings 4294967296 2147483648) {} =
      some { StringTable := bigStrings, MappingTable := [{}], FunctionTable := [{}] } ∧
    (wideProfile bigStrings 4294967296 2147483648).Function[1]? =
      some ⟨((4294967296 : Nat) : Int), 0, 0, 0⟩ ∧
    lookupFunction ⟨((4294967296 : Nat) : Int), 0, 0, 0⟩
      (wideProfile bigStrings 4294967296 2147483648)
      ({ StringTable := bigStrings, MappingTable := [{}], FunctionTable := [{}] } :
        v1development.ProfilesDictionary String) = some (-1) :=
  ⟨wide_inRange bigStrings 4294967296 2147483648 (by rw [bigStrings_length]; norm_num)
      (by rw [bigStrings_length]; norm_num),
    bigBatch_run,
    wide_interned bigStrings (bigName 0) (bigName 4294967296) 4294967296 2147483648
      bigStrings_nodup (bigStrings_getElem? 0 (by norm_num))
      (bigStrings_getElem? 4294967296 (by norm_num)) toInt32_pow32,
    rfl,
    wide_lookup_miss bigStrings (bigName 0) (bigName 4294967296) 4294967296 2147483648
      (bigStrings_getElem? 0 (by norm_num)) (bigStrings_getElem? 4294967296 (by norm_num))
      bigName_pow32_ne⟩

section
variable {KV : Type} [DecidableEq KV]
open v1development (ProfilesDictionary)

/-! ### The start location of a sample -/

theorem lookupLocation_miss (loc : v1experimental.Location) (d : ProfilesDictionary KV)
    (h : ∀ dl ∈ d.LocationTable, ¬ loc.Address = dl.Address) : lookupLocation loc d = -1 := by
  rcases lookupLocation_loop_spec loc d.LocationTable 0 with ⟨h1, -⟩ | ⟨k, x, h1, h2, -, -⟩
  · exact h1
  · exact absurd h2 (h x (List.getElem?_mem h1))

theorem startIndexSpec_of_lookup (profile : v1experimental.Profile KV)
    (d D : ProfilesDictionary KV) (hD : D.LocationTable = d.LocationTable)
    (hsmall : d.LocationTable.length < 2 ^ 31) (s : v1experimental.Sample)
    (o : v1development.Sample) (loc : v1experimental.Location)
    (hloc : profile.Location[s.LocationsStartIndex]? = some loc)
    (ho : o.LocationsStartIndex = if lookupLocation loc d ≥ 0 then lookupLocation loc d else 0) :
    StartIndexSpec profile D s o := by
  refine ⟨loc, hloc, ?_, ?_⟩
  · intro hex
    rw [hD] at hex ⊢
    obtain ⟨h0, hfirst⟩ := lookupLocation_first loc d hsmall hex
    rw [ho, if_pos h0]
    exact hfirst
  · intro hno
    rw [hD] at hno
    rw [ho, lookupLocation_miss loc d hno]
    rfl

theorem addSamplesToDictionary_loop_start (profile : v1experimental.Profile KV)
    (l : List v1experimental.Sample) (d e D : ProfilesDictionary KV)
    (out : List v1development.Sample)
    (h : addSamplesToDictionary.loop profile l d = some (out, e))
    (hD : D.LocationTable = d.LocationTable) (hsmall : d.LocationTable.length < 2 ^ 31) :
    List.Forall₂ (StartIndexSpec profile D) l out := by
  induction l generalizing d out with
  | nil =>
    simp only [addSamplesToDictionary.loop, Option.some.injEq, Prod.mk.injEq] at h
    obtain ⟨rfl, rfl⟩ := h
    exact List.Forall₂.nil
  | cons s rest ih =>
    simp only [addSamplesToDictionary.loop] at h
    split at h
    · simp at h
    · rename_i location hloc
      split at h
      · split at h
        · simp at h
        · split at h
          · simp at h
          · rename_i r d1 hr
            simp only [Option.some.injEq, Prod.mk.injEq] at h
            obtain ⟨rfl, rfl⟩ := h
            exact List.Forall₂.cons
              (startIndexSpec_of_lookup profile d D hD hsmall s _ location hloc rfl)
              (ih _ _ hr hD hsmall)
      · split at h
        · simp at h
        · rename_i r d1 hr
          simp only [Option.some.injEq, Prod.mk.injEq] at h
          obtain ⟨rfl, rfl⟩ := h
          exact List.Forall₂.cons
            (startIndexSpec_of_lookup profile d D hD hsmall s _ location hloc rfl)
            (ih _ _ hr hD hsmall)

/-- C15 (amended): for every dictionary whose location table has fewer than `2^31`
entries and every profile whose samples have an existing start location (and a link
position below `2^63`), `addSamplesToDictionary` returns, leaves the location table as it
is, and sets the `LocationsStartIndex` of each converted sample to the first position of
the shared location table whose address is that of the source start location (no other
field is compared), and to zero when no shared location has that address. -/
theorem addSamples_start_index (pc : v1experimental.ProfileContainer KV)
    (profile : v1experimental.Profile KV) (d : ProfilesDictionary KV)
    (hp : pc.Profile = some profile)
    (hl : ∀ s ∈ profile.Sample,
      s.LocationsStartIndex < profile.Location.length ∧ s.Link < 2 ^ 63)
    (hsmall : d.LocationTable.length < 2 ^ 31) :
    ∃ out e, addSamplesToDictionary pc d = some (out, e) ∧
      e.LocationTable = d.LocationTable ∧
      List.Forall₂ (StartIndexSpec profile d) profile.Sample out := by
  obtain ⟨out, e, h⟩ := addSamplesToDictionary_loop_total profile profile.Sample hl d
  refine ⟨out, e, by simp only [addSamplesToDictionary, hp, h], ?_, ?_⟩
  · exact (addSamplesToDictionary_loop_links _ _ _ _ _ h).location_eq (fun _ hx => hx.elim)
  · exact addSamplesToDictionary_loop_start profile _ d e d out h rfl hsmall

end

/-- Witness of C15 (amended): the samples of the first profile of the sample batch,
resolved against the dictionary of that profile. -/
theorem addSamples_start_index_witness :
    ∃ out e, addSamplesToDictionary sampleContainerA sampleDictionaryA = some (out, e) ∧
      e.LocationTable = sampleDictionaryA.LocationTable ∧
      List.Forall₂ (StartIndexSpec sampleProfileA sampleDictionaryA) sampleProfileA.Sample out :=
  addSamples_start_index sampleContainerA sampleProfileA sampleDictionaryA rfl
    (by simp [sampleProfileA]) (by simp [sampleDictionaryA])

/-! ### A location table beyond the range of `int32` -/

section
variable (lt : List v1development.Location) (a N : Nat) (k : Int)

theorem far_lookup (x : v1development.Location) (hN : lt[N]? = some x) (hx : a = x.Address)
    (hfirst : ∀ j y, j < N → lt[j]? = some y → ¬ a = y.Address) :
    lookupLocation ⟨0, a, [], false, []⟩ (farDictionary lt) = toInt32 (N : Int) := by
  rcases lookupLocation_loop_spec ⟨0, a, [], false, []⟩ lt 0 with
    ⟨-, h2⟩ | ⟨j, y, h1, h2, h3, h4⟩
  · exact absurd hx (h2 x (List.getElem?_mem hN))
  · rcases lt_trichotomy j N with hlt | heq | hgt
    · exact absurd h2 (hfirst j y hlt h1)
    · subst heq
      rw [Nat.zero_add] at h3
      exact h3
    · exact absurd hx (h4 N x hgt hN)

theorem far_samples
    (hlook : lookupLocation ⟨0, a, [], false, []⟩ (farDictionary lt) = k) (hk : k < 0) :
    addSamplesToDictionary (farContainer a) (farDictionary lt) =
      some ([{ LocationsStartIndex := 0, LocationsLength := 1 }], farDictionary lt) := by
  have h1 : toInt32 ((1 : Nat) : Int) = 1 := by norm_num [toInt32]
  have h2 : ¬ ((([] : List v1experimental.Link).length : Int) > toInt64 ((0 : Nat) : Int)) := by
    norm_num [toInt64]
  simp only [addSamplesToDictionary, farContainer, farProfile, addSamplesToDictionary.loop,
    List.getElem?_cons_zero, hlook, ge_iff_le, not_le.2 hk, if_false, h1, h2]

theorem far_spec_fails (x0 xN : v1development.Location) (h0 : lt[0]? = some x0)
    (hx0 : ¬ a = x0.Address) (hN : lt[N]? = some xN) (hxN : a = xN.Address) :
    ¬ StartIndexSpec (farProfile a) (farDictionary lt) ⟨0, 1, [], 0, []⟩
      { LocationsStartIndex := 0, LocationsLength := 1 } := by
  rintro ⟨loc, hloc, hfirst, -⟩
  simp only [farProfile, List.getElem?_cons_zero, Option.some.injEq] at hloc
  subst hloc
  obtain ⟨⟨y, hy, hpy⟩, -⟩ := hfirst ⟨xN, List.getElem?_mem hN, hxN⟩
  have hy' : lt[0]? = some y := by
    have := hy
    simp only [sliceAt, farDictionary] at this
    exact this
  rw [h0] at hy'
  simp only [Option.some.injEq] at hy'
  subst hy'
  exact hx0 hpy

end

theorem farLocations_getElem? (j : Nat) (hj : j < 2 ^ 31 + 1) :
    farLocations[j]? = some { Address := j } := by
  unfold farLocations
  exact map_range_getElem? _ _ j hj

theorem farLocations_first (j : Nat) (y : v1development.Location) (hj : j < 2147483648)
    (hy : farLocations[j]? = some y) : ¬ 2147483648 = y.Address := by
  rw [farLocations_getElem? j (by omega)] at hy
  simp only [Option.some.injEq] at hy
  subst hy
  intro h
  have h' : 2147483648 = j := h
  omega

/-- C15 as stated fails beyond the range of `int32`: in a location table of `2^31 + 1`
distinct locations the only entry with the address of the sample's start location is at
position `2^31`; `lookupLocation` returns `int32(2^31) = -2^31`, and the converted sample
keeps the start index 0, whose entry has another address. -/
theorem start_index_wraps :
    addSamplesToDictionary (farContainer 2147483648) (farDictionary farLocations) =
      some ([{ LocationsStartIndex := 0, LocationsLength := 1 }], farDictionary farLocations) ∧
    farLocations[2147483648]? = some { Address := 2147483648 } ∧
    farLocations[0]? = some { Address := 0 } ∧
    ¬ StartIndexSpec (farProfile 2147483648) (farDictionary farLocations) ⟨0, 1, [], 0, []⟩
      { LocationsStartIndex := 0, LocationsLength := 1 } :=
  ⟨far_samples farLocations 2147483648 (-2147483648)
      ((far_lookup farLocations 2147483648 2147483648 _
        (farLocations_getElem? 2147483648 (by norm_num)) rfl farLocations_first).trans
        toInt32_pow31) (by norm_num),
    farLocations_getElem? 2147483648 (by norm_num),
    farLocations_getElem? 0 (by norm_num),
    far_spec_fails farLocations 2147483648 2147483648 _ _
      (farLocations_getElem? 0 (by norm_num)) (by norm_num)
      (farLocations_getElem? 2147483648 (by norm_num)) rfl⟩

section
variable {KV : Type} [DecidableEq KV]
open v1development (ProfilesDictionary)

/-! ### The converted locations -/

theorem LocationSpec.copy {profile : v1experimental.Profile KV} {d : ProfilesDictionary KV}
    {loc : v1experimental.Location} {o : Int} (h : LocationSpec profile d loc o) :
    LocationCopySpec profile d loc o := by
  obtain ⟨dl, hdl, ha, hf, hlines, hattrs, -⟩ := h
  exact ⟨dl, hdl, ha, hf, hlines.length_eq.symm, hattrs⟩

/-- C16 (amended): in every completed conversion with all six final shared tables below
`2^31` entries, the `LocationIndices` of each converted profile has exactly one entry per
source location, in source order, and the shared location at the `i`-th index has the
address and folded flag of the `i`-th source location, as many line entries, and
attribute indices that denote, position by position, the attributes the source location
referred to. -/
theorem convert_locations (input : v1experimental.ProfilesData KV)
    (out : List (v1development.ResourceProfiles KV)) (D : ProfilesDictionary KV)
    (h : convert.loop input.ResourceProfiles {} = some (out, D)) (hS : Small D) :
    List.Forall₂
      (fun pc dp => ∃ profile, pc.Profile = some profile ∧
        List.Forall₂ (LocationCopySpec profile D) profile.Location dp.LocationIndices)
      (inputContainers input.ResourceProfiles) (outputProfiles out) := by
  refine ((convert_loop_spec input.ResourceProfiles D out h).2.2 hS).imp ?_
  rintro pc dp ⟨profile, hspec⟩
  exact ⟨profile, hspec.present, hspec.locations.imp (fun _ _ hl => hl.copy)⟩

theorem addAttributeToDictionary_loop_append (l : List KV) (d : ProfilesDictionary KV)
    (hnd : (d.AttributeTable ++ l).Nodup) :
    addAttributeToDictionary.loop l d = { d with AttributeTable := d.AttributeTable ++ l } := by
  induction l generalizing d with
  | nil => simp only [addAttributeToDictionary.loop, List.append_nil]
  | cons x rest ih =>
    have hx : x ∉ d.AttributeTable := by
      intro hmem
      have := List.nodup_append.1 hnd
      exact this.2.2 hmem (List.mem_cons_self _ _)
    have hstep : (internAttribute d x).1 =
        { d with AttributeTable := d.AttributeTable ++ [x] } := by
      simp only [internAttribute, findInsertProtoMessage_eq, findInsert_of_not_mem _ _ hx]
    simp only [addAttributeToDictionary.loop]
    rw [hstep, ih _ (by simpa using hnd)]
    simp

theorem internAttribute_of_nodup (d : ProfilesDictionary KV) (k : Nat) (x : KV)
    (hnd : d.AttributeTable.Nodup) (hk : d.AttributeTable[k]? = some x) :
    internAttribute d x = (d, k) := by
  cases d
  simp only [internAttribute, findInsertProtoMessage_eq, findInsert_of_nodup _ k x hnd hk]

end

/-- Witness of C16 (amended) on the sample batch. -/
theorem convert_locations_witness :
    List.Forall₂
      (fun pc dp => ∃ profile, pc.Profile = some profile ∧
        List.Forall₂ (LocationCopySpec profile sampleDictionary) profile.Location
          dp.LocationIndices)
      (inputContainers sampleBatch.ResourceProfiles) (outputProfiles sampleOut) :=
  convert_locations sampleBatch sampleOut sampleDictionary sampleBatch_run
    sampleDictionary_small

/-! ### An attribute table beyond the range of `int32` -/

section
variable (al : List String) (n : Nat) (k : Int) (x : String)

theorem attr_body (hnd : al.Nodup) (hn : al[n]? = some x) (hk : toInt32 (n : Int) = k) :
    convertProfiles.body
      (⟨[], 0, 0, [], 0, "", [], some (attrProfile al n)⟩ :
        v1experimental.ProfileContainer String) {} =
      some ({ LocationIndices := [0], PeriodType := some {} }, attrDictionary al k) := by
  have h3 : addAttributeToDictionary.loop (attrProfile al n).AttributeTable
      (addStringToDictionary.loop (attrProfile al n).StringTable
        (addLinkToDictionary.loop (attrProfile al n).LinkTable
          ({} : v1development.ProfilesDictionary String))) =
      { StringTable := [""], AttributeTable := al } := by
    have h2 : addStringToDictionary.loop (attrProfile al n).StringTable
        (addLinkToDictionary.loop (attrProfile al n).LinkTable
          ({} : v1development.ProfilesDictionary String)) = { StringTable := [""] } := rfl
    rw [h2, addAttributeToDictionary_loop_append _ _ (by simpa [attrProfile] using hnd)]
    simp [attrProfile]
  have h4 : addMappingToDictionary.loop (attrProfile al n) (attrProfile al n).Mapping
      ({ StringTable := [""], AttributeTable := al } :
        v1development.ProfilesDictionary String) =
      some { StringTable := [""], AttributeTable := al, MappingTable := [{}] } := by
    simp [attrProfile, addMappingToDictionary.loop, addMappingToDictionary.attrs, sliceAt,
      internString, findInsert, findEqual, internMapping, findInsertProtoMessage, toInt32_zero]
  have h5 : addFunctionToDictionary.loop (attrProfile al n) (attrProfile al n).Function
      ({ StringTable := [""], AttributeTable := al, MappingTable := [{}] } :
        v1development.ProfilesDictionary String) =
      some { StringTable := [""], AttributeTable := al, MappingTable := [{}] } := rfl
  have hia := internAttribute_of_nodup
    ({ StringTable := [""], AttributeTable := al, MappingTable := [{}] } :
      v1development.ProfilesDictionary String) n x hnd hn
  have h6 : addLocationToDictionary.loop (attrProfile al n) (attrProfile al n).Location
      ({ StringTable := [""], AttributeTable := al, MappingTable := [{}] } :
        v1development.ProfilesDictionary String) = some ([0], attrDictionary al k) := by
    simp [attrProfile, addLocationToDictionary.loop, addLocationToDictionary.lines,
      addLocationToDictionary.attrs, lookupMapping, lookupMapping.loop, hn, hia, hk,
      internLocation, findInsertProtoMessage, findEqual, toInt32_zero, attrDictionary]
  have h7 : addSamplesToDictionary.loop (attrProfile al n) (attrProfile al n).Sample
      (attrDictionary al k) = some ([], attrDictionary al k) := rfl
  have h8 : convertSampleType (attrProfile al n).SampleType (attrProfile al n).StringTable
      (attrDictionary al k) = some ([], attrDictionary al k) := rfl
  have hi0 : internString (attrDictionary al k) "" = (attrDictionary al k, 0) := by
    simp [internString, findInsert, findEqual, attrDictionary]
  have hs0 : sliceAt [""] 0 = some "" := rfl
  have h9 : convertValueType (attrProfile al n).PeriodType (attrProfile al n).StringTable
      (attrDictionary al k) = some ({}, attrDictionary al k) := by
    show convertValueType (some ⟨0, 0⟩) [""] (attrDictionary al k) = _
    simp only [convertValueType, hs0, hi0, Nat.cast_zero, toInt32_zero]
  have h10 : convertComments (attrProfile al n).Comment (attrProfile al n).StringTable
      (attrDictionary al k) = some ([], attrDictionary al k) := rfl
  have hs : sliceAt (attrProfile al n).StringTable (attrProfile al n).DefaultSampleType =
      some "" := rfl
  refine (convertProfiles_body_iff _ _ _ _).2
    ⟨attrProfile al n, _, _, [0], attrDictionary al k, [], attrDictionary al k, [],
      attrDictionary al k, {}, attrDictionary al k, [], attrDictionary al k, "", rfl,
      by rw [h3]; exact h4, h5, h6, h7, h8, h9, h10, hs, ?_, ?_⟩
  · rw [hi0]; rfl
  · rw [hi0]
    simp only [convertAttributes, Nat.cast_zero, toInt32_zero, toInt64_zero, sub_self,
      attrProfile]

theorem attr_run (hnd : al.Nodup) (hn : al[n]? = some x) (hk : toInt32 (n : Int) = k) :
    convert.loop (attrBatch al n).ResourceProfiles {} =
      some (attrOut, attrDictionary al k) := by
  simp only [attrBatch, convert.loop, convertResourceProfiles, convertScopeProfiles,
    convertProfiles, attr_body al n k x hnd hn hk, attrOut]

theorem attr_fails (hk : k < 0) :
    ¬ List.Forall₂
      (fun pc dp => ∃ profile, pc.Profile = some profile ∧
        List.Forall₂ (LocationCopySpec profile (attrDictionary al k)) profile.Location
          dp.LocationIndices)
      (inputContainers (attrBatch al n).ResourceProfiles) (outputProfiles attrOut) := by
  intro h
  simp only [inputContainers, outputProfiles, attrBatch, attrOut, List.flatMap_cons,
    List.flatMap_nil, List.append_nil, List.forall₂_cons, List.forall₂_nil_left_iff,
    and_true] at h
  obtain ⟨profile, hp, hl⟩ := h
  simp only [Option.some.injEq] at hp
  subst hp
  simp only [attrProfile, List.forall₂_cons, List.forall₂_nil_left_iff, and_true] at hl
  obtain ⟨dl, hdl, -, -, -, hattrs⟩ := hl
  simp [sliceAt, attrDictionary] at hdl
  subst hdl
  simp only [List.forall₂_cons, List.forall₂_nil_left_iff, and_true] at hattrs
  obtain ⟨y, -, hy⟩ := hattrs
  simp [sliceAt, hk] at hy

theorem attr_inRange (hn : n < al.length) : BatchInRange (attrBatch al n) := by
  intro pc hpc
  simp only [inputContainers, attrBatch, List.flatMap_cons, List.flatMap_nil, List.append_nil,
    List.mem_singleton] at hpc
  subst hpc
  refine ⟨attrProfile al n, rfl, ?_⟩
  constructor <;> simp [attrProfile, ValidIdx, hn]

end

/-- C16 as stated fails beyond the range of `int32`: every index field of the batch is in
range and the conversion completes, but the location refers to position `2^31` of an
attribute table of `2^32 + 1` distinct attributes, and the attribute index of the shared
location is `-2^31`, which denotes no entry of the shared attribute table. -/
theorem convert_locations_overflow :
    BatchInRange (attrBatch bigStrings 2147483648) ∧
    convert.loop (attrBatch bigStrings 2147483648).ResourceProfiles {} =
      some (attrOut, attrDictionary bigStrings (-2147483648)) ∧
    ¬ List.Forall₂
      (fun pc dp => ∃ profile, pc.Profile = some profile ∧
        List.Forall₂ (LocationCopySpec profile (attrDictionary bigStrings (-2147483648)))
          profile.Location dp.LocationIndices)
      (inputContainers (attrBatch bigStrings 2147483648).ResourceProfiles)
      (outputProfiles attrOut) :=
  ⟨attr_inRange bigStrings 2147483648 (by rw [bigStrings_length]; norm_num),
    attr_run bigStrings 2147483648 (-2147483648) (bigName 2147483648) bigStrings_nodup
      (bigStrings_getElem? 2147483648 (by norm_num)) toInt32_pow31,
    attr_fails bigStrings 2147483648 (-2147483648) (by norm_num)⟩

/-! ### Two profiles whose local tables are small and whose shared table is not -/

theorem insertAll_of_nodup (acc l : List String) (h : (acc ++ l).Nodup) :
    insertAll acc l = acc ++ l := by
  induction l generalizing acc with
  | nil => simp only [insertAll, List.foldl_nil, List.append_nil]
  | cons x rest ih =>
    have hx : x ∉ acc := by
      intro hmem
      exact (List.nodup_append.1 h).2.2 hmem (List.mem_cons_self _ _)
    have hstep : insertAll acc (x :: rest) = insertAll (acc ++ [x]) rest := by
      simp only [insertAll, List.foldl_cons, findInsert_of_not_mem _ _ hx]
    rw [hstep, ih _ (by simpa using h)]
    simp

section
variable (stA : List String) (a0 b0 b1 : String) (n : Nat) (c0 c1 : Int)

theorem split_bodyA (hnd : stA.Nodup) (ha : stA[0]? = some a0) :
    convertProfiles.body (plainContainer stA []) {} =
      some ({ PeriodType := some {} },
        ({ StringTable := stA } : v1development.ProfilesDictionary String)) := by
  have h3 : addAttributeToDictionary.loop (plainProfile stA []).AttributeTable
      (addStringToDictionary.loop (plainProfile stA []).StringTable
        (addLinkToDictionary.loop (plainProfile stA []).LinkTable
          ({} : v1development.ProfilesDictionary String))) = { StringTable := stA } := by
    show addStringToDictionary.loop stA ({} : v1development.ProfilesDictionary String) = _
    rw [addStringToDictionary_loop_eq]
    show ({ StringTable := insertAll [] stA } : v1development.ProfilesDictionary String) = _
    rw [insertAll_nil, dedupKeepFirst_of_nodup stA hnd]
  have hs0 : sliceAt stA 0 = some a0 := by simp [sliceAt, ha]
  have hi0 : internString ({ StringTable := stA } : v1development.ProfilesDictionary String)
      a0 = ({ StringTable := stA }, 0) := internString_of_nodup _ 0 a0 hnd ha
  have h9 : convertValueType (plainProfile stA []).PeriodType (plainProfile stA []).StringTable
      ({ StringTable := stA } : v1development.ProfilesDictionary String) =
      some ({}, { StringTable := stA }) := by
    show convertValueType (some ⟨0, 0⟩) stA _ = _
    simp only [convertValueType, hs0, hi0, Nat.cast_zero, toInt32_zero]
  have hs : sliceAt (plainProfile stA []).StringTable (plainProfile stA []).DefaultSampleType =
      some a0 := hs0
  refine (convertProfiles_body_iff _ _ _ _).2
    ⟨plainProfile stA [], { StringTable := stA }, { StringTable := stA }, [],
      { StringTable := stA }, [], { StringTable := stA }, [], { StringTable := stA }, {},
      { StringTable := stA }, [], { StringTable := stA }, a0, rfl, by rw [h3]; rfl, rfl, rfl,
      rfl, rfl, h9, rfl, hs, ?_, ?_⟩
  · rw [hi0]; rfl
  · rw [hi0]
    simp only [convertAttributes, Nat.cast_zero, toInt32_zero, toInt64_zero, sub_self,
      plainProfile, plainContainer]

theorem split_bodyB (hnd : (stA ++ [b0, b1]).Nodup) (hlen : stA.length = n)
    (hc0 : toInt32 (n : Int) = c0) (hc1 : toInt32 ((n + 1 : Nat) : Int) = c1) :
    convertProfiles.body (plainContainer [b0, b1] [1])
        ({ StringTable := stA } : v1development.ProfilesDictionary String) =
      some ({ PeriodType := some { TypeStrindex := c0, UnitStrindex := c0 }
              CommentStrindices := [c1]
              DefaultSampleTypeIndex := c0 }, splitDictionary stA b0 b1) := by
  have h3 : addAttributeToDictionary.loop (plainProfile [b0, b1] [1]).AttributeTable
      (addStringToDictionary.loop (plainProfile [b0, b1] [1]).StringTable
        (addLinkToDictionary.loop (plainProfile [b0, b1] [1]).LinkTable
          ({ StringTable := stA } : v1development.ProfilesDictionary String))) =
      splitDictionary stA b0 b1 := by
    show addStringToDictionary.loop [b0, b1]
      ({ StringTable := stA } : v1development.ProfilesDictionary String) = _
    rw [addStringToDictionary_loop_eq]
    show ({ StringTable := insertAll stA [b0, b1] } :
      v1development.ProfilesDictionary String) = _
    rw [insertAll_of_nodup stA _ hnd]
    rfl
  have hg0 : (splitDictionary stA b0 b1).StringTable[n]? = some b0 := by
    show (stA ++ [b0, b1])[n]? = some b0
    rw [List.getElem?_append_right (by omega), hlen, Nat.sub_self]
    rfl
  have hg1 : (splitDictionary stA b0 b1).StringTable[n + 1]? = some b1 := by
    show (stA ++ [b0, b1])[n + 1]? = some b1
    rw [List.getElem?_append_right (by omega), hlen, Nat.add_sub_cancel_left]
    rfl
  have hi0 : internString (splitDictionary stA b0 b1) b0 = (splitDictionary stA b0 b1, n) :=
    internString_of_nodup _ n b0 hnd hg0
  have hi1 : internString (splitDictionary stA b0 b1) b1 =
      (splitDictionary stA b0 b1, n + 1) := internString_of_nodup _ (n + 1) b1 hnd hg1
  have hs0 : sliceAt [b0, b1] 0 = some b0 := rfl
  have hs1 : sliceAt [b0, b1] 1 = some b1 := rfl
  have h9 : convertValueType (plainProfile [b0, b1] [1]).PeriodType
      (plainProfile [b0, b1] [1]).StringTable (splitDictionary stA b0 b1) =
      some ({ TypeStrindex := c0, UnitStrindex := c0 }, splitDictionary stA b0 b1) := by
    show convertValueType (some ⟨0, 0⟩) [b0, b1] _ = _
    simp only [convertValueType, hs0, hi0, hc0]
  have h10 : convertComments (plainProfile [b0, b1] [1]).Comment
      (plainProfile [b0, b1] [1]).StringTable (splitDictionary stA b0 b1) =
      some ([c1], splitDictionary stA b0 b1) := by
    show convertComments [1] [b0, b1] _ = _
    simp only [convertComments, hs1, hi1, hc1]
  have hs : sliceAt (plainProfile [b0, b1] [1]).StringTable
      (plainProfile [b0, b1] [1]).DefaultSampleType = some b0 := hs0
  refine (convertProfiles_body_iff _ _ _ _).2
    ⟨plainProfile [b0, b1] [1], splitDictionary stA b0 b1, splitDictionary stA b0 b1, [],
      splitDictionary stA b0 b1, [], splitDictionary stA b0 b1, [], splitDictionary stA b0 b1,
      _, splitDictionary stA b0 b1, [c1], splitDictionary stA b0 b1, b0, rfl,
      by rw [h3]; rfl, rfl, rfl, rfl, rfl, h9, h10, hs, ?_, ?_⟩
  · rw [hi0]; rfl
  · rw [hi0]
    simp only [convertAttributes, hc0, toInt64_zero, Nat.cast_zero, sub_self, plainProfile,
      plainContainer]

theorem split_run (hnd : (stA ++ [b0, b1]).Nodup) (ha : stA[0]? = some a0)
    (hlen : stA.length = n) (hc0 : toInt32 (n : Int) = c0)
    (hc1 : toInt32 ((n + 1 : Nat) : Int) = c1) :
    convert.loop (splitBatch stA b0 b1).ResourceProfiles {} =
      some (splitOut c0 c1, splitDictionary stA b0 b1) := by
  simp only [splitBatch, convert.loop, convertResourceProfiles, convertScopeProfiles,
    convertProfiles, split_bodyA stA a0 (List.nodup_append.1 hnd).1 ha,
    split_bodyB stA b0 b1 n c0 c1 hnd hlen hc0 hc1, splitOut]

theorem split_invalid (hc1 : c1 < 0) :
    ¬ ∀ p ∈ outputProfiles (splitOut c0 c1), ProfileValid (splitDictionary stA b0 b1) p := by
  intro h
  have hv := h { PeriodType := some { TypeStrindex := c0, UnitStrindex := c0 }
                 CommentStrindices := [c1]
                 DefaultSampleTypeIndex := c0 }
    (by simp [outputProfiles, splitOut])
  have := (hv.comments c1 (List.mem_singleton.2 rfl)).1
  omega

theorem split_inRange (hpos : 0 < stA.length) : BatchInRange (splitBatch stA b0 b1) := by
  intro pc hpc
  simp only [inputContainers, splitBatch, List.flatMap_cons, List.flatMap_nil, List.append_nil,
    List.mem_cons, List.mem_singleton, List.not_mem_nil, or_false] at hpc
  rcases hpc with rfl | rfl
  · exact ⟨plainProfile stA [], rfl, by constructor <;> simp [plainProfile, ValidIdx, hpos]⟩
  · exact ⟨plainProfile [b0, b1] [1], rfl, by constructor <;> simp [plainProfile, ValidIdx]⟩

theorem split_localSmall (hlt : stA.length < 2 ^ 31) :
    ∀ pc ∈ inputContainers (splitBatch stA b0 b1).ResourceProfiles, ∀ profile,
      pc.Profile = some profile → LocalTablesSmall profile := by
  intro pc hpc profile hp
  simp only [inputContainers, splitBatch, List.flatMap_cons, List.flatMap_nil, List.append_nil,
    List.mem_cons, List.mem_singleton, List.not_mem_nil, or_false] at hpc
  rcases hpc with rfl | rfl
  · simp only [plainContainer, Option.some.injEq] at hp
    subst hp
    simpa [LocalTablesSmall, plainProfile] using hlt
  · simp only [plainContainer, Option.some.injEq] at hp
    subst hp
    simp [LocalTablesSmall, plainProfile]

end

theorem halfStrings_length : halfStrings.length = 2147483647 := by
  unfold halfStrings
  rw [List.length_map, List.length_range]

theorem halfStrings_zero : halfStrings[0]? = some (bigName 0) := by
  unfold halfStrings
  exact map_range_getElem? bigName _ 0 (by norm_num)

theorem halfStrings_mem (x : String) (hx : x ∈ halfStrings) :
    ∃ k, k < 2147483647 ∧ x = bigName k := by
  unfold halfStrings at hx
  obtain ⟨k, hk, rfl⟩ := List.mem_map.1 hx
  exact ⟨k, List.mem_range.1 hk, rfl⟩

theorem halfStrings_nodup :
    (halfStrings ++ [bigName 2147483647, bigName 2147483648]).Nodup := by
  have h1 : halfStrings.Nodup := by
    unfold halfStrings
    exact (List.nodup_range _).map bigName_injective
  have h2 : [bigName 2147483647, bigName 2147483648].Nodup := by
    rw [List.nodup_cons]
    refine ⟨?_, List.nodup_singleton _⟩
    intro hmem
    have := bigName_injective (List.mem_singleton.1 hmem)
    omega
  refine List.nodup_append.2 ⟨h1, h2, ?_⟩
  intro x hx hy
  obtain ⟨k, hk, rfl⟩ := halfStrings_mem x hx
  rcases List.mem_cons.1 hy with h | h
  · have := bigName_injective h
    omega
  · have := bigName_injective (List.mem_singleton.1 h)
    omega

theorem toInt32_half : toInt32 ((2147483647 : Nat) : Int) = 2147483647 := by
  norm_num [toInt32]

theorem toInt32_half_succ : toInt32 ((2147483647 + 1 : Nat) : Int) = -2147483648 := by
  norm_num [toInt32]

/-- C3 as stated fails when the bound is read on the tables of the input batch: the batch
has two profiles, one with `2^31 - 1` distinct strings and one with two more, so every
local table has fewer than `2^31` entries and every local index is in range; the
conversion completes, the shared string table has `2^31 + 1` entries, and the comment of
the second profile is emitted as the string index `-2^31`, which is no valid position. -/
theorem convert_indices_overflow :
    BatchInRange (splitBatch halfStrings (bigName 2147483647) (bigName 2147483648)) ∧
    (∀ pc ∈ inputContainers
        (splitBatch halfStrings (bigName 2147483647) (bigName 2147483648)).ResourceProfiles,
      ∀ profile, pc.Profile = some profile → LocalTablesSmall profile) ∧
    convert.loop
        (splitBatch halfStrings (bigName 2147483647) (bigName 2147483648)).ResourceProfiles {} =
      some (splitOut 2147483647 (-2147483648),
        splitDictionary halfStrings (bigName 2147483647) (bigName 2147483648)) ∧
    ¬ ∀ p ∈ outputProfiles (splitOut 2147483647 (-2147483648)),
      ProfileValid (splitDictionary halfStrings (bigName 2147483647) (bigName 2147483648)) p :=
  ⟨split_inRange halfStrings _ _ (by rw [halfStrings_length]; norm_num),
    split_localSmall halfStrings _ _ (by rw [halfStrings_length]; norm_num),
    split_run halfStrings (bigName 0) _ _ 2147483647 2147483647 (-2147483648) halfStrings_nodup
      halfStrings_zero halfStrings_length toInt32_half toInt32_half_succ,
    split_invalid halfStrings _ _ 2147483647 (-2147483648) (by norm_num)⟩

end Otlpconv
